import Mathlib

/-!
# ip_2_country: address resolver and sliding-window rate limiter

A shallow embedding of `database/csv.go`, `database/database.go` and
`ratelimit/ratelimit.go`, together with the functions of the Go standard library
(`net`, `net/netip`, `strings`, `sort`) that the store calls, followed by the
properties of the specification proved about them.

Conventions: a Go byte is a natural number, a byte slice a list (the nil slice is `[]`),
a `time.Time` an integer count of nanoseconds, a Go map with a `len` an association
list, and a fallible function returns `Option` or `Except`.
-/

namespace Ip2Country

deriving instance DecidableEq for Except

/-! ## Go standard library: the parts of package net used by the store -/

/-- Go byte slice net.IP: 4 bytes (IPv4), 16 bytes (IPv6), the nil slice is the empty list. -/
abbrev IP := List Nat

/-- Go byte slice net.IPMask. -/
abbrev IPMask := List Nat

def IPv4len : Nat := 4

def IPv6len : Nat := 16

def v4InV6Prefix : List Nat := [0, 0, 0, 0, 0, 0, 0, 0, 0, 0, 0xff, 0xff]

/-- Go net.IPNet: network number and mask. -/
structure IPNet where
  IP : IP
  Mask : IPMask
deriving DecidableEq

def isZeros (p : List Nat) : Bool := p.all (fun b => b == 0)

def allFF (b : List Nat) : Bool := b.all (fun c => c == 0xff)

/-- Go IP.To4: the 4-byte form of an IPv4 address (also when stored as IPv4-mapped IPv6),
else nil. -/
def IP.To4 (ip : IP) : IP :=
  if ip.length = IPv4len then ip
  else if ip.length = IPv6len ∧ isZeros (ip.take 10) = true ∧ ip.getD 10 0 = 0xff ∧
      ip.getD 11 0 = 0xff then
    (ip.take 16).drop 12
  else []

/-- Inner loop of net.CIDRMask over the remaining bytes `l` with `n` one bits left. -/
def CIDRMask.fill : Nat → Nat → List Nat
  | 0, _ => []
  | l + 1, n =>
    if 8 ≤ n then 0xff :: CIDRMask.fill l (n - 8)
    else (0xff ^^^ (0xff >>> n)) :: CIDRMask.fill l 0

/-- Go net.CIDRMask: `ones` one bits followed by zeros, `bits` long; nil for other sizes. -/
def CIDRMask (ones bits : Nat) : IPMask :=
  if bits ≠ 8 * IPv4len ∧ bits ≠ 8 * IPv6len then []
  else if bits < ones then []
  else CIDRMask.fill (bits / 8) ones

/-- Leading one bits of a byte: the loop `for v&0x80 != 0 { n++; v <<= 1 }`. -/
def leadingOnes : Nat → Nat → Nat → Nat × Nat
  | 0, v, n => (n, v)
  | fuel + 1, v, n =>
    if v &&& 0x80 ≠ 0 then leadingOnes fuel ((v <<< 1) % 256) (n + 1) else (n, v)

/-- Go net.simpleMaskLength; `none` stands for the result -1. -/
def simpleMaskLength : IPMask → Nat → Option Nat
  | [], n => some n
  | v :: rest, n =>
    if v = 0xff then simpleMaskLength rest (n + 8)
    else
      let r := leadingOnes 8 v n
      if r.2 ≠ 0 then none
      else if rest.any (fun b => b != 0) then none
      else some r.1

/-- Go IPMask.Size: number of leading ones and of bits, (0, 0) for a non-canonical mask. -/
def IPMask.Size (m : IPMask) : Nat × Nat :=
  match simpleMaskLength m 0 with
  | none => (0, 0)
  | some ones => (ones, m.length * 8)

def andBytes (a b : List Nat) : List Nat := List.zipWith (fun x y => x &&& y) a b

/-- Go IP.Mask. -/
def IP.Mask (ip : IP) (mask : IPMask) : IP :=
  let mask := if mask.length = IPv6len ∧ ip.length = IPv4len ∧ allFF (mask.take 12) = true
    then mask.drop 12 else mask
  let ip := if mask.length = IPv4len ∧ ip.length = IPv6len ∧ ip.take 12 = v4InV6Prefix
    then ip.drop 12 else ip
  if ip.length ≠ mask.length then []
  else andBytes ip mask

/-- Go net.networkNumberAndMask. -/
def networkNumberAndMask (n : IPNet) : IP × IPMask :=
  let ip4 := n.IP.To4
  if ip4 = [] ∧ n.IP.length ≠ IPv6len then ([], [])
  else
    let ip := if ip4 = [] then n.IP else ip4
    let m := n.Mask
    if m.length = IPv4len then
      if ip.length ≠ IPv4len then ([], []) else (ip, m)
    else if m.length = IPv6len then
      if ip.length = IPv4len then (ip, m.drop 12) else (ip, m)
    else ([], [])

/-- Byte-wise comparison loop of IPNet.Contains. -/
def sameUnderMask : List Nat → IPMask → List Nat → Bool
  | n :: nn, m :: ms, x :: ip => if n &&& m ≠ x &&& m then false else sameUnderMask nn ms ip
  | _, _, _ => true

/-- Go IPNet.Contains. -/
def IPNet.Contains (n : IPNet) (ip : Ip2Country.IP) : Bool :=
  let nm := networkNumberAndMask n
  let ip := if ip.To4 ≠ [] then ip.To4 else ip
  if ip.length ≠ nm.1.length then false
  else sameUnderMask nm.1 nm.2 ip

/-! ### Text form of addresses (package net/netip) -/

/-- Go netip `const digits = "0123456789abcdef"`. -/
def digits : List Char := "0123456789abcdef".data

def digit (n : Nat) : Char := digits.getD n '0'

/-- Go netip appendDecimal: a byte in decimal without leading zeros. -/
def appendDecimal (b : List Char) (x : Nat) : List Char :=
  let b := if 100 ≤ x then b ++ [digit (x / 100)] else b
  let b := if 10 ≤ x then b ++ [digit (x / 10 % 10)] else b
  b ++ [digit (x % 10)]

/-- Go netip appendHex: a 16-bit group in hexadecimal without leading zeros. -/
def appendHex (b : List Char) (x : Nat) : List Char :=
  let b := if 0x1000 ≤ x then b ++ [digit (x >>> 12)] else b
  let b := if 0x100 ≤ x then b ++ [digit (x >>> 8 &&& 0xf)] else b
  let b := if 0x10 ≤ x then b ++ [digit (x >>> 4 &&& 0xf)] else b
  b ++ [digit (x &&& 0xf)]

/-- Dotted-quad text of a 4-byte address. -/
def string4 (p : List Nat) : List Char :=
  let r := appendDecimal [] (p.getD 0 0)
  let r := appendDecimal (r ++ ['.']) (p.getD 1 0)
  let r := appendDecimal (r ++ ['.']) (p.getD 2 0)
  appendDecimal (r ++ ['.']) (p.getD 3 0)

/-- The 16-bit group `i` of a 16-byte address. -/
def v6u16 (ip : List Nat) (i : Nat) : Nat := (ip.getD (2 * i) 0 <<< 8) ||| ip.getD (2 * i + 1) 0

/-- Length of the run of zero groups starting at group `j` (at most `fuel` groups). -/
def zeroRunEnd (ip : List Nat) : Nat → Nat → Nat
  | 0, j => j
  | fuel + 1, j => if j < 8 ∧ v6u16 ip j = 0 then zeroRunEnd ip fuel (j + 1) else j

/-- First loop of netip appendTo6: the longest run of at least two zero groups. -/
def longestZeroRun (ip : List Nat) : Nat × Nat :=
  (List.range 8).foldl (fun (z : Nat × Nat) i =>
    let j := zeroRunEnd ip 8 i
    let l := j - i
    if 2 ≤ l ∧ z.2 - z.1 < l then (i, j) else z) (255, 255)

/-- Second loop of netip appendTo6. -/
def appendTo6 (ip : List Nat) (zeroStart zeroEnd : Nat) : Nat → Nat → List Char → List Char
  | 0, _, ret => ret
  | fuel + 1, i, ret =>
    if 8 ≤ i then ret
    else if i = zeroStart then
      let ret := ret ++ [':', ':']
      if 8 ≤ zeroEnd then ret
      else appendTo6 ip zeroStart zeroEnd fuel (zeroEnd + 1) (appendHex ret (v6u16 ip zeroEnd))
    else
      let ret := if 0 < i then ret ++ [':'] else ret
      appendTo6 ip zeroStart zeroEnd fuel (i + 1) (appendHex ret (v6u16 ip i))

/-- Text of a 16-byte address that is not IPv4-mapped (RFC 5952 form). -/
def string6 (ip : List Nat) : List Char :=
  let z := longestZeroRun ip
  appendTo6 ip z.1 z.2 8 0 []

def hexString (b : List Nat) : List Char :=
  b.foldl (fun s x => s ++ [digit (x >>> 4), digit (x &&& 0xf)]) []

/-- Go IP.String. -/
def IP.String (ip : IP) : String :=
  if ip.length = 0 then "<nil>"
  else if ip.length ≠ IPv4len ∧ ip.length ≠ IPv6len then String.mk ('?' :: hexString ip)
  else if ip.To4.length = IPv4len then String.mk (string4 ip.To4)
  else String.mk (string6 ip)


/-- Parsed address of package netip: `z4` tells a 4-byte IPv4 address from a 16-byte IPv6 one;
`zone` is the IPv6 zone text. -/
structure Addr where
  z4 : Bool
  bytes : List Nat
  zone : List Char
deriving DecidableEq

def Addr.BitLen (a : Addr) : Nat := if a.z4 then 32 else 128

def Addr.As16 (a : Addr) : List Nat := if a.z4 then v4InV6Prefix ++ a.bytes else a.bytes

def isDigit (c : Char) : Bool := decide ('0' ≤ c ∧ c ≤ '9')

/-- Go netip parseIPv4Fields: the loop over the characters of `s`, writing into `fields`.
`first` is `i == 0`, `prevDot` is `s[i-1] == '.'`. -/
def parseIPv4Fields : List Char → Bool → Bool → Nat → Nat → Nat → List Nat → Option (List Nat)
  | [], _, _, val, pos, _, fields => if pos < 3 then none else some (fields.set 3 val)
  | c :: rest, first, prevDot, val, pos, digLen, fields =>
    if isDigit c then
      if digLen = 1 ∧ val = 0 then none
      else
        let val := val * 10 + (c.toNat - 48)
        if 255 < val then none
        else parseIPv4Fields rest false false val pos (digLen + 1) fields
    else if c = '.' then
      if first ∨ rest = [] ∨ prevDot then none
      else if pos = 3 then none
      else parseIPv4Fields rest false true 0 (pos + 1) 0 (fields.set pos val)
    else none

/-- Go netip parseIPv4. -/
def parseIPv4 (s : List Char) : Option Addr :=
  match parseIPv4Fields s true false 0 0 0 [0, 0, 0, 0] with
  | none => none
  | some fields => some { z4 := true, bytes := fields, zone := [] }

def hexVal (c : Char) : Option Nat :=
  if '0' ≤ c ∧ c ≤ '9' then some (c.toNat - 48)
  else if 'a' ≤ c ∧ c ≤ 'f' then some (c.toNat - 97 + 10)
  else if 'A' ≤ c ∧ c ≤ 'F' then some (c.toNat - 65 + 10)
  else none

/-- Hex-group loop of parseIPv6: `none` on a group of more than 4 digits, else the value
and the number of digits read. -/
def scanHex : List Char → Nat → Nat → Option (Nat × Nat)
  | [], off, acc => some (acc, off)
  | c :: cs, off, acc =>
    match hexVal c with
    | none => some (acc, off)
    | some d =>
      let acc := (acc <<< 4) + d
      if 3 < off then none
      else if 0xffff < acc then none
      else scanHex cs (off + 1) acc

/-- State of the main loop of parseIPv6 when it is left: rest of the text, the 16 bytes,
the write position and the position of the ellipsis. -/
structure V6State where
  s : List Char
  ip : List Nat
  i : Nat
  ellipsis : Option Nat

/-- Main loop `for i < 16` of Go netip parseIPv6. -/
def parseIPv6.loop : Nat → V6State → Option V6State
  | 0, st => some st
  | fuel + 1, st =>
    if ¬ st.i < 16 then some st
    else
      match scanHex st.s 0 0 with
      | none => none
      | some (acc, off) =>
        if off = 0 then none
        else if off < st.s.length ∧ st.s.getD off ' ' = '.' then
          if st.ellipsis = none ∧ st.i ≠ 12 then none
          else if 16 < st.i + 4 then none
          else
            match parseIPv4Fields st.s true false 0 0 0 [0, 0, 0, 0] with
            | none => none
            | some f =>
              some { s := [], i := st.i + 4, ellipsis := st.ellipsis,
                     ip := (((st.ip.set st.i (f.getD 0 0)).set (st.i + 1) (f.getD 1 0)).set
                              (st.i + 2) (f.getD 2 0)).set (st.i + 3) (f.getD 3 0) }
        else
          let ip := (st.ip.set st.i ((acc >>> 8) % 256)).set (st.i + 1) (acc % 256)
          let i := st.i + 2
          let s := st.s.drop off
          if s.length = 0 then some { s := s, ip := ip, i := i, ellipsis := st.ellipsis }
          else if s.head? ≠ some ':' then none
          else if s.length = 1 then none
          else
            let s := s.drop 1
            if s.head? = some ':' then
              if st.ellipsis ≠ none then none
              else
                let s := s.drop 1
                if s.length = 0 then some { s := s, ip := ip, i := i, ellipsis := some i }
                else parseIPv6.loop fuel { s := s, ip := ip, i := i, ellipsis := some i }
            else parseIPv6.loop fuel { s := s, ip := ip, i := i, ellipsis := st.ellipsis }

/-- Expansion of the ellipsis at the end of parseIPv6: move the `i - e` bytes written after the
ellipsis to the end and clear the gap. -/
def expandEllipsis (ip : List Nat) (i e : Nat) : List Nat :=
  let n := 16 - i
  let moved := (List.range (i - e)).foldl
    (fun (acc : List Nat) d => acc.set (i - 1 - d + n) (acc.getD (i - 1 - d) 0)) ip
  (List.range n).foldl (fun (acc : List Nat) d => acc.set (e + d) 0) moved

/-- End of Go netip parseIPv6, after the main loop: the whole text must be used, and an
ellipsis is expanded when fewer than 16 bytes were written. -/
def parseIPv6.finish (zone : List Char) (st : V6State) : Option Addr :=
  if st.s.length ≠ 0 then none
  else if st.i < 16 then
    match st.ellipsis with
    | none => none
    | some e => some { z4 := false, bytes := expandEllipsis st.ip st.i e, zone := zone }
  else if st.ellipsis ≠ none then none
  else some { z4 := false, bytes := st.ip, zone := zone }

/-- Go netip parseIPv6. -/
def parseIPv6 (input : List Char) : Option Addr :=
  let cut := input.indexOf '%'
  let hasZone := cut < input.length
  let s := input.take cut
  let zone := input.drop (cut + 1)
  if hasZone ∧ zone = [] then none
  else
    let lead := 2 ≤ s.length ∧ s.getD 0 ' ' = ':' ∧ s.getD 1 ' ' = ':'
    let s1 := if lead then s.drop 2 else s
    if lead ∧ s1.length = 0 then some { z4 := false, bytes := List.replicate 16 0, zone := zone }
    else
      match parseIPv6.loop 9 { s := s1, ip := List.replicate 16 0, i := 0,
                               ellipsis := if lead then some 0 else none } with
      | none => none
      | some st => parseIPv6.finish zone st

/-- Go netip.ParseAddr: dispatch on the first of `.`, `:` and `%` in the text. -/
def ParseAddr.scan (whole : List Char) : List Char → Option Addr
  | [] => none
  | c :: rest =>
    if c = '.' then parseIPv4 whole
    else if c = ':' then parseIPv6 whole
    else if c = '%' then none
    else ParseAddr.scan whole rest

def ParseAddr (s : List Char) : Option Addr := ParseAddr.scan s s

/-- Go net.ParseIP: the 16-byte form of the address, nil when the text is no address. -/
def ParseIP (s : String) : IP :=
  match ParseAddr s.data with
  | none => []
  | some addr => if addr.zone ≠ [] then [] else addr.As16

/-- Go net dtoi: decimal to integer; number, characters consumed, success. -/
def dtoi.loop : List Char → Nat → Nat → Nat × Nat × Bool
  | [], n, i => (n, i, true)
  | c :: rest, n, i =>
    if isDigit c then
      let n := n * 10 + (c.toNat - 48)
      if 0xFFFFFF ≤ n then (0xFFFFFF, i, false) else dtoi.loop rest n (i + 1)
    else (n, i, true)

def dtoi (s : List Char) : Nat × Nat × Bool :=
  let r := dtoi.loop s 0 0
  if r.2.2 = true ∧ r.2.1 = 0 then (0, 0, false) else r

/-- Go net.ParseCIDR: the address and the network (address masked, mask), or `none` on error. -/
def ParseCIDR (s : String) : Option (IP × IPNet) :=
  let cs := s.data
  let i := cs.indexOf '/'
  if cs.length ≤ i then none
  else
    let addr := cs.take i
    let mask := cs.drop (i + 1)
    match ParseAddr addr with
    | none => none
    | some ipAddr =>
      if ipAddr.zone ≠ [] then none
      else
        let r := dtoi mask
        if r.2.2 = false ∨ r.2.1 ≠ mask.length ∨ ipAddr.BitLen < r.1 then none
        else
          let m := CIDRMask r.1 ipAddr.BitLen
          let addr16 := ipAddr.As16
          some (addr16, { IP := IP.Mask addr16 m, Mask := m })

/-- Go unicode.IsSpace. -/
def isSpace (c : Char) : Bool :=
  let n := c.toNat
  (9 ≤ n ∧ n ≤ 13) ∨ n = 0x20 ∨ n = 0x85 ∨ n = 0xA0 ∨ n = 0x1680 ∨ (0x2000 ≤ n ∧ n ≤ 0x200a)
    ∨ n = 0x2028 ∨ n = 0x2029 ∨ n = 0x202f ∨ n = 0x205f ∨ n = 0x3000

/-- Go strings.TrimSpace. -/
def TrimSpace (s : String) : String :=
  String.mk ((s.data.dropWhile isSpace).reverse.dropWhile isSpace).reverse

/-! ## Go maps and sort.Slice -/

/-- Go map with string keys, kept as an association list in insertion order. Every map built
from the empty one by `GoMap.set` has pairwise distinct keys. -/
structure GoMap (V : Type) where
  entries : List (String × V)
deriving DecidableEq

def GoMap.empty {V : Type} : GoMap V := { entries := [] }

def GoMap.lookup {V : Type} : List (String × V) → String → Option V
  | [], _ => none
  | (k, v) :: rest, key => if k = key then some v else GoMap.lookup rest key

def GoMap.store {V : Type} : List (String × V) → String → V → List (String × V)
  | [], key, val => [(key, val)]
  | (k, v) :: rest, key, val =>
    if k = key then (key, val) :: rest else (k, v) :: GoMap.store rest key val

/-- Map read `m[k]` with its `exists` flag: `none` when the key is absent. -/
def GoMap.get {V : Type} (m : GoMap V) (key : String) : Option V := GoMap.lookup m.entries key

/-- Map write `m[k] = v`. -/
def GoMap.set {V : Type} (m : GoMap V) (key : String) (val : V) : GoMap V :=
  { entries := GoMap.store m.entries key val }

/-- Go `len(m)`. -/
def GoMap.len {V : Type} (m : GoMap V) : Nat := m.entries.length

/-- Apply `f` to the value of every key (a `range` loop rewriting each value in place). -/
def GoMap.mapValues {V : Type} (f : V → V) (m : GoMap V) : GoMap V :=
  { entries := m.entries.map (fun kv => (kv.1, f kv.2)) }

/-- Inner loop of Go insertionSortLessFunc: the new element `x` is swapped leftwards while it is
less than its left neighbour. The argument lists the elements left of `x`, nearest first. -/
def sinkLeft {α : Type} (less : α → α → Bool) (x : α) : List α → List α
  | [] => [x]
  | y :: rest => if less x y then y :: sinkLeft less x rest else x :: y :: rest

/-- Go sort.Slice, as the insertion sort it runs on slices of at most 12 elements (longer
slices go through pattern-defeating quicksort, which also yields a permutation ordered by
`less`, possibly with equal elements in another order). -/
def sortSlice {α : Type} (less : α → α → Bool) (data : List α) : List α :=
  (data.foldl (fun sortedRev x => sinkLeft less x sortedRev) []).reverse

/-! ## database/database.go and database/csv.go -/

structure Location where
  Country : String
  City : String
deriving DecidableEq

structure cidrEntry where
  network : IPNet
  location : Location
deriving DecidableEq

/-- The two lookup tables of CSVDatabase (the file handle and reader are left out). -/
structure CSVDatabase where
  exactIPs : GoMap Location
  cidrByNet : GoMap (List cidrEntry)
deriving DecidableEq

/-- Errors of FindLocation: the plain error for a nil address and NotFoundError. -/
inductive LookupError where
  | invalidIP
  | NotFoundError (IP : String)
deriving DecidableEq

/-- Body of the loop over the records in loadEntries. -/
def loadRecord (db : CSVDatabase) (record : List String) : CSVDatabase :=
  if record.length < 3 then db
  else
    let ipStr := TrimSpace (record.getD 0 "")
    let city := TrimSpace (record.getD 1 "")
    let country := TrimSpace (record.getD 2 "")
    let location : Location := { Country := country, City := city }
    match ParseCIDR ipStr with
    | some (_, network) =>
      let netKey := network.IP.String
      let bucket := (db.cidrByNet.get netKey).getD [] ++
        [{ network := network, location := location }]
      { db with cidrByNet := db.cidrByNet.set netKey bucket }
    | none =>
      let ip := ParseIP ipStr
      if ip = [] then db
      else
        let ipKey := ip.String
        { db with exactIPs := db.exactIPs.set ipKey location }

/-- The comparison passed to sort.Slice in loadEntries. -/
def longerMask (i j : cidrEntry) : Bool :=
  let iPrefix := i.network.Mask.Size.1
  let jPrefix := j.network.Mask.Size.1
  decide (jPrefix < iPrefix)

/-- The part of CSVDatabase.loadEntries after the call of ReadAll, given the records that
`db.reader.ReadAll()` returned: the loop over the records, the test for empty tables and the
sort. The call of ReadAll and its error return stand in `CSVDatabase.loadEntries` below. -/
def loadEntries (db : CSVDatabase) (records : List (List String)) : Except String CSVDatabase :=
  let db := records.foldl loadRecord db
  if db.exactIPs.len = 0 ∧ db.cidrByNet.len = 0 then
    .error "no valid entries found in database file"
  else
    .ok { db with cidrByNet := db.cidrByNet.mapValues (sortSlice longerMask) }

/-- NewCSVDatabase, from the records that ReadAll returned for the file: empty tables, then the
part of loadEntries after ReadAll. `NewCSVDatabase.fromFile` below runs the reader first. -/
def NewCSVDatabase (records : List (List String)) : Except String CSVDatabase :=
  match loadEntries { exactIPs := GoMap.empty, cidrByNet := GoMap.empty } records with
  | .error err => .error ("failed to load database entries: " ++ err)
  | .ok db => .ok db

/-- Go encoding/csv: the loop of Reader.ReadAll with the field-count check of readRecord. The
arguments are the reader's FieldsPerRecord, the line of the next record, and the records still
in the file, each split into its fields. With FieldsPerRecord at 0 the record sets it to its
number of fields; with FieldsPerRecord above 0 a record with another number of fields ends the
read with ErrFieldCount and no records. The line in the error text is the position of the
record, every record taking one line. -/
def ReadAll.loop : Nat → Nat → List (List String) → Except String (List (List String))
  | _, _, [] => .ok []
  | fieldsPerRecord, line, record :: rest =>
    if 0 < fieldsPerRecord then
      if record.length ≠ fieldsPerRecord then
        .error ("record on line " ++ toString line ++ ": wrong number of fields")
      else
        match ReadAll.loop fieldsPerRecord (line + 1) rest with
        | .error err => .error err
        | .ok records => .ok (record :: records)
    else
      match ReadAll.loop record.length (line + 1) rest with
      | .error err => .error err
      | .ok records => .ok (record :: records)

/-- Go csv.Reader.ReadAll on the reader NewCSVDatabase makes with csv.NewReader, which leaves
FieldsPerRecord at 0: the first record fixes the number of fields of all records. -/
def ReadAll (rows : List (List String)) : Except String (List (List String)) :=
  ReadAll.loop 0 1 rows

/-- CSVDatabase.loadEntries as a whole, on a reader over the rows of the file: ReadAll, whose
error is returned as it is, then the loop over the records, the test for empty tables and the
sort. -/
def CSVDatabase.loadEntries (db : CSVDatabase) (rows : List (List String)) :
    Except String CSVDatabase :=
  match ReadAll rows with
  | .error err => .error err
  | .ok records => Ip2Country.loadEntries db records

/-- NewCSVDatabase as a whole, on a file that opens and holds the given rows: csv.NewReader,
empty tables, then CSVDatabase.loadEntries. -/
def NewCSVDatabase.fromFile (rows : List (List String)) : Except String CSVDatabase :=
  match CSVDatabase.loadEntries { exactIPs := GoMap.empty, cidrByNet := GoMap.empty } rows with
  | .error err => .error ("failed to load database entries: " ++ err)
  | .ok db => .ok db

/-- CSVDatabase.findInCIDR. -/
def findInCIDR (db : CSVDatabase) (ip ipBytes : IP) : List Nat → Except LookupError Location
  | [] => .error (.NotFoundError ip.String)
  | prefixLen :: rest =>
    let mask := CIDRMask prefixLen (ipBytes.length * 8)
    if mask = [] then findInCIDR db ip ipBytes rest
    else
      let networkAddr := andBytes ipBytes mask
      let netKey := IP.String networkAddr
      match db.cidrByNet.get netKey with
      | some entries =>
        match entries.find? (fun entry => entry.network.Contains ip) with
        | some entry => .ok entry.location
        | none => findInCIDR db ip ipBytes rest
      | none => findInCIDR db ip ipBytes rest

/-- CSVDatabase.FindLocation. -/
def FindLocation (db : CSVDatabase) (ip : IP) : Except LookupError Location :=
  if ip = [] then .error .invalidIP
  else
    let ipKey := ip.String
    match db.exactIPs.get ipKey with
    | some location => .ok location
    | none =>
      let ip4 := ip.To4
      if ip4 ≠ [] then
        findInCIDR db ip ip4 ((List.range 33).map (fun i => 32 - i))
      else
        findInCIDR db ip ip ((List.range 129).map (fun i => 128 - i))

/-! ## ratelimit/ratelimit.go -/

/-- Go time.Second as a time.Duration, a number of nanoseconds. Instants (time.Time) are
integers in the same unit. -/
def Second : Int := 1000000000

/-- Go time.Minute. -/
def Minute : Int := 60 * Second

/-- Go Time.After: `t.After(u)` reports whether `t` is after `u`. -/
def After (t u : Int) : Bool := decide (u < t)

/-- The limiter state guarded by the mutex (ticker and stop channel are left out). -/
structure RateLimiter where
  requests : String → Option (List Int)
  ratePerSec : Int
  windowSize : Int

/-- NewRateLimiter: empty map, the given rate, a window of one second. -/
def NewRateLimiter (requestsPerSecond : Int) : RateLimiter :=
  { requests := fun _ => none, ratePerSec := requestsPerSecond, windowSize := Second }

/-- RateLimiter.Allow with the clock reading `now` of the call made explicit: the decision and
the state after the call. -/
def RateLimiter.Allow (rl : RateLimiter) (key : String) (now : Int) : Bool × RateLimiter :=
  let cutoff := now + (-rl.windowSize)
  let requests := match rl.requests key with
    | some requests => requests
    | none => []
  let filtered := requests.filter (fun reqTime => After reqTime cutoff)
  if rl.ratePerSec ≤ (filtered.length : Int) then
    (false, { rl with requests := Function.update rl.requests key (some filtered) })
  else
    (true, { rl with requests := Function.update rl.requests key (some (filtered ++ [now])) })

/-- One tick of RateLimiter.cleanup at clock reading `now`: every key without a timestamp after
`now - 5 minutes` is deleted. -/
def RateLimiter.cleanup (rl : RateLimiter) (now : Int) : RateLimiter :=
  let cutoff := now + (-5 * Minute)
  { rl with requests := fun key =>
      match rl.requests key with
      | none => none
      | some requests =>
        let hasRecent := requests.any (fun reqTime => After reqTime cutoff)
        if !hasRecent then none else some requests }

/-- What happens to a limiter: a call of Allow or a tick of the sweep, with its clock reading. -/
inductive Event where
  | allow (key : String) (now : Int)
  | sweep (now : Int)

def Event.time : Event → Int
  | .allow _ now => now
  | .sweep now => now

/-- The calls of Allow that return true when the events run in order from state `rl`,
each with its key and timestamp. -/
def admitted : RateLimiter → List Event → List (String × Int)
  | _, [] => []
  | rl, .allow key now :: rest =>
    let r := rl.Allow key now
    if r.1 then (key, now) :: admitted r.2 rest else admitted r.2 rest
  | rl, .sweep now :: rest => admitted (rl.cleanup now) rest

/-- The state after a sequence of Allow calls for one key at the given clock readings. -/
def allowMany (rl : RateLimiter) (key : String) (times : List Int) : RateLimiter :=
  times.foldl (fun st now => (st.Allow key now).2) rl

/-- The timestamps stored for a key, empty when the key is absent. -/
def RateLimiter.stored (rl : RateLimiter) (key : String) : List Int :=
  match rl.requests key with
  | some requests => requests
  | none => []

/-- The timestamps of a key that lie strictly after `now - windowSize`, in stored order. -/
def RateLimiter.pruned (rl : RateLimiter) (key : String) (now : Int) : List Int :=
  (rl.stored key).filter (fun t => decide (now - rl.windowSize < t))

/-- Number of timestamps of `l` in the half-open window `(t - w, t]`. -/
def inWindow (w t : Int) (l : List Int) : Nat :=
  l.countP (fun x => decide (t - w < x ∧ x ≤ t))

/-- Timestamps of the calls for `key` that return true when the events run from `rl`. -/
def admittedTimes (rl : RateLimiter) (es : List Event) (key : String) : List Int :=
  ((admitted rl es).filter (fun a => decide (a.1 = key))).map Prod.snd

/-- Invariant of the limiter state at clock reading `T`: no stored timestamp is later than `T`
and every window `(t - w, t]` holds at most `ratePerSec` stored timestamps of a key. -/
def WindowInv (rl : RateLimiter) (T : Int) : Prop :=
  ∀ k, (∀ x ∈ rl.stored k, x ≤ T) ∧
    ∀ t, (inWindow rl.windowSize t (rl.stored k) : Int) ≤ rl.ratePerSec

/-! ## Notions used to state the properties of the store -/

/-- All CIDR entries registered in the store, bucket after bucket. -/
def CSVDatabase.entries (db : CSVDatabase) : List cidrEntry :=
  (db.cidrByNet.entries.map Prod.snd).flatten

/-- The store NewCSVDatabase builds from the records (the empty store when it fails). -/
def storeOf (records : List (List String)) : CSVDatabase :=
  match NewCSVDatabase records with
  | .ok db => db
  | .error _ => { exactIPs := GoMap.empty, cidrByNet := GoMap.empty }

/-- The record has three fields and its first field parses as a CIDR prefix: loadEntries
registers it as a CIDR entry. -/
def registersCIDR (record : List String) : Bool :=
  decide (3 ≤ record.length) && (ParseCIDR (TrimSpace (record.getD 0 ""))).isSome

/-- The record has three fields and its first field parses as an address but not as a CIDR
prefix: loadEntries registers it as an exact entry. -/
def registersExact (record : List String) : Bool :=
  decide (3 ≤ record.length) && (ParseCIDR (TrimSpace (record.getD 0 ""))).isNone
    && decide (ParseIP (TrimSpace (record.getD 0 "")) ≠ [])

/-- Prefix length of an entry as loadEntries reads it for sorting: the ones of its mask. -/
def cidrEntry.prefixLen (e : cidrEntry) : Nat := e.network.Mask.Size.1

/-- Number of address bits an entry leaves free: the bits of its mask that are not ones. An
entry with fewer free bits covers a smaller range. -/
def cidrEntry.hostBits (e : cidrEntry) : Nat := e.network.Mask.Size.2 - e.network.Mask.Size.1

/-- Longest-prefix match as claim C1 words it: the lookup returns the location of a registered
entry that contains the address and whose prefix length is maximal among the registered
entries containing it. -/
def LongestPrefixMatch (db : CSVDatabase) (ip : IP) : Prop :=
  ∃ e ∈ db.entries, FindLocation db ip = .ok e.location ∧ e.network.Contains ip = true ∧
    ∀ e2 ∈ db.entries, e2.network.Contains ip = true → e2.prefixLen ≤ e.prefixLen

/-- Longest-prefix match by specificity: the lookup returns the location of a registered entry
that contains the address and covers the smallest range among those that do. -/
def MostSpecificMatch (db : CSVDatabase) (ip : IP) : Prop :=
  ∃ e ∈ db.entries, FindLocation db ip = .ok e.location ∧ e.network.Contains ip = true ∧
    ∀ e2 ∈ db.entries, e2.network.Contains ip = true → e.hostBits ≤ e2.hostBits

/-- A network as ParseCIDR returns it: a canonical mask of 32 or 128 bits and a network number
of the same length that the mask leaves unchanged. -/
def IPNet.wellFormed (n : IPNet) : Prop :=
  ∃ p, (p ≤ 32 ∧ n.Mask = CIDRMask p 32 ∧ n.IP.length = 4 ∧ andBytes n.IP n.Mask = n.IP) ∨
       (p ≤ 128 ∧ n.Mask = CIDRMask p 128 ∧ n.IP.length = 16 ∧ andBytes n.IP n.Mask = n.IP)

/-- Invariant of the CIDR buckets while loadEntries runs: bucket keys are pairwise distinct,
and every entry sits in the bucket named by the text of its network number and holds a
network as ParseCIDR returns it. -/
def StoreInv (db : CSVDatabase) : Prop :=
  (db.cidrByNet.entries.map Prod.fst).Nodup ∧
  ∀ kv ∈ db.cidrByNet.entries, ∀ e ∈ kv.2,
    e.network.IP.String = kv.1 ∧ e.network.wellFormed

/-- Value of a decimal text, the inverse of appendDecimal on bytes. -/
def decodeDecimal (l : List Char) : Nat := l.foldl (fun n c => 10 * n + (c.toNat - 48)) 0

/-- Every bucket lists its entries by prefix length, longest first. -/
def BucketsSorted (db : CSVDatabase) : Prop :=
  ∀ kv ∈ db.cidrByNet.entries, kv.2.Pairwise (fun a b => b.prefixLen ≤ a.prefixLen)

/-- The limiter state after the events have run in order from state `rl`. -/
def runEvents : RateLimiter → List Event → RateLimiter
  | rl, [] => rl
  | rl, .allow key now :: rest => runEvents (rl.Allow key now).2 rest
  | rl, .sweep now :: rest => runEvents (rl.cleanup now) rest

/-- No key stores more timestamps than the rate. -/
def BoundedState (rl : RateLimiter) : Prop :=
  ∀ k, ((rl.stored k).length : Int) ≤ rl.ratePerSec

/-- The sweep at `now` deletes the entry of `key` exactly when the key has no timestamp newer
than `now - horizon`. -/
def DeletesAtHorizon (horizon : Int) (rl : RateLimiter) (now : Int) (key : String) : Prop :=
  (rl.cleanup now).requests key = none ↔ ∀ x ∈ rl.stored key, ¬ (now - horizon < x)

/-- A row that loadEntries skips: fewer than three fields, or a first field that, trimmed,
parses neither as a CIDR prefix nor as an address. -/
def skippedRow (record : List String) : Bool :=
  decide (record.length < 3) ||
    ((ParseCIDR (TrimSpace (record.getD 0 ""))).isNone &&
      decide (ParseIP (TrimSpace (record.getD 0 "")) = []))

/-- The location a row carries: trimmed country (third field) and city (second field). -/
def rowLocation (record : List String) : Location :=
  { Country := TrimSpace (record.getD 2 ""), City := TrimSpace (record.getD 1 "") }

/-- The address a bare-IP row names. -/
def rowIP (record : List String) : IP := ParseIP (TrimSpace (record.getD 0 ""))

/-- The exact-map key of a bare-IP row: the canonical text of its address. -/
def rowKey (record : List String) : String := (rowIP record).String

/-- The CIDR entry a row registers, if it is a CIDR row. -/
def rowEntry (record : List String) : Option cidrEntry :=
  if record.length < 3 then none
  else
    match ParseCIDR (TrimSpace (record.getD 0 "")) with
    | some (_, network) => some { network := network, location := rowLocation record }
    | none => none

/-- The entries of the CIDR rows among the records, in load order, with multiplicity. -/
def cidrRows (records : List (List String)) : List cidrEntry := records.filterMap rowEntry

/-- The digit branch of parseIPv4Fields run over a whole run of digits: the value and digit
count it reaches, `none` where the parser rejects (leading zero, value above 255). -/
def digitsStep : List Char → Nat → Nat → Option (Nat × Nat)
  | [], val, digLen => some (val, digLen)
  | c :: cs, val, digLen =>
    if digLen = 1 ∧ val = 0 then none
    else if 255 < val * 10 + (c.toNat - 48) then none
    else digitsStep cs (val * 10 + (c.toNat - 48)) (digLen + 1)

/-- The bucket scan of findInCIDR with the test entry.network.Contains(ip) removed, as the
specification words it: the first entry of the first bucket hit is returned. -/
def findInCIDRNoCheck (db : CSVDatabase) (ip ipBytes : IP) :
    List Nat → Except LookupError Location
  | [] => .error (.NotFoundError ip.String)
  | prefixLen :: rest =>
    let mask := CIDRMask prefixLen (ipBytes.length * 8)
    if mask = [] then findInCIDRNoCheck db ip ipBytes rest
    else
      let networkAddr := andBytes ipBytes mask
      let netKey := IP.String networkAddr
      match db.cidrByNet.get netKey with
      | some (entry :: _) => .ok entry.location
      | some [] => findInCIDRNoCheck db ip ipBytes rest
      | none => findInCIDRNoCheck db ip ipBytes rest

/-- FindLocation over the bucket scan without the test Contains. -/
def FindLocationNoCheck (db : CSVDatabase) (ip : IP) : Except LookupError Location :=
  if ip = [] then .error .invalidIP
  else
    let ipKey := ip.String
    match db.exactIPs.get ipKey with
    | some location => .ok location
    | none =>
      let ip4 := ip.To4
      if ip4 ≠ [] then
        findInCIDRNoCheck db ip ip4 ((List.range 33).map (fun i => 32 - i))
      else
        findInCIDRNoCheck db ip ip ((List.range 129).map (fun i => 128 - i))

/-- The first entry of the first non-empty bucket that the masked address hits, going through
the prefix lengths in order. -/
def firstHit (db : CSVDatabase) (ipBytes : IP) : List Nat → Option cidrEntry
  | [] => none
  | prefixLen :: rest =>
    let mask := CIDRMask prefixLen (ipBytes.length * 8)
    if mask = [] then firstHit db ipBytes rest
    else
      match db.cidrByNet.get (IP.String (andBytes ipBytes mask)) with
      | some (entry :: _) => some entry
      | some [] => firstHit db ipBytes rest
      | none => firstHit db ipBytes rest

/-- The first entry of the first bucket hit for an address, over the prefix lengths that
FindLocation tries for it. -/
def firstBucketHit (db : CSVDatabase) (ip : IP) : Option cidrEntry :=
  if ip.To4 ≠ [] then firstHit db ip.To4 ((List.range 33).map (fun i => 32 - i))
  else firstHit db ip ((List.range 129).map (fun i => 128 - i))

/-- Value of a hexadecimal text, the inverse of appendHex on 16-bit groups. -/
def hexDecode (l : List Char) : Nat := l.foldl (fun n c => 16 * n + (hexVal c).getD 0) 0

/-- The fields of a text between its colons. -/
def splitColon : List Char → List (List Char)
  | [] => [[]]
  | c :: cs =>
    if c = ':' then [] :: splitColon cs
    else
      match splitColon cs with
      | f :: fs => (c :: f) :: fs
      | [] => [[c]]

/-- Groups of an IPv6 text in the form IP.String writes: the hexadecimal fields, with the run of
zero groups put back where the text has its double colon. -/
def decode6 (t : List Char) : List Nat :=
  let fields := splitColon t
  let pre := fields.takeWhile (fun f => !f.isEmpty)
  let post := (fields.reverse.takeWhile (fun f => !f.isEmpty)).reverse
  if pre.length = fields.length then fields.map hexDecode
  else pre.map hexDecode ++ List.replicate (8 - pre.length - post.length) 0 ++ post.map hexDecode

/-- The bytes FindLocation hands to findInCIDR: the 4-byte form of an IPv4 address, else the
address as it is. -/
def lookupBytes (ip : IP) : IP := if ip.To4 ≠ [] then ip.To4 else ip

/-! ## Properties of the rate limiter -/

theorem After_iff (t u : Int) : After t u = true ↔ u < t := by
  simp [After]

theorem Allow_filtered_eq (rl : RateLimiter) (key : String) (now : Int) :
    (match rl.requests key with
      | some requests => requests
      | none => []).filter (fun reqTime => After reqTime (now + (-rl.windowSize)))
      = rl.pruned key now := by
  unfold RateLimiter.pruned RateLimiter.stored
  congr 1

theorem Allow_eq (rl : RateLimiter) (key : String) (now : Int) :
    rl.Allow key now =
      if rl.ratePerSec ≤ ((rl.pruned key now).length : Int) then
        (false, { rl with requests := Function.update rl.requests key (some (rl.pruned key now)) })
      else
        (true, { rl with requests :=
          Function.update rl.requests key (some (rl.pruned key now ++ [now])) }) := by
  unfold RateLimiter.Allow
  simp only [Allow_filtered_eq]

theorem Allow_rate (rl : RateLimiter) (key : String) (now : Int) :
    (rl.Allow key now).2.ratePerSec = rl.ratePerSec := by
  rw [Allow_eq]; split <;> rfl

theorem Allow_window (rl : RateLimiter) (key : String) (now : Int) :
    (rl.Allow key now).2.windowSize = rl.windowSize := by
  rw [Allow_eq]; split <;> rfl

theorem Allow_other (rl : RateLimiter) (k1 k2 : String) (now : Int) (h : k1 ≠ k2) :
    (rl.Allow k1 now).2.requests k2 = rl.requests k2 := by
  rw [Allow_eq]
  split <;> simp [Function.update, Ne.symm h]

theorem Allow_decision (rl : RateLimiter) (key : String) (now : Int) :
    (rl.Allow key now).1 = !decide (rl.ratePerSec ≤ ((rl.pruned key now).length : Int)) := by
  rw [Allow_eq]
  split <;> simp [*]

theorem Allow_stored_rejected (rl : RateLimiter) (key : String) (now : Int)
    (h : rl.ratePerSec ≤ ((rl.pruned key now).length : Int)) :
    (rl.Allow key now).2.requests key = some (rl.pruned key now) := by
  rw [Allow_eq, if_pos h]
  simp

theorem Allow_stored_admitted (rl : RateLimiter) (key : String) (now : Int)
    (h : ¬ rl.ratePerSec ≤ ((rl.pruned key now).length : Int)) :
    (rl.Allow key now).2.requests key = some (rl.pruned key now ++ [now]) := by
  rw [Allow_eq, if_neg h]
  simp

/-- C4 (Allow step). With P the stored timestamps of the key strictly after
`now - windowSize` (empty for an absent key): Allow returns false exactly when P has at least
`ratePerSec` elements; on false the key then stores exactly P, on true exactly P followed by
`now`. Allow is a total function, so it always returns a decision. -/
theorem C4_allow_step (rl : RateLimiter) (k : String) (now : Int) :
    ((rl.Allow k now).1 = false ↔ rl.ratePerSec ≤ ((rl.pruned k now).length : Int)) ∧
    ((rl.Allow k now).1 = false → (rl.Allow k now).2.requests k = some (rl.pruned k now)) ∧
    ((rl.Allow k now).1 = true →
      (rl.Allow k now).2.requests k = some (rl.pruned k now ++ [now])) := by
  refine ⟨?_, ?_, ?_⟩
  · rw [Allow_decision]; simp
  · intro h
    rw [Allow_decision] at h
    exact Allow_stored_rejected rl k now (by simpa using h)
  · intro h
    rw [Allow_decision] at h
    exact Allow_stored_admitted rl k now (by simpa using h)

/-- C6 (window boundary). With rate 1 and exactly one stored timestamp `t0` for the key, Allow
at time `t` returns false for `t0 ≤ t < t0 + windowSize` and true for `t ≥ t0 + windowSize`:
a stored timestamp equal to the cutoff `t - windowSize` is outside the window. -/
theorem C6_window_boundary (rl : RateLimiter) (k : String) (t0 t : Int)
    (hR : rl.ratePerSec = 1) (hs : rl.requests k = some [t0]) :
    (t0 ≤ t → t < t0 + rl.windowSize → (rl.Allow k t).1 = false) ∧
    (t0 + rl.windowSize ≤ t → (rl.Allow k t).1 = true) := by
  have hst : rl.stored k = [t0] := by simp [RateLimiter.stored, hs]
  constructor
  · intro _ h
    have hp : rl.pruned k t = [t0] := by
      simp only [RateLimiter.pruned, hst, List.filter_cons, List.filter_nil]
      rw [if_pos]
      simp; omega
    rw [Allow_decision, hp, hR]; simp
  · intro h
    have hp : rl.pruned k t = [] := by
      simp only [RateLimiter.pruned, hst, List.filter_cons, List.filter_nil]
      rw [if_neg]
      simp; omega
    rw [Allow_decision, hp, hR]; simp

/-- Witness for C6: rate 1, window one second, calls at 0 s, 0.5 s and 1.001 s give
true, false, true. -/
theorem C6_window_boundary_witness :
    ((NewRateLimiter 1).Allow "k" 0).1 = true ∧
    (((NewRateLimiter 1).Allow "k" 0).2.Allow "k" 500000000).1 = false ∧
    ((((NewRateLimiter 1).Allow "k" 0).2.Allow "k" 500000000).2.Allow "k" 1001000000).1
      = true :=
  ⟨by decide,
   (C6_window_boundary ((NewRateLimiter 1).Allow "k" 0).2 "k" 0 500000000
      (by decide) (by decide)).1 (by decide) (by decide),
   (C6_window_boundary (((NewRateLimiter 1).Allow "k" 0).2.Allow "k" 500000000).2 "k" 0
      1001000000 (by decide) (by decide)).2 (by decide)⟩

theorem allowMany_other (k1 k2 : String) (h : k1 ≠ k2) (times : List Int) :
    ∀ rl : RateLimiter, (allowMany rl k1 times).requests k2 = rl.requests k2 ∧
      (allowMany rl k1 times).ratePerSec = rl.ratePerSec ∧
      (allowMany rl k1 times).windowSize = rl.windowSize := by
  induction times with
  | nil => intro rl; exact ⟨rfl, rfl, rfl⟩
  | cons t ts ih =>
    intro rl
    have := ih (rl.Allow k1 t).2
    simp only [allowMany, List.foldl_cons] at this ⊢
    rw [this.1, this.2.1, this.2.2, Allow_other rl k1 k2 t h, Allow_rate, Allow_window]
    exact ⟨rfl, rfl, rfl⟩

theorem pruned_congr (rl rl2 : RateLimiter) (k : String) (now : Int)
    (h1 : rl2.requests k = rl.requests k) (h2 : rl2.windowSize = rl.windowSize) :
    rl2.pruned k now = rl.pruned k now := by
  simp [RateLimiter.pruned, RateLimiter.stored, h1, h2]

/-- C7 (per-key isolation). For distinct keys, Allow on `k1` leaves the entry of `k2` as it
was, and removes no key at all; so the decision of Allow on `k2` at a given time is the same
after any number of Allow calls on `k1`. -/
theorem C7_per_key_isolation (rl : RateLimiter) (k1 k2 : String) (now : Int) (h : k1 ≠ k2) :
    (rl.Allow k1 now).2.requests k2 = rl.requests k2 ∧
    (∀ k, rl.requests k ≠ none → (rl.Allow k1 now).2.requests k ≠ none) ∧
    (∀ (times : List Int) (t : Int),
      ((allowMany rl k1 times).Allow k2 t).1 = (rl.Allow k2 t).1) := by
  refine ⟨Allow_other rl k1 k2 now h, ?_, ?_⟩
  · intro k hk
    by_cases hkk : k1 = k
    · subst hkk
      rw [Allow_eq]
      split <;> simp
    · rw [Allow_other rl k1 k now hkk]; exact hk
  · intro times t
    obtain ⟨h1, h2, h3⟩ := allowMany_other k1 k2 h times rl
    rw [Allow_decision, Allow_decision, pruned_congr rl _ k2 t h1 h3, h2]

/-- Witness for C7: with rate 1, three calls for "a" (one admitted, two rejected) leave the
first call for "b" admitted. -/
theorem C7_per_key_isolation_witness :
    ((allowMany (NewRateLimiter 1) "a" [0, 1, 2]).Allow "b" 3).1 = true :=
  ((C7_per_key_isolation (NewRateLimiter 1) "a" "b" 0 (by decide)).2.2 [0, 1, 2] 3).trans
    (by decide)

/-- C10 (eviction). After one sweep at `now` a key is present exactly when it was present
before with some timestamp strictly after `now - 5 minutes`; a surviving key keeps its
sequence; and with rate at least 1 an Allow on a key absent after the sweep is admitted and
leaves exactly its own timestamp stored. -/
theorem C10_eviction (rl : RateLimiter) (now : Int) (k : String) :
    ((rl.cleanup now).requests k ≠ none ↔
      ∃ ts, rl.requests k = some ts ∧ ∃ t ∈ ts, now - 5 * Minute < t) ∧
    (∀ ts, (rl.cleanup now).requests k = some ts → rl.requests k = some ts) ∧
    (1 ≤ rl.ratePerSec → (rl.cleanup now).requests k = none →
      ∀ t, ((rl.cleanup now).Allow k t).1 = true ∧
        ((rl.cleanup now).Allow k t).2.requests k = some [t]) := by
  have key : (rl.cleanup now).requests k =
      match rl.requests k with
      | none => none
      | some requests =>
        if (!requests.any (fun reqTime => After reqTime (now + (-5 * Minute)))) = true
        then none else some requests := rfl
  refine ⟨?_, ?_, ?_⟩
  · rw [key]
    cases hr : rl.requests k with
    | none => simp
    | some ts =>
      by_cases hany : ts.any (fun reqTime => After reqTime (now + (-5 * Minute))) = true
      · simp only [hany, Bool.not_true, Bool.false_eq_true, if_false]
        simp only [ne_eq, not_false_eq_true, true_iff, reduceCtorEq]
        rw [List.any_eq_true] at hany
        obtain ⟨t, ht, hA⟩ := hany
        rw [After_iff] at hA
        exact ⟨ts, rfl, t, ht, by omega⟩
      · have hany2 := hany
        simp only [Bool.not_eq_true] at hany
        simp only [hany, Bool.not_false, if_true, ne_eq, not_true_eq_false, false_iff]
        rintro ⟨ts2, h2, t, ht, hlt⟩
        cases h2
        apply hany2
        rw [List.any_eq_true]
        exact ⟨t, ht, by rw [After_iff]; omega⟩
  · intro ts
    rw [key]
    cases hr : rl.requests k with
    | none => simp
    | some ts2 =>
      simp only
      split
      · simp
      · exact id
  · intro hR hnone t
    have hp : (rl.cleanup now).pruned k t = [] := by
      simp [RateLimiter.pruned, RateLimiter.stored, hnone]
    have hrate : (rl.cleanup now).ratePerSec = rl.ratePerSec := rfl
    constructor
    · rw [Allow_decision, hp, hrate]
      simp; omega
    · have := Allow_stored_admitted (rl.cleanup now) k t (by rw [hp, hrate]; simp; omega)
      rw [this, hp]; rfl


/-! ### The rate bound -/

theorem inWindow_append (w t : Int) (a b : List Int) :
    inWindow w t (a ++ b) = inWindow w t a + inWindow w t b := by
  simp [inWindow, List.countP_append]

theorem inWindow_later (w t : Int) (l : List Int) (h : ∀ x ∈ l, t < x) : inWindow w t l = 0 := by
  rw [inWindow, List.countP_eq_zero]
  intro x hx
  have := h x hx
  simp; omega

theorem inWindow_stale (w t : Int) (l : List Int) (h : ∀ x ∈ l, x ≤ t - w) :
    inWindow w t l = 0 := by
  rw [inWindow, List.countP_eq_zero]
  intro x hx
  have := h x hx
  simp; omega

theorem inWindow_le_length (w t : Int) (l : List Int) : inWindow w t l ≤ l.length :=
  List.countP_le_length _

theorem inWindow_filter_le (w t : Int) (p : Int → Bool) (l : List Int) :
    inWindow w t (l.filter p) ≤ inWindow w t l :=
  List.Sublist.countP_le _ (List.filter_sublist l)

theorem inWindow_pruned (w now t : Int) (l : List Int) (h : now ≤ t) :
    inWindow w t (l.filter (fun x => decide (now - w < x))) = inWindow w t l := by
  rw [inWindow, inWindow, List.countP_filter]
  apply List.countP_congr
  intro x _
  simp; omega

theorem window_bridge (w R now : Int) (S S2 X : List Int)
    (hS : ∀ t, (inWindow w t S : Int) ≤ R)
    (hSS : ∀ t, now ≤ t → inWindow w t S = inWindow w t S2)
    (hX : ∀ x ∈ X, now ≤ x)
    (hIH : ∀ t, (inWindow w t (S2 ++ X) : Int) ≤ R) :
    ∀ t, (inWindow w t (S ++ X) : Int) ≤ R := by
  intro t
  by_cases h : now ≤ t
  · have := hIH t
    rw [inWindow_append] at this ⊢
    rw [hSS t h]; exact this
  · have hX0 : inWindow w t X = 0 := inWindow_later w t X (fun x hx => by have := hX x hx; omega)
    rw [inWindow_append, hX0]
    simpa using hS t

theorem Allow_stored (rl : RateLimiter) (k0 k : String) (now : Int) :
    (rl.Allow k0 now).2.stored k =
      if k = k0 then
        (if rl.ratePerSec ≤ ((rl.pruned k0 now).length : Int) then rl.pruned k0 now
         else rl.pruned k0 now ++ [now])
      else rl.stored k := by
  by_cases hk : k = k0
  · subst hk
    rw [if_pos rfl]
    by_cases hr : rl.ratePerSec ≤ ((rl.pruned k now).length : Int)
    · rw [if_pos hr, RateLimiter.stored, Allow_stored_rejected rl k now hr]
    · rw [if_neg hr, RateLimiter.stored, Allow_stored_admitted rl k now hr]
  · rw [if_neg hk, RateLimiter.stored, Allow_other rl k0 k now (Ne.symm hk)]
    rfl

theorem cleanup_requests (rl : RateLimiter) (now : Int) (k : String) :
    (rl.cleanup now).requests k =
      match rl.requests k with
      | none => none
      | some requests =>
        if (!requests.any (fun reqTime => After reqTime (now + (-5 * Minute)))) = true
        then none else some requests := rfl

theorem cleanup_stored (rl : RateLimiter) (now : Int) (k : String) :
    (rl.cleanup now).stored k = rl.stored k ∨
      ((rl.cleanup now).stored k = [] ∧ ∀ x ∈ rl.stored k, x ≤ now - 5 * Minute) := by
  unfold RateLimiter.stored
  rw [cleanup_requests]
  cases hr : rl.requests k with
  | none => left; rfl
  | some ts =>
    by_cases hany : ts.any (fun reqTime => After reqTime (now + (-5 * Minute))) = true
    · left
      simp only [hany, Bool.not_true, Bool.false_eq_true, if_false]
    · right
      simp only [Bool.not_eq_true] at hany
      refine ⟨by simp only [hany, Bool.not_false, if_true], ?_⟩
      intro x hx
      by_contra hlt
      have : ts.any (fun reqTime => After reqTime (now + (-5 * Minute))) = true := by
        rw [List.any_eq_true]
        exact ⟨x, hx, by rw [After_iff]; omega⟩
      rw [hany] at this
      exact Bool.false_ne_true this

theorem admitted_time_ge (T : Int) (es : List Event) :
    ∀ rl : RateLimiter, (∀ e ∈ es, T ≤ e.time) → ∀ a ∈ admitted rl es, T ≤ a.2 := by
  induction es with
  | nil => intro rl _ a ha; simp [admitted] at ha
  | cons e rest ih =>
    intro rl hT a ha
    have hrest : ∀ e2 ∈ rest, T ≤ e2.time := fun e2 h2 => hT e2 (List.mem_cons_of_mem _ h2)
    cases e with
    | allow key now =>
      simp only [admitted] at ha
      split at ha
      · rcases List.mem_cons.mp ha with h | h
        · subst h
          exact hT (.allow key now) (List.mem_cons_self _ _)
        · exact ih _ hrest a h
      · exact ih _ hrest a ha
    | sweep now =>
      simp only [admitted] at ha
      exact ih _ hrest a ha

theorem admittedTimes_ge (T : Int) (es : List Event) (rl : RateLimiter) (k : String)
    (h : ∀ e ∈ es, T ≤ e.time) : ∀ x ∈ admittedTimes rl es k, T ≤ x := by
  intro x hx
  simp only [admittedTimes, List.mem_map, List.mem_filter] at hx
  obtain ⟨a, ⟨ha, _⟩, rfl⟩ := hx
  exact admitted_time_ge T es rl h a ha

theorem WindowInv_Allow (rl : RateLimiter) (k0 : String) (T now : Int) (hT : T ≤ now)
    (hinv : WindowInv rl T) : WindowInv (rl.Allow k0 now).2 now := by
  intro k
  rw [Allow_stored, Allow_rate, Allow_window]
  obtain ⟨hle, hcnt⟩ := hinv k
  by_cases hk : k = k0
  · subst hk
    rw [if_pos rfl]
    have hPle : ∀ x ∈ rl.pruned k now, x ≤ now := by
      intro x hx
      have := hle x (List.mem_filter.mp hx).1
      omega
    have hPcnt : ∀ t, (inWindow rl.windowSize t (rl.pruned k now) : Int) ≤ rl.ratePerSec := by
      intro t
      have h1 := inWindow_filter_le rl.windowSize t
        (fun t => decide (now - rl.windowSize < t)) (rl.stored k)
      have h2 := hcnt t
      unfold RateLimiter.pruned
      omega
    by_cases hr : rl.ratePerSec ≤ ((rl.pruned k now).length : Int)
    · rw [if_pos hr]
      exact ⟨hPle, hPcnt⟩
    · rw [if_neg hr]
      constructor
      · intro x hx
        rcases List.mem_append.mp hx with h | h
        · exact hPle x h
        · simp at h; omega
      · intro t
        have h1 := inWindow_le_length rl.windowSize t (rl.pruned k now ++ [now])
        simp only [List.length_append, List.length_singleton] at h1
        omega
  · rw [if_neg hk]
    exact ⟨fun x hx => by have := hle x hx; omega, hcnt⟩

theorem WindowInv_cleanup (rl : RateLimiter) (T now : Int) (hT : T ≤ now)
    (hinv : WindowInv rl T) : WindowInv (rl.cleanup now) now := by
  intro k
  obtain ⟨hle, hcnt⟩ := hinv k
  have hw : (rl.cleanup now).windowSize = rl.windowSize := rfl
  have hr : (rl.cleanup now).ratePerSec = rl.ratePerSec := rfl
  rw [hw, hr]
  rcases cleanup_stored rl now k with h | ⟨h, _⟩
  · rw [h]
    exact ⟨fun x hx => by have := hle x hx; omega, hcnt⟩
  · rw [h]
    refine ⟨by simp, ?_⟩
    intro t
    have := hcnt t
    have h0 : inWindow rl.windowSize t [] = 0 := rfl
    rw [h0]
    have : (0 : Int) ≤ (inWindow rl.windowSize t (rl.stored k) : Int) := Int.natCast_nonneg _
    omega

theorem rate_bound_from (w R : Int) (hw : w ≤ 5 * Minute) (es : List Event) :
    ∀ (rl : RateLimiter) (T : Int), rl.windowSize = w → rl.ratePerSec = R →
      WindowInv rl T → (∀ e ∈ es, T ≤ e.time) →
      List.Pairwise (fun a b => a ≤ b) (es.map Event.time) →
      ∀ k t, (inWindow w t (rl.stored k ++ admittedTimes rl es k) : Int) ≤ R := by
  induction es with
  | nil =>
    intro rl T hw2 hR hinv _ _ k t
    have := (hinv k).2 t
    simpa [admittedTimes, admitted, hw2, hR] using this
  | cons e rest ih =>
    intro rl T hw2 hR hinv hT hsorted k
    rw [List.map_cons, List.pairwise_cons] at hsorted
    obtain ⟨hhead, hrest⟩ := hsorted
    have hTe : T ≤ e.time := hT e (List.mem_cons_self _ _)
    have hafter : ∀ e2 ∈ rest, e.time ≤ e2.time := by
      intro e2 h2
      exact hhead _ (List.mem_map_of_mem _ h2)
    have hS : ∀ t, (inWindow w t (rl.stored k) : Int) ≤ R := by
      intro t; have := (hinv k).2 t; rwa [hw2, hR] at this
    cases e with
    | allow k0 now =>
      have hinv2 := WindowInv_Allow rl k0 T now hTe hinv
      have hIH := ih (rl.Allow k0 now).2 now (by rw [Allow_window, hw2]) (by rw [Allow_rate, hR])
        hinv2 hafter hrest k
      have hge := admittedTimes_ge now rest (rl.Allow k0 now).2 k hafter
      rw [Allow_stored] at hIH
      by_cases hk : k = k0
      · subst hk
        rw [if_pos rfl] at hIH
        by_cases hr : rl.ratePerSec ≤ ((rl.pruned k now).length : Int)
        · rw [if_pos hr] at hIH
          have hadm : admittedTimes rl (Event.allow k now :: rest) k
              = admittedTimes (rl.Allow k now).2 rest k := by
            have hd : (rl.Allow k now).1 = false := by rw [Allow_decision]; simp [hr]
            simp [admittedTimes, admitted, hd]
          rw [hadm]
          refine window_bridge w R now _ (rl.pruned k now) _ hS ?_ hge hIH
          intro t ht
          unfold RateLimiter.pruned
          rw [hw2, inWindow_pruned w now t _ ht]
        · rw [if_neg hr] at hIH
          have hadm : admittedTimes rl (Event.allow k now :: rest) k
              = now :: admittedTimes (rl.Allow k now).2 rest k := by
            have hd : (rl.Allow k now).1 = true := by rw [Allow_decision]; simp [hr]
            simp [admittedTimes, admitted, hd]
          rw [hadm]
          refine window_bridge w R now _ (rl.pruned k now) _ hS ?_ ?_ ?_
          · intro t ht
            unfold RateLimiter.pruned
            rw [hw2, inWindow_pruned w now t _ ht]
          · intro x hx
            rcases List.mem_cons.mp hx with h | h
            · omega
            · exact hge x h
          · intro t
            have := hIH t
            rwa [List.append_assoc, List.singleton_append] at this
      · rw [if_neg hk] at hIH
        have hadm : admittedTimes rl (Event.allow k0 now :: rest) k
            = admittedTimes (rl.Allow k0 now).2 rest k := by
          simp only [admittedTimes, admitted]
          split
          · rw [List.filter_cons_of_neg]
            simpa using Ne.symm hk
          · rfl
        rw [hadm]
        exact hIH
    | sweep now =>
      have hinv2 := WindowInv_cleanup rl T now hTe hinv
      have hIH := ih (rl.cleanup now) now hw2 hR hinv2 hafter hrest k
      have hge := admittedTimes_ge now rest (rl.cleanup now) k hafter
      have hadm : admittedTimes rl (Event.sweep now :: rest) k
          = admittedTimes (rl.cleanup now) rest k := rfl
      rw [hadm]
      rcases cleanup_stored rl now k with h | ⟨h, hstale⟩
      · rw [h] at hIH; exact hIH
      · rw [h] at hIH
        refine window_bridge w R now _ [] _ hS ?_ hge hIH
        intro t ht
        rw [inWindow_stale w t _ (fun x hx => by have := hstale x hx; omega)]
        rfl

/-- C3 (rate bound). Start from a limiter with no stored key, rate at least 1 and a window no
longer than the five minutes after which the sweep deletes idle keys (NewRateLimiter always
sets one second). Run any sequence of Allow calls and sweeps whose clock readings never
decrease. Then for every key and every instant `t`, at most `ratePerSec` of the admitted
calls for that key have their timestamp in `(t - windowSize, t]`. -/
theorem C3_rate_bound (rl : RateLimiter) (es : List Event)
    (hempty : ∀ k, rl.requests k = none) (hR : 1 ≤ rl.ratePerSec)
    (hw : rl.windowSize ≤ 5 * Minute)
    (hmono : List.Pairwise (fun a b => a ≤ b) (es.map Event.time))
    (k : String) (t : Int) :
    (inWindow rl.windowSize t (admittedTimes rl es k) : Int) ≤ rl.ratePerSec := by
  have hst : ∀ k, rl.stored k = [] := by
    intro k; simp [RateLimiter.stored, hempty k]
  cases es with
  | nil =>
    have h0 : inWindow rl.windowSize t (admittedTimes rl [] k) = 0 := rfl
    rw [h0]; simp; omega
  | cons e rest =>
    have hinv : WindowInv rl e.time := by
      intro k2
      rw [hst k2]
      refine ⟨by simp, fun t2 => ?_⟩
      have h0 : inWindow rl.windowSize t2 [] = 0 := rfl
      rw [h0]; simp; omega
    have hall : ∀ e2 ∈ e :: rest, e.time ≤ e2.time := by
      intro e2 h2
      rcases List.mem_cons.mp h2 with h | h
      · subst h; exact le_refl _
      · rw [List.map_cons, List.pairwise_cons] at hmono
        exact hmono.1 _ (List.mem_map_of_mem _ h)
    have := rate_bound_from rl.windowSize rl.ratePerSec hw (e :: rest) rl e.time rfl rfl
      hinv hall hmono k t
    rwa [hst k, List.nil_append] at this

/-- Witness for C3: rate 1 and the one-second window of NewRateLimiter; of the calls for "k"
at 0 s, 0.5 s and 1.5 s around a sweep, the first and the last are admitted, and the window
ending at 1.5 s holds one of them. -/
theorem C3_rate_bound_witness :
    admittedTimes (NewRateLimiter 1)
      [.allow "k" 0, .allow "k" 500000000, .sweep 1000000000, .allow "k" 1500000000] "k"
      = [0, 1500000000] ∧
    (inWindow (NewRateLimiter 1).windowSize 1500000000
      (admittedTimes (NewRateLimiter 1)
        [.allow "k" 0, .allow "k" 500000000, .sweep 1000000000, .allow "k" 1500000000] "k")
      : Int) ≤ (NewRateLimiter 1).ratePerSec :=
  ⟨by decide,
   C3_rate_bound (NewRateLimiter 1)
    [.allow "k" 0, .allow "k" 500000000, .sweep 1000000000, .allow "k" 1500000000]
    (fun _ => rfl) (by decide) (by decide) (by decide) "k" 1500000000⟩

/-! ## Properties of the store -/

/-- C2 (exact-match precedence). For every store and every non-nil address whose canonical
string is a key of the exact map, FindLocation returns the location stored under that key,
whatever the CIDR buckets hold. -/
theorem C2_exact_match_precedence (db : CSVDatabase) (ip : IP) (loc : Location)
    (hip : ip ≠ []) (h : db.exactIPs.get ip.String = some loc) :
    FindLocation db ip = .ok loc := by
  unfold FindLocation
  rw [if_neg hip]
  simp only [h]

/-- Witness for C2: 10.0.0.1 is an exact row and is also covered by a /32 and a /8 row; the
lookup returns the exact row. -/
theorem C2_exact_match_precedence_witness :
    (∃ e ∈ (storeOf [["10.0.0.1/32", "Paris", "FR"], ["10.0.0.1", "Austin", "US"],
        ["10.0.0.0/8", "Lyon", "FR"]]).entries,
      e.network.Contains (ParseIP "10.0.0.1") = true ∧ e.prefixLen = 32) ∧
    FindLocation (storeOf [["10.0.0.1/32", "Paris", "FR"], ["10.0.0.1", "Austin", "US"],
        ["10.0.0.0/8", "Lyon", "FR"]]) (ParseIP "10.0.0.1")
      = .ok { Country := "US", City := "Austin" } :=
  ⟨by decide,
   C2_exact_match_precedence _ (ParseIP "10.0.0.1") { Country := "US", City := "Austin" }
    (by decide) (by decide)⟩

/-- C9 (end-to-end example). The store built from the rows 203.0.113.0/24, Paris, FR and
198.51.100.7, Austin, US builds without error; 203.0.113.42 resolves to FR / Paris,
198.51.100.7 to US / Austin, and 8.8.8.8 is a NotFoundError. -/
theorem C9_end_to_end :
    NewCSVDatabase [["203.0.113.0/24", "Paris", "FR"], ["198.51.100.7", "Austin", "US"]]
      = .ok (storeOf [["203.0.113.0/24", "Paris", "FR"], ["198.51.100.7", "Austin", "US"]]) ∧
    FindLocation (storeOf [["203.0.113.0/24", "Paris", "FR"], ["198.51.100.7", "Austin", "US"]])
      (ParseIP "203.0.113.42") = .ok { Country := "FR", City := "Paris" } ∧
    FindLocation (storeOf [["203.0.113.0/24", "Paris", "FR"], ["198.51.100.7", "Austin", "US"]])
      (ParseIP "198.51.100.7") = .ok { Country := "US", City := "Austin" } ∧
    FindLocation (storeOf [["203.0.113.0/24", "Paris", "FR"], ["198.51.100.7", "Austin", "US"]])
      (ParseIP "8.8.8.8") = .error (.NotFoundError "8.8.8.8") := by
  refine ⟨by decide, by decide, by decide, by decide⟩

/-- C1 (longest-prefix match), evaluated where it fails. An IPv4-mapped IPv6 CIDR row lands in
the bucket of the IPv4 rows with the same network address and is sorted by its 128-bit prefix
length. With rows ::ffff:10.0.0.0/104 (the range 10.0.0.0/8) and 10.0.0.0/16, the address
10.0.5.5 resolves to the /104 row although the /16 row contains it and covers a smaller
range. With rows ::ffff:10.0.0.0/104 and 10.1.0.0/16, 10.1.2.3 resolves to the /16 row
although the containing /104 row has the greater prefix length. The example of the claim,
with IPv4 rows only, resolves as claimed. -/
theorem C1_mapped_cidr_breaks_longest_prefix :
    (FindLocation (storeOf [["::ffff:10.0.0.0/104", "A", "L1"], ["10.0.0.0/16", "B", "L2"]])
        (ParseIP "10.0.5.5") = .ok { Country := "L1", City := "A" } ∧
      ¬ MostSpecificMatch
        (storeOf [["::ffff:10.0.0.0/104", "A", "L1"], ["10.0.0.0/16", "B", "L2"]])
        (ParseIP "10.0.5.5")) ∧
    (FindLocation (storeOf [["::ffff:10.0.0.0/104", "A", "L1"], ["10.1.0.0/16", "B", "L2"]])
        (ParseIP "10.1.2.3") = .ok { Country := "L2", City := "B" } ∧
      ¬ LongestPrefixMatch
        (storeOf [["::ffff:10.0.0.0/104", "A", "L1"], ["10.1.0.0/16", "B", "L2"]])
        (ParseIP "10.1.2.3")) ∧
    (FindLocation (storeOf [["10.0.0.0/8", "A", "L1"], ["10.1.0.0/16", "B", "L2"]])
        (ParseIP "10.1.2.3") = .ok { Country := "L2", City := "B" } ∧
      FindLocation (storeOf [["10.0.0.0/8", "A", "L1"], ["10.1.0.0/16", "B", "L2"]])
        (ParseIP "10.2.2.3") = .ok { Country := "L1", City := "A" }) := by
  refine ⟨⟨by decide, ?_⟩, ⟨by decide, ?_⟩, ⟨by decide, by decide⟩⟩
  · unfold MostSpecificMatch
    decide
  · unfold LongestPrefixMatch
    decide

/-! ### Loading -/

theorem GoMap.store_ne_nil {V : Type} (l : List (String × V)) (key : String) (val : V) :
    GoMap.store l key val ≠ [] := by
  cases l with
  | nil => simp [GoMap.store]
  | cons kv rest =>
    obtain ⟨k, v⟩ := kv
    simp only [GoMap.store]
    split <;> simp

theorem GoMap.len_set_ne_zero {V : Type} (m : GoMap V) (key : String) (val : V) :
    (m.set key val).len ≠ 0 := by
  simp only [GoMap.len, GoMap.set, ne_eq, List.length_eq_zero]
  exact GoMap.store_ne_nil _ _ _

/-- What one record does to the store: a CIDR row appends to the bucket of its network address,
an exact row writes the exact map, any other row changes nothing. -/
theorem loadRecord_eq (db : CSVDatabase) (r : List String) :
    loadRecord db r =
      if r.length < 3 then db
      else
        match ParseCIDR (TrimSpace (r.getD 0 "")) with
        | some (_, network) =>
          CSVDatabase.mk db.exactIPs
            (db.cidrByNet.set network.IP.String
              ((db.cidrByNet.get network.IP.String).getD [] ++
                [cidrEntry.mk network
                  (Location.mk (TrimSpace (r.getD 2 "")) (TrimSpace (r.getD 1 "")))]))
        | none =>
          if ParseIP (TrimSpace (r.getD 0 "")) = [] then db
          else
            CSVDatabase.mk
              (db.exactIPs.set (ParseIP (TrimSpace (r.getD 0 ""))).String
                (Location.mk (TrimSpace (r.getD 2 "")) (TrimSpace (r.getD 1 ""))))
              db.cidrByNet := by
  unfold loadRecord
  rfl

theorem loadRecord_exact_len (db : CSVDatabase) (r : List String) :
    (loadRecord db r).exactIPs.len = 0 ↔ db.exactIPs.len = 0 ∧ registersExact r = false := by
  rw [loadRecord_eq]
  unfold registersExact
  generalize TrimSpace (r.getD 0 "") = s
  by_cases h3 : r.length < 3
  · have : ¬ 3 ≤ r.length := by omega
    simp [h3, this]
  · have h3b : 3 ≤ r.length := by omega
    rw [if_neg h3]
    cases hc : ParseCIDR s with
    | some p => simp
    | none =>
      by_cases hip : ParseIP s = []
      · simp [hip]
      · simp only [hip, if_false, h3b, decide_True, Option.isNone_none, Bool.and_self, ne_eq,
          not_false_eq_true, Bool.true_and, Bool.true_eq_false, and_false, iff_false]
        exact GoMap.len_set_ne_zero _ _ _

theorem loadRecord_cidr_len (db : CSVDatabase) (r : List String) :
    (loadRecord db r).cidrByNet.len = 0 ↔ db.cidrByNet.len = 0 ∧ registersCIDR r = false := by
  rw [loadRecord_eq]
  unfold registersCIDR
  generalize TrimSpace (r.getD 0 "") = s
  by_cases h3 : r.length < 3
  · have : ¬ 3 ≤ r.length := by omega
    simp [h3, this]
  · have h3b : 3 ≤ r.length := by omega
    rw [if_neg h3]
    cases hc : ParseCIDR s with
    | some p =>
      simp only [h3b, decide_True, Option.isSome_some, Bool.and_self, Bool.true_eq_false,
        and_false, iff_false]
      exact GoMap.len_set_ne_zero _ _ _
    | none =>
      by_cases hip : ParseIP s = []
      · simp [hip]
      · simp [hip]

theorem foldl_loadRecord_len (records : List (List String)) :
    ∀ db : CSVDatabase,
      ((records.foldl loadRecord db).exactIPs.len = 0 ↔
        db.exactIPs.len = 0 ∧ ∀ r ∈ records, registersExact r = false) ∧
      ((records.foldl loadRecord db).cidrByNet.len = 0 ↔
        db.cidrByNet.len = 0 ∧ ∀ r ∈ records, registersCIDR r = false) := by
  induction records with
  | nil => intro db; simp
  | cons r rest ih =>
    intro db
    obtain ⟨h1, h2⟩ := ih (loadRecord db r)
    rw [List.foldl_cons, h1, h2, loadRecord_exact_len, loadRecord_cidr_len]
    simp only [List.mem_cons, forall_eq_or_imp]
    constructor <;> tauto

theorem loadEntries_error_iff (db : CSVDatabase) (records : List (List String)) :
    (∃ err, loadEntries db records = .error err) ↔
      (records.foldl loadRecord db).exactIPs.len = 0 ∧
      (records.foldl loadRecord db).cidrByNet.len = 0 := by
  unfold loadEntries
  simp only
  split
  · rename_i h
    simp [h]
  · rename_i h
    simp only [reduceCtorEq, exists_false, false_iff]
    exact h

/-- The loop of loadEntries, on the records ReadAll returned. From the empty tables
NewCSVDatabase starts with, it ends in an error exactly when no record registers as an exact
entry and none as a CIDR entry (so also for no records, or only short or unparseable ones);
NewCSVDatabase on those records fails in exactly the same cases, and otherwise both return a
store. -/
theorem load_fails_iff_empty_after_read (records : List (List String)) :
    ((∃ err, loadEntries { exactIPs := GoMap.empty, cidrByNet := GoMap.empty } records
        = .error err) ↔
      ∀ r ∈ records, registersExact r = false ∧ registersCIDR r = false) ∧
    ((∃ err, NewCSVDatabase records = .error err) ↔
      ∀ r ∈ records, registersExact r = false ∧ registersCIDR r = false) ∧
    ((∃ db, NewCSVDatabase records = .ok db) ↔
      ∃ r ∈ records, registersExact r = true ∨ registersCIDR r = true) := by
  have hload : (∃ err, loadEntries { exactIPs := GoMap.empty, cidrByNet := GoMap.empty } records
        = .error err) ↔
      ∀ r ∈ records, registersExact r = false ∧ registersCIDR r = false := by
    rw [loadEntries_error_iff]
    obtain ⟨h1, h2⟩ := foldl_loadRecord_len records
      { exactIPs := GoMap.empty, cidrByNet := GoMap.empty }
    rw [h1, h2]
    simp only [GoMap.len, GoMap.empty, List.length_nil, true_and]
    constructor
    · rintro ⟨a, b⟩ r hr; exact ⟨a r hr, b r hr⟩
    · intro h; exact ⟨fun r hr => (h r hr).1, fun r hr => (h r hr).2⟩
  have hnew : (∃ err, NewCSVDatabase records = .error err) ↔
      ∀ r ∈ records, registersExact r = false ∧ registersCIDR r = false := by
    rw [← hload]
    unfold NewCSVDatabase
    cases loadEntries { exactIPs := GoMap.empty, cidrByNet := GoMap.empty } records with
    | error e => simp
    | ok db => simp
  refine ⟨hload, hnew, ?_⟩
  have hok : (∃ db, NewCSVDatabase records = .ok db) ↔ ¬ ∃ err, NewCSVDatabase records = .error err := by
    cases NewCSVDatabase records with
    | error e => simp
    | ok db => simp
  rw [hok, hnew]
  push_neg
  constructor
  · rintro ⟨r, hr, h⟩
    refine ⟨r, hr, ?_⟩
    by_cases he : registersExact r = true
    · exact Or.inl he
    · right
      simp only [Bool.not_eq_true] at he
      simpa using h he
  · rintro ⟨r, hr, h⟩
    refine ⟨r, hr, ?_⟩
    intro he
    rcases h with h | h
    · rw [he] at h; exact absurd h (by decide)
    · simpa using h

/-! ### Masks and networks -/

theorem CIDRMask.fill_length (l : Nat) : ∀ n, (CIDRMask.fill l n).length = l := by
  induction l with
  | zero => intro n; rfl
  | succ l ih =>
    intro n
    unfold CIDRMask.fill
    split <;> simp [ih]

theorem CIDRMask_length32 (p : Nat) (h : p ≤ 32) : (CIDRMask p 32).length = 4 := by
  unfold CIDRMask
  have : ¬ 32 < p := by omega
  simp [IPv4len, IPv6len, this, CIDRMask.fill_length]

theorem CIDRMask_length128 (p : Nat) (h : p ≤ 128) : (CIDRMask p 128).length = 16 := by
  unfold CIDRMask
  have : ¬ 128 < p := by omega
  simp [IPv4len, IPv6len, this, CIDRMask.fill_length]

set_option maxRecDepth 100000 in
theorem CIDRMask_drop12 : ∀ p, p ≤ 128 → (CIDRMask p 128).drop 12 = CIDRMask (p - 96) 32 := by
  decide

theorem andBytes_length (a m : List Nat) : (andBytes a m).length = min a.length m.length := by
  simp [andBytes]

theorem andBytes_idem : ∀ a m : List Nat, andBytes (andBytes a m) m = andBytes a m := by
  intro a
  induction a with
  | nil => intro m; simp [andBytes]
  | cons x a ih =>
    intro m
    cases m with
    | nil => simp [andBytes]
    | cons y m =>
      have := ih m
      simp only [andBytes, List.zipWith_cons_cons, List.cons.injEq] at this ⊢
      exact ⟨by rw [Nat.land_assoc, Nat.and_self], this⟩

theorem andBytes_drop (n : Nat) (a m : List Nat) :
    (andBytes a m).drop n = andBytes (a.drop n) (m.drop n) := by
  simp [andBytes, List.drop_zipWith]

theorem sameUnderMask_eq : ∀ nn m ip : List Nat, nn.length = ip.length → m.length = ip.length →
    sameUnderMask nn m ip = true → andBytes nn m = andBytes ip m := by
  intro nn
  induction nn with
  | nil =>
    intro m ip h1 _ _
    have : ip = [] := List.length_eq_zero.mp h1.symm
    subst this
    simp [andBytes]
  | cons n nn ih =>
    intro m ip h1 h2 h
    cases ip with
    | nil => simp at h1
    | cons x ip =>
      cases m with
      | nil => simp at h2
      | cons y m =>
        simp only [sameUnderMask] at h
        split at h
        · exact absurd h (by decide)
        · rename_i hne
          simp only [ne_eq, Decidable.not_not] at hne
          have := ih m ip (by simpa using h1) (by simpa using h2) h
          simp only [andBytes, List.zipWith_cons_cons, List.cons.injEq] at this ⊢
          exact ⟨hne, this⟩

/-! ### Parsing keeps to the size of its arrays -/

theorem parseIPv4Fields_length (s : List Char) :
    ∀ (first prevDot : Bool) (val pos digLen : Nat) (fields res : List Nat),
      parseIPv4Fields s first prevDot val pos digLen fields = some res →
      res.length = fields.length := by
  induction s with
  | nil =>
    intro first prevDot val pos digLen fields res h
    simp only [parseIPv4Fields] at h
    split at h
    · exact absurd h (by simp)
    · simp only [Option.some.injEq] at h
      rw [← h, List.length_set]
  | cons c rest ih =>
    intro first prevDot val pos digLen fields res h
    simp only [parseIPv4Fields] at h
    split at h
    · split at h
      · exact absurd h (by simp)
      · split at h
        · exact absurd h (by simp)
        · exact ih _ _ _ _ _ _ _ h
    · split at h
      · split at h
        · exact absurd h (by simp)
        · split at h
          · exact absurd h (by simp)
          · have := ih _ _ _ _ _ _ _ h
            rw [this, List.length_set]
      · exact absurd h (by simp)

theorem parseIPv6_loop_length (fuel : Nat) :
    ∀ st st2 : V6State, parseIPv6.loop fuel st = some st2 → st2.ip.length = st.ip.length := by
  induction fuel with
  | zero =>
    intro st st2 h
    simp only [parseIPv6.loop, Option.some.injEq] at h
    rw [← h]
  | succ fuel ih =>
    intro st st2 h
    unfold parseIPv6.loop at h
    split at h
    · simp only [Option.some.injEq] at h
      rw [← h]
    · split at h
      · exact absurd h (by simp)
      · split at h
        · exact absurd h (by simp)
        · split at h
          · split at h
            · exact absurd h (by simp)
            · split at h
              · exact absurd h (by simp)
              · split at h
                · exact absurd h (by simp)
                · simp only [Option.some.injEq] at h
                  rw [← h]
                  simp [List.length_set]
          · simp only at h
            split at h
            · simp only [Option.some.injEq] at h
              rw [← h]
              simp [List.length_set]
            · split at h
              · exact absurd h (by simp)
              · split at h
                · exact absurd h (by simp)
                · split at h
                  · split at h
                    · exact absurd h (by simp)
                    · split at h
                      · simp only [Option.some.injEq] at h
                        rw [← h]
                        simp [List.length_set]
                      · have := ih _ _ h
                        rw [this]
                        simp [List.length_set]
                  · have := ih _ _ h
                    rw [this]
                    simp [List.length_set]

theorem expandEllipsis_length (ip : List Nat) (i e : Nat) :
    (expandEllipsis ip i e).length = ip.length := by
  unfold expandEllipsis
  have hfold : ∀ (l : List Nat) (f : List Nat → Nat → List Nat) (init : List Nat),
      (∀ acc d, (f acc d).length = acc.length) → (l.foldl f init).length = init.length := by
    intro l
    induction l with
    | nil => intro f init _; rfl
    | cons x l ih =>
      intro f init hf
      rw [List.foldl_cons, ih f _ hf, hf]
  simp only
  rw [hfold, hfold]
  · intro acc d; exact List.length_set _ _ _
  · intro acc d; exact List.length_set _ _ _

theorem parseIPv6_finish_length (zone : List Char) (st : V6State) (a : Addr)
    (h : parseIPv6.finish zone st = some a) : a.z4 = false ∧ a.bytes.length = st.ip.length := by
  unfold parseIPv6.finish at h
  split_ifs at h
  · split at h
    · exact absurd h (by simp)
    · simp only [Option.some.injEq] at h
      rw [← h]
      exact ⟨rfl, expandEllipsis_length _ _ _⟩
  · simp only [Option.some.injEq] at h
    rw [← h]
    exact ⟨rfl, rfl⟩

theorem parseIPv6_length (input : List Char) (a : Addr) (h : parseIPv6 input = some a) :
    a.z4 = false ∧ a.bytes.length = 16 := by
  unfold parseIPv6 at h
  simp only at h
  split_ifs at h <;>
  first
  | (simp only [Option.some.injEq] at h
     rw [← h]
     exact ⟨rfl, List.length_replicate _ _⟩)
  | (split at h
     · exact absurd h (by simp)
     · rename_i st hst
       have hlen := parseIPv6_loop_length _ _ _ hst
       have hfin := parseIPv6_finish_length _ _ _ h
       rw [hlen] at hfin
       exact ⟨hfin.1, by rw [hfin.2]; exact List.length_replicate _ _⟩)

theorem parseIPv4_length (s : List Char) (a : Addr) (h : parseIPv4 s = some a) :
    a.z4 = true ∧ a.bytes.length = 4 := by
  unfold parseIPv4 at h
  split at h
  · exact absurd h (by simp)
  · rename_i fields hf
    simp only [Option.some.injEq] at h
    have := parseIPv4Fields_length _ _ _ _ _ _ _ _ hf
    rw [← h]
    simpa using this

theorem ParseAddr_scan_length (whole : List Char) (a : Addr) :
    ∀ s, ParseAddr.scan whole s = some a →
      (a.z4 = true ∧ a.bytes.length = 4) ∨ (a.z4 = false ∧ a.bytes.length = 16) := by
  intro s
  induction s with
  | nil => intro h; simp [ParseAddr.scan] at h
  | cons c rest ih =>
    intro h
    simp only [ParseAddr.scan] at h
    split at h
    · exact Or.inl (parseIPv4_length _ _ h)
    · split at h
      · exact Or.inr (parseIPv6_length _ _ h)
      · split at h
        · exact absurd h (by simp)
        · exact ih h

theorem ParseCIDR_wellFormed (s : String) (a : IP) (n : IPNet)
    (h : ParseCIDR s = some (a, n)) : n.wellFormed := by
  unfold ParseCIDR at h
  simp only at h
  split at h
  · exact absurd h (by simp)
  · split at h
    · exact absurd h (by simp)
    · rename_i ipAddr hp
      split at h
      · exact absurd h (by simp)
      · split at h
        · exact absurd h (by simp)
        · rename_i hcond
          simp only [not_or, not_lt] at hcond
          obtain ⟨_, _, hle⟩ := hcond
          simp only [Option.some.injEq, Prod.mk.injEq] at h
          obtain ⟨_, hn⟩ := h
          rcases ParseAddr_scan_length _ _ _ hp with ⟨hz, hb⟩ | ⟨hz, hb⟩
          · have hbit : ipAddr.BitLen = 32 := by simp [Addr.BitLen, hz]
            rw [hbit] at hn hle
            have h16 : ipAddr.As16 = v4InV6Prefix ++ ipAddr.bytes := by simp [Addr.As16, hz]
            have hm := CIDRMask_length32 _ hle
            have hIP : IP.Mask ipAddr.As16 (CIDRMask (dtoi (s.data.drop (s.data.indexOf '/' + 1))).1 32)
                = andBytes ipAddr.bytes (CIDRMask (dtoi (s.data.drop (s.data.indexOf '/' + 1))).1 32) := by
              unfold IP.Mask
              simp only [hm, h16, IPv4len, IPv6len]
              have hl : (v4InV6Prefix ++ ipAddr.bytes).length = 16 := by
                simp [v4InV6Prefix, hb]
              have ht : (v4InV6Prefix ++ ipAddr.bytes).take 12 = v4InV6Prefix :=
                List.take_left' rfl
              have hd : (v4InV6Prefix ++ ipAddr.bytes).drop 12 = ipAddr.bytes :=
                List.drop_left' rfl
              simp [hl, ht, hd, hb, hm]
            refine ⟨_, Or.inl ⟨hle, ?_, ?_, ?_⟩⟩
            · rw [← hn]
            · rw [← hn]; simp only; rw [hIP, andBytes_length, hb, hm]; rfl
            · rw [← hn]; simp only; rw [hIP, andBytes_idem]
          · have hbit : ipAddr.BitLen = 128 := by simp [Addr.BitLen, hz]
            rw [hbit] at hn hle
            have h16 : ipAddr.As16 = ipAddr.bytes := by simp [Addr.As16, hz]
            have hm := CIDRMask_length128 _ hle
            have hIP : IP.Mask ipAddr.As16 (CIDRMask (dtoi (s.data.drop (s.data.indexOf '/' + 1))).1 128)
                = andBytes ipAddr.bytes (CIDRMask (dtoi (s.data.drop (s.data.indexOf '/' + 1))).1 128) := by
              unfold IP.Mask
              simp [hm, h16, IPv4len, IPv6len, hb]
            refine ⟨_, Or.inr ⟨hle, ?_, ?_, ?_⟩⟩
            · rw [← hn]
            · rw [← hn]; simp only; rw [hIP, andBytes_length, hb, hm]; rfl
            · rw [← hn]; simp only; rw [hIP, andBytes_idem]

/-! ### Maps, sorting and the invariant of the buckets -/

theorem GoMap.lookup_mem {V : Type} (l : List (String × V)) (key : String) (v : V)
    (h : GoMap.lookup l key = some v) : (key, v) ∈ l := by
  induction l with
  | nil => simp [GoMap.lookup] at h
  | cons kv rest ih =>
    obtain ⟨k, w⟩ := kv
    simp only [GoMap.lookup] at h
    split at h
    · rename_i hk
      simp only [Option.some.injEq] at h
      rw [hk, h]
      exact List.mem_cons_self _ _
    · exact List.mem_cons_of_mem _ (ih h)

theorem GoMap.lookup_of_mem {V : Type} (l : List (String × V)) (key : String) (v : V)
    (hnd : (l.map Prod.fst).Nodup) (h : (key, v) ∈ l) : GoMap.lookup l key = some v := by
  induction l with
  | nil => simp at h
  | cons kv rest ih =>
    obtain ⟨k, w⟩ := kv
    rw [List.map_cons, List.nodup_cons] at hnd
    simp only [GoMap.lookup]
    rcases List.mem_cons.mp h with heq | hmem
    · simp only [Prod.mk.injEq] at heq
      rw [if_pos heq.1.symm, heq.2]
    · have hne : k ≠ key := by
        intro hk
        apply hnd.1
        rw [hk]
        exact List.mem_map.mpr ⟨(key, v), hmem, rfl⟩
      rw [if_neg hne]
      exact ih hnd.2 hmem

theorem GoMap.store_mem {V : Type} (l : List (String × V)) (key : String) (val : V)
    (kv : String × V) (h : kv ∈ GoMap.store l key val) : kv = (key, val) ∨ kv ∈ l := by
  induction l with
  | nil =>
    simp only [GoMap.store, List.mem_singleton] at h
    exact Or.inl h
  | cons x rest ih =>
    obtain ⟨k, w⟩ := x
    simp only [GoMap.store] at h
    split at h
    · rcases List.mem_cons.mp h with h1 | h1
      · exact Or.inl h1
      · exact Or.inr (List.mem_cons_of_mem _ h1)
    · rcases List.mem_cons.mp h with h1 | h1
      · exact Or.inr (h1 ▸ List.mem_cons_self _ _)
      · rcases ih h1 with h2 | h2
        · exact Or.inl h2
        · exact Or.inr (List.mem_cons_of_mem _ h2)

theorem GoMap.store_keys {V : Type} (l : List (String × V)) (key : String) (val : V) :
    (key ∈ l.map Prod.fst → (GoMap.store l key val).map Prod.fst = l.map Prod.fst) ∧
    (key ∉ l.map Prod.fst → (GoMap.store l key val).map Prod.fst = l.map Prod.fst ++ [key]) := by
  induction l with
  | nil => simp [GoMap.store]
  | cons x rest ih =>
    obtain ⟨k, w⟩ := x
    simp only [GoMap.store]
    by_cases hk : k = key
    · rw [if_pos hk]
      simp [hk]
    · rw [if_neg hk]
      simp only [List.map_cons, List.mem_cons, List.cons_append, List.cons.injEq, true_and]
      constructor
      · intro h
        rcases h with h | h
        · exact absurd h.symm hk
        · exact ih.1 h
      · intro h
        push_neg at h
        exact ih.2 h.2

theorem GoMap.store_nodup {V : Type} (l : List (String × V)) (key : String) (val : V)
    (h : (l.map Prod.fst).Nodup) : ((GoMap.store l key val).map Prod.fst).Nodup := by
  by_cases hk : key ∈ l.map Prod.fst
  · rw [(GoMap.store_keys l key val).1 hk]; exact h
  · rw [(GoMap.store_keys l key val).2 hk]
    rw [List.nodup_append]
    refine ⟨h, List.nodup_singleton _, ?_⟩
    intro x hx hx2
    rw [List.mem_singleton] at hx2
    exact hk (hx2 ▸ hx)

theorem sinkLeft_perm {α : Type} (less : α → α → Bool) (x : α) (l : List α) :
    (sinkLeft less x l).Perm (x :: l) := by
  induction l with
  | nil => exact List.Perm.refl _
  | cons y rest ih =>
    simp only [sinkLeft]
    split
    · exact (List.Perm.cons y ih).trans (List.Perm.swap x y rest)
    · exact List.Perm.refl _

theorem sortSlice_perm {α : Type} (less : α → α → Bool) (data : List α) :
    (sortSlice less data).Perm data := by
  unfold sortSlice
  have h : ∀ (l acc : List α),
      (l.foldl (fun sortedRev x => sinkLeft less x sortedRev) acc).Perm (l.reverse ++ acc) := by
    intro l
    induction l with
    | nil => intro acc; exact List.Perm.refl _
    | cons x l ih =>
      intro acc
      rw [List.foldl_cons, List.reverse_cons, List.append_assoc]
      exact (ih _).trans (List.Perm.append_left _ (sinkLeft_perm less x acc))
  have := h data []
  rw [List.append_nil] at this
  exact (List.reverse_perm _).trans (this.trans (List.reverse_perm _))

theorem StoreInv_loadRecord (db : CSVDatabase) (r : List String) (h : StoreInv db) :
    StoreInv (loadRecord db r) := by
  rw [loadRecord_eq]
  generalize TrimSpace (r.getD 0 "") = s
  by_cases h3 : r.length < 3
  · rw [if_pos h3]; exact h
  · rw [if_neg h3]
    cases hp : ParseCIDR s with
    | some p =>
      obtain ⟨a, network⟩ := p
      obtain ⟨hnd, hent⟩ := h
      refine ⟨GoMap.store_nodup _ _ _ hnd, ?_⟩
      intro kv hkv e he
      rcases GoMap.store_mem _ _ _ _ hkv with heq | hmem
      · rw [heq] at he ⊢
        simp only at he ⊢
        rcases List.mem_append.mp he with h1 | h1
        · cases hg : db.cidrByNet.get network.IP.String with
          | none => rw [hg] at h1; simp at h1
          | some bucket =>
            rw [hg] at h1
            simp only [Option.getD_some] at h1
            exact hent (network.IP.String, bucket) (GoMap.lookup_mem _ _ _ hg) e h1
        · rw [List.mem_singleton] at h1
          rw [h1]
          exact ⟨rfl, ParseCIDR_wellFormed s a network hp⟩
      · exact hent kv hmem e he
    | none =>
      simp only
      by_cases hip : ParseIP s = []
      · rw [if_pos hip]; exact h
      · rw [if_neg hip]; exact h

theorem StoreInv_foldl (records : List (List String)) :
    ∀ db, StoreInv db → StoreInv (records.foldl loadRecord db) := by
  induction records with
  | nil => intro db h; exact h
  | cons r rest ih => intro db h; exact ih _ (StoreInv_loadRecord db r h)

theorem StoreInv_sorted (db : CSVDatabase) (h : StoreInv db) :
    StoreInv { db with cidrByNet := db.cidrByNet.mapValues (sortSlice longerMask) } := by
  obtain ⟨hnd, hent⟩ := h
  constructor
  · simpa [GoMap.mapValues, List.map_map, Function.comp_def] using hnd
  · intro kv hkv e he
    simp only [GoMap.mapValues, List.mem_map] at hkv
    obtain ⟨kv0, hkv0, rfl⟩ := hkv
    simp only at he ⊢
    exact hent kv0 hkv0 e ((sortSlice_perm longerMask kv0.2).mem_iff.mp he)

theorem StoreInv_NewCSVDatabase (records : List (List String)) (db : CSVDatabase)
    (h : NewCSVDatabase records = .ok db) : StoreInv db := by
  unfold NewCSVDatabase at h
  split at h
  · exact absurd h (by simp)
  · rename_i db2 hload
    simp only [Except.ok.injEq] at h
    subst h
    unfold loadEntries at hload
    simp only at hload
    split_ifs at hload
    simp only [Except.ok.injEq] at hload
    rw [← hload]
    apply StoreInv_sorted
    apply StoreInv_foldl
    exact ⟨by simp [GoMap.empty], by simp [GoMap.empty]⟩

theorem entries_of_get (db : CSVDatabase) (key : String) (bucket : List cidrEntry)
    (h : db.cidrByNet.get key = some bucket) : ∀ e ∈ bucket, e ∈ db.entries := by
  intro e he
  unfold CSVDatabase.entries
  rw [List.mem_flatten]
  exact ⟨bucket, List.mem_map.mpr ⟨(key, bucket), GoMap.lookup_mem _ _ _ h, rfl⟩, he⟩

theorem get_of_entries (db : CSVDatabase) (hinv : StoreInv db) (e : cidrEntry)
    (he : e ∈ db.entries) :
    ∃ bucket, db.cidrByNet.get e.network.IP.String = some bucket ∧ e ∈ bucket ∧
      e.network.wellFormed := by
  unfold CSVDatabase.entries at he
  rw [List.mem_flatten] at he
  obtain ⟨bucket, hb, hmem⟩ := he
  rw [List.mem_map] at hb
  obtain ⟨kv, hkv, rfl⟩ := hb
  obtain ⟨hkey, hwf⟩ := hinv.2 kv hkv e hmem
  refine ⟨kv.2, ?_, hmem, hwf⟩
  rw [hkey]
  exact GoMap.lookup_of_mem _ _ _ hinv.1 hkv

/-! ### Lookup -/

theorem To4_cases (ip : IP) :
    (ip.length = 4 ∧ ip.To4 = ip) ∨ (ip.length ≠ 4 ∧ ip.To4 = []) ∨
    (ip.length = 16 ∧ ip.To4 = ip.drop 12 ∧ ip.To4.length = 4) := by
  unfold IP.To4
  by_cases h4 : ip.length = IPv4len
  · left
    rw [if_pos h4]
    exact ⟨h4, rfl⟩
  · rw [if_neg h4]
    split_ifs with h
    · right; right
      have h16 : ip.length = 16 := h.1
      have ht : ip.take 16 = ip := List.take_of_length_le (by omega)
      rw [ht]
      exact ⟨h16, rfl, by rw [List.length_drop, h16]⟩
    · right; left
      exact ⟨h4, rfl⟩

theorem String_To4 (ip : IP) (h : ip.To4 ≠ []) : IP.String ip.To4 = IP.String ip := by
  rcases To4_cases ip with ⟨_, h1⟩ | ⟨_, h1⟩ | ⟨h16, h1, h4⟩
  · rw [h1]
  · exact absurd h1 h
  · have hd : (ip.To4).To4 = ip.To4 := by
      rcases To4_cases ip.To4 with ⟨_, h2⟩ | ⟨h2, _⟩ | ⟨h2, _, _⟩
      · exact h2
      · exact absurd h4 h2
      · omega
    unfold IP.String
    rw [hd]
    simp [h4, h16, IPv4len, IPv6len]

theorem networkNumberAndMask_v4 (n : IPNet) (hip : n.IP.length = 4) (hm : n.Mask.length = 4) :
    networkNumberAndMask n = (n.IP, n.Mask) := by
  have hto : n.IP.To4 = n.IP := by
    rcases To4_cases n.IP with ⟨_, h⟩ | ⟨h, _⟩ | ⟨h, _, _⟩
    · exact h
    · exact absurd hip h
    · omega
  have hne : n.IP ≠ [] := by
    intro h; rw [h] at hip; simp at hip
  unfold networkNumberAndMask
  simp [hto, hne, hip, hm, IPv4len, IPv6len]

theorem networkNumberAndMask_v6 (n : IPNet) (hip : n.IP.length = 16) (hm : n.Mask.length = 16) :
    (n.IP.To4 = [] ∧ networkNumberAndMask n = (n.IP, n.Mask)) ∨
    (n.IP.To4 ≠ [] ∧ n.IP.To4 = n.IP.drop 12 ∧
      networkNumberAndMask n = (n.IP.drop 12, n.Mask.drop 12)) := by
  rcases To4_cases n.IP with ⟨h, _⟩ | ⟨_, h⟩ | ⟨_, h, h4⟩
  · omega
  · left
    refine ⟨h, ?_⟩
    unfold networkNumberAndMask
    simp [h, hip, hm, IPv4len, IPv6len]
  · right
    have hne : n.IP.To4 ≠ [] := by
      intro h0; rw [h0] at h4; simp at h4
    refine ⟨hne, h, ?_⟩
    unfold networkNumberAndMask
    have hne2 : List.drop 12 n.IP ≠ [] := h ▸ hne
    have h4b : (List.drop 12 n.IP).length = 4 := h ▸ h4
    simp [h, hne2, hm, h4b, IPv4len, IPv6len]

/-- A well-formed network that contains the address is the address masked to some prefix
length that FindLocation tries, both read as text. -/
theorem contains_level (n : IPNet) (ip : IP) (hwf : n.wellFormed)
    (hc : n.Contains ip = true) :
    (ip.To4 ≠ [] ∧ ip.To4.length = 4 ∧
      ∃ L, L ≤ 32 ∧ IP.String (andBytes ip.To4 (CIDRMask L 32)) = n.IP.String) ∨
    (ip.To4 = [] ∧ ip.length = 16 ∧
      ∃ L, L ≤ 128 ∧ IP.String (andBytes ip (CIDRMask L 128)) = n.IP.String) := by
  have hipcases : (ip.To4 ≠ [] ∧ ip.To4.length = 4) ∨ (ip.To4 = [] ∧ ip.length ≠ 4) := by
    rcases To4_cases ip with ⟨h4, h⟩ | ⟨h4, h⟩ | ⟨_, _, h4⟩
    · left
      rw [h]
      exact ⟨fun h0 => by rw [h0] at h4; simp at h4, h4⟩
    · right
      exact ⟨h, h4⟩
    · left
      exact ⟨fun h0 => by rw [h0] at h4; simp at h4, h4⟩
  unfold IPNet.Contains at hc
  simp only at hc
  rcases hipcases with ⟨hne, h4⟩ | ⟨h0, hn4⟩
  · rw [if_pos hne, h4] at hc
    left
    refine ⟨hne, h4, ?_⟩
    obtain ⟨p, ⟨hp, hmask, hiplen, hfix⟩ | ⟨hp, hmask, hiplen, hfix⟩⟩ := hwf
    · have hml : n.Mask.length = 4 := by rw [hmask]; exact CIDRMask_length32 p hp
      rw [networkNumberAndMask_v4 n hiplen hml] at hc
      simp only [hiplen, ne_eq, not_true_eq_false, if_false] at hc
      have := sameUnderMask_eq _ _ _ (by rw [hiplen, h4]) (by rw [hml, h4]) hc
      refine ⟨p, hp, ?_⟩
      rw [← hmask, ← this, hfix]
    · have hml : n.Mask.length = 16 := by rw [hmask]; exact CIDRMask_length128 p hp
      rcases networkNumberAndMask_v6 n hiplen hml with ⟨_, hnm⟩ | ⟨hne6, hto, hnm⟩
      · rw [hnm] at hc
        simp [hiplen] at hc
      · rw [hnm] at hc
        have hd4 : (List.drop 12 n.IP).length = 4 := by rw [List.length_drop, hiplen]
        simp only [hd4, ne_eq, not_true_eq_false, if_false] at hc
        have hmd : (List.drop 12 n.Mask).length = 4 := by rw [List.length_drop, hml]
        have := sameUnderMask_eq _ _ _ (by rw [hd4, h4]) (by rw [hmd, h4]) hc
        refine ⟨p - 96, by omega, ?_⟩
        rw [← CIDRMask_drop12 p hp, ← hmask, ← this, ← andBytes_drop, hfix, ← hto]
        exact String_To4 n.IP hne6
  · rw [if_neg (not_not.mpr h0)] at hc
    right
    obtain ⟨p, ⟨hp, hmask, hiplen, hfix⟩ | ⟨hp, hmask, hiplen, hfix⟩⟩ := hwf
    · have hml : n.Mask.length = 4 := by rw [hmask]; exact CIDRMask_length32 p hp
      rw [networkNumberAndMask_v4 n hiplen hml] at hc
      simp [hiplen, hn4] at hc
    · have hml : n.Mask.length = 16 := by rw [hmask]; exact CIDRMask_length128 p hp
      rcases networkNumberAndMask_v6 n hiplen hml with ⟨_, hnm⟩ | ⟨hne6, hto, hnm⟩
      · rw [hnm] at hc
        simp only [hiplen] at hc
        by_cases h16 : ip.length = 16
        · simp only [h16, ne_eq, not_true_eq_false, if_false] at hc
          have := sameUnderMask_eq _ _ _ (by rw [hiplen, h16]) (by rw [hml, h16]) hc
          refine ⟨h0, h16, p, hp, ?_⟩
          rw [← hmask, ← this, hfix]
        · simp [h16] at hc
      · rw [hnm] at hc
        have hd4 : (List.drop 12 n.IP).length = 4 := by rw [List.length_drop, hiplen]
        simp [hd4, hn4] at hc

theorem findInCIDR_found (db : CSVDatabase) (ip ipBytes : IP) (L : Nat)
    (bucket : List cidrEntry) (e : cidrEntry)
    (hmask : CIDRMask L (ipBytes.length * 8) ≠ [])
    (hget : db.cidrByNet.get (IP.String (andBytes ipBytes (CIDRMask L (ipBytes.length * 8))))
      = some bucket)
    (he : e ∈ bucket) (hc : e.network.Contains ip = true) :
    ∀ ls, L ∈ ls → ∃ loc, findInCIDR db ip ipBytes ls = .ok loc := by
  intro ls
  induction ls with
  | nil => intro h; simp at h
  | cons x rest ih =>
    intro hL
    by_cases hx : x = L
    · subst hx
      unfold findInCIDR
      simp only [hmask, if_false, hget]
      cases hf : bucket.find? (fun entry => entry.network.Contains ip) with
      | none =>
        rw [List.find?_eq_none] at hf
        exact absurd hc (hf e he)
      | some e2 => exact ⟨_, rfl⟩
    · have hrest : L ∈ rest := by
        rcases List.mem_cons.mp hL with h | h
        · exact absurd h.symm hx
        · exact h
      obtain ⟨loc, hloc⟩ := ih hrest
      unfold findInCIDR
      simp only
      split_ifs
      · exact ⟨loc, hloc⟩
      · split
        · split
          · exact ⟨_, rfl⟩
          · exact ⟨loc, hloc⟩
        · exact ⟨loc, hloc⟩

theorem findInCIDR_result (db : CSVDatabase) (ip ipBytes : IP) :
    ∀ ls, (∃ e ∈ db.entries, e.network.Contains ip = true ∧
        findInCIDR db ip ipBytes ls = .ok e.location) ∨
      findInCIDR db ip ipBytes ls = .error (.NotFoundError ip.String) := by
  intro ls
  induction ls with
  | nil => right; rfl
  | cons x rest ih =>
    unfold findInCIDR
    simp only
    split_ifs
    · exact ih
    · split
      · rename_i entries hget
        split
        · rename_i entry hf
          left
          have hcont := List.find?_some hf
          exact ⟨entry, entries_of_get db _ entries hget entry (List.mem_of_find?_eq_some hf),
            hcont, rfl⟩
        · exact ih
      · exact ih

theorem mem_levels (n L : Nat) (h : L ≤ n) : L ∈ (List.range (n + 1)).map (fun i => n - i) := by
  rw [List.mem_map]
  exact ⟨n - L, List.mem_range.mpr (by omega), by omega⟩

/-- C5 (NotFound contract). For a store built by NewCSVDatabase and a non-nil address,
FindLocation returns NotFoundError with the text of the address exactly when that text is not
an exact key and no registered CIDR entry contains the address; no other error is returned
for such an address; and FindLocation only reads the store (it yields a result, the tables
are not an output), so any number of calls on the same store and address give the same
result. -/
theorem C5_not_found_contract (records : List (List String)) (db : CSVDatabase) (ip : IP)
    (hdb : NewCSVDatabase records = .ok db) (hip : ip ≠ []) :
    (FindLocation db ip = .error (.NotFoundError ip.String) ↔
      db.exactIPs.get ip.String = none ∧ ∀ e ∈ db.entries, e.network.Contains ip = false) ∧
    (∀ err, FindLocation db ip = .error err → err = .NotFoundError ip.String) ∧
    (∀ n, (List.replicate n ip).map (FindLocation db)
      = List.replicate n (FindLocation db ip)) := by
  have hinv := StoreInv_NewCSVDatabase records db hdb
  have hne : ip ≠ [] := hip
  have hfind : FindLocation db ip =
      match db.exactIPs.get ip.String with
      | some location => .ok location
      | none =>
        if ip.To4 ≠ [] then findInCIDR db ip ip.To4 ((List.range 33).map (fun i => 32 - i))
        else findInCIDR db ip ip ((List.range 129).map (fun i => 128 - i)) := by
    unfold FindLocation
    rw [if_neg hne]
  have hfound : ∀ e ∈ db.entries, e.network.Contains ip = true →
      db.exactIPs.get ip.String = none → ∃ loc, FindLocation db ip = .ok loc := by
    intro e he hc hex
    obtain ⟨bucket, hget, hmem, hwf⟩ := get_of_entries db hinv e he
    rw [hfind, hex]
    simp only
    rcases contains_level e.network ip hwf hc with
      ⟨hto, h4, L, hL, hkey⟩ | ⟨hto, h16, L, hL, hkey⟩
    · rw [if_pos hto]
      have hbits : ip.To4.length * 8 = 32 := by rw [h4]
      refine findInCIDR_found db ip ip.To4 L bucket e ?_ ?_ hmem hc _ (mem_levels 32 L hL)
      · rw [hbits]
        intro h0
        have := CIDRMask_length32 L hL
        rw [h0] at this; simp at this
      · rw [hbits, hkey]; exact hget
    · rw [if_neg (by simpa using hto)]
      have hbits : ip.length * 8 = 128 := by rw [h16]
      refine findInCIDR_found db ip ip L bucket e ?_ ?_ hmem hc _ (mem_levels 128 L hL)
      · rw [hbits]
        intro h0
        have := CIDRMask_length128 L hL
        rw [h0] at this; simp at this
      · rw [hbits, hkey]; exact hget
  have hres : db.exactIPs.get ip.String = none →
      (∃ e ∈ db.entries, e.network.Contains ip = true ∧ FindLocation db ip = .ok e.location) ∨
      FindLocation db ip = .error (.NotFoundError ip.String) := by
    intro hex
    rw [hfind, hex]
    simp only
    split_ifs
    · exact findInCIDR_result db ip ip.To4 _
    · exact findInCIDR_result db ip ip _
  refine ⟨⟨?_, ?_⟩, ?_, ?_⟩
  · intro herr
    have hex : db.exactIPs.get ip.String = none := by
      cases hg : db.exactIPs.get ip.String with
      | none => rfl
      | some loc =>
        rw [hfind, hg] at herr
        exact absurd herr (by simp)
    refine ⟨hex, ?_⟩
    intro e he
    by_contra hc
    simp only [Bool.not_eq_false] at hc
    obtain ⟨loc, hloc⟩ := hfound e he hc hex
    rw [hloc] at herr
    exact absurd herr (by simp)
  · rintro ⟨hex, hnone⟩
    rcases hres hex with ⟨e, he, hc, _⟩ | h
    · rw [hnone e he] at hc
      exact absurd hc (by decide)
    · exact h
  · intro err herr
    cases hg : db.exactIPs.get ip.String with
    | some loc =>
      rw [hfind, hg] at herr
      exact absurd herr (by simp)
    | none =>
      rcases hres hg with ⟨e, _, _, hok⟩ | h
      · rw [hok] at herr
        exact absurd herr (by simp)
      · rw [h] at herr
        simp only [Except.error.injEq] at herr
        exact herr.symm
  · intro n
    exact List.map_replicate

/-- Witness for C5: in the store of the two rows of the end-to-end example, 8.8.8.8 is no
exact key and in no registered range, and the lookup returns NotFoundError "8.8.8.8". -/
theorem C5_not_found_contract_witness :
    FindLocation (storeOf [["203.0.113.0/24", "Paris", "FR"], ["198.51.100.7", "Austin", "US"]])
      (ParseIP "8.8.8.8") = .error (.NotFoundError "8.8.8.8") :=
  ((C5_not_found_contract [["203.0.113.0/24", "Paris", "FR"], ["198.51.100.7", "Austin", "US"]]
      (storeOf [["203.0.113.0/24", "Paris", "FR"], ["198.51.100.7", "Austin", "US"]])
      (ParseIP "8.8.8.8") (by decide) (by decide)).1.2 ⟨by decide, by decide⟩)

/-! ### Longest-prefix match on stores of IPv4 ranges

Claim C1 fails on stores that hold IPv4-mapped IPv6 CIDR rows. This section proves it for the
stores whose CIDR rows are all IPv4 prefixes. -/

set_option maxRecDepth 100000 in
theorem appendDecimal_decode : ∀ x, x < 256 → decodeDecimal (appendDecimal [] x) = x ∧
    '.' ∉ appendDecimal [] x := by
  decide

set_option maxRecDepth 100000 in
theorem CIDRMask_Size32 : ∀ p, p ≤ 32 → (CIDRMask p 32).Size = (p, 32) := by decide

set_option maxRecDepth 100000 in
theorem CIDRMask_and32 : ∀ a, a ≤ 32 → ∀ b, b ≤ 32 →
    andBytes (CIDRMask a 32) (CIDRMask b 32) = CIDRMask (min a b) 32 := by decide

set_option maxRecDepth 100000 in
theorem CIDRMask_bytes32 : ∀ p, p ≤ 32 → ∀ b ∈ CIDRMask p 32, b < 256 := by decide

theorem levels32_descending :
    List.Pairwise (fun a b => b < a) ((List.range 33).map (fun i => 32 - i)) := by decide

theorem appendDecimal_eq (b : List Char) (x : Nat) :
    appendDecimal b x = b ++ appendDecimal [] x := by
  unfold appendDecimal
  split_ifs <;> simp

theorem append_dot_inj : ∀ (u u2 r r2 : List Char), '.' ∉ u → '.' ∉ u2 →
    u ++ '.' :: r = u2 ++ '.' :: r2 → u = u2 ∧ r = r2 := by
  intro u
  induction u with
  | nil =>
    intro u2 r r2 _ h2 h
    cases u2 with
    | nil => simpa using h
    | cons c u2 =>
      simp only [List.nil_append, List.cons_append, List.cons.injEq] at h
      exact absurd (h.1 ▸ List.mem_cons_self _ _) h2
  | cons c u ih =>
    intro u2 r r2 h1 h2 h
    cases u2 with
    | nil =>
      simp only [List.nil_append, List.cons_append, List.cons.injEq] at h
      exact absurd (h.1 ▸ List.mem_cons_self _ _) h1
    | cons c2 u2 =>
      simp only [List.cons_append, List.cons.injEq] at h
      obtain ⟨hu, hr⟩ := ih u2 r r2 (fun hm => h1 (List.mem_cons_of_mem _ hm))
        (fun hm => h2 (List.mem_cons_of_mem _ hm)) h.2
      exact ⟨by rw [h.1, hu], hr⟩

theorem appendDecimal_inj (x y : Nat) (hx : x < 256) (hy : y < 256)
    (h : appendDecimal [] x = appendDecimal [] y) : x = y := by
  rw [← (appendDecimal_decode x hx).1, ← (appendDecimal_decode y hy).1, h]

theorem string4_eq (a b c d : Nat) :
    string4 [a, b, c, d] = appendDecimal [] a ++ '.' :: (appendDecimal [] b ++
      '.' :: (appendDecimal [] c ++ '.' :: appendDecimal [] d)) := by
  unfold string4
  simp only [List.getD_cons_zero, List.getD_cons_succ]
  rw [appendDecimal_eq _ d, appendDecimal_eq _ c, appendDecimal_eq _ b]
  simp [List.append_assoc]

theorem length_four (l : List Nat) (h : l.length = 4) : ∃ a b c d, l = [a, b, c, d] := by
  match l, h with
  | [a, b, c, d], _ => exact ⟨a, b, c, d, rfl⟩

/-- The dotted-quad text determines a 4-byte address. -/
theorem String_inj4 (x y : IP) (hx : x.length = 4) (hy : y.length = 4)
    (hbx : ∀ b ∈ x, b < 256) (hby : ∀ b ∈ y, b < 256) (h : IP.String x = IP.String y) :
    x = y := by
  obtain ⟨a, b, c, d, rfl⟩ := length_four x hx
  obtain ⟨a2, b2, c2, d2, rfl⟩ := length_four y hy
  have hs : string4 [a, b, c, d] = string4 [a2, b2, c2, d2] := by
    have h1 : IP.String [a, b, c, d] = String.mk (string4 [a, b, c, d]) := by
      simp [IP.String, IP.To4, IPv4len, IPv6len]
    have h2 : IP.String [a2, b2, c2, d2] = String.mk (string4 [a2, b2, c2, d2]) := by
      simp [IP.String, IP.To4, IPv4len, IPv6len]
    rw [h1, h2] at h
    exact congrArg String.data h
  rw [string4_eq, string4_eq] at hs
  have ha := hbx a (by simp)
  have hb := hbx b (by simp)
  have hc := hbx c (by simp)
  have hd := hbx d (by simp)
  have ha2 := hby a2 (by simp)
  have hb2 := hby b2 (by simp)
  have hc2 := hby c2 (by simp)
  have hd2 := hby d2 (by simp)
  obtain ⟨e1, r1⟩ := append_dot_inj _ _ _ _ (appendDecimal_decode a ha).2
    (appendDecimal_decode a2 ha2).2 hs
  obtain ⟨e2, r2⟩ := append_dot_inj _ _ _ _ (appendDecimal_decode b hb).2
    (appendDecimal_decode b2 hb2).2 r1
  obtain ⟨e3, r3⟩ := append_dot_inj _ _ _ _ (appendDecimal_decode c hc).2
    (appendDecimal_decode c2 hc2).2 r2
  rw [appendDecimal_inj a a2 ha ha2 e1, appendDecimal_inj b b2 hb hb2 e2,
    appendDecimal_inj c c2 hc hc2 e3, appendDecimal_inj d d2 hd hd2 r3]

theorem andBytes_assoc : ∀ x a b : List Nat,
    andBytes (andBytes x a) b = andBytes x (andBytes a b) := by
  intro x
  induction x with
  | nil => intro a b; simp [andBytes]
  | cons x0 x ih =>
    intro a b
    cases a with
    | nil => simp [andBytes]
    | cons a0 a =>
      cases b with
      | nil => simp [andBytes]
      | cons b0 b =>
        have := ih a b
        simp only [andBytes, List.zipWith_cons_cons, List.cons.injEq] at this ⊢
        exact ⟨Nat.land_assoc _ _ _, this⟩

theorem andBytes_bound : ∀ x m : List Nat, (∀ b ∈ m, b < 256) → ∀ b ∈ andBytes x m, b < 256 := by
  intro x
  induction x with
  | nil => intro m _ b hb; simp [andBytes] at hb
  | cons x0 x ih =>
    intro m hm b hb
    cases m with
    | nil => simp [andBytes] at hb
    | cons m0 m =>
      simp only [andBytes, List.zipWith_cons_cons, List.mem_cons] at hb
      rcases hb with h | h
      · have h1 : x0 &&& m0 ≤ m0 := Nat.and_le_right
        have h2 := hm m0 (List.mem_cons_self _ _)
        omega
      · exact ih m (fun b hb => hm b (List.mem_cons_of_mem _ hb)) b h

theorem sinkLeft_sorted {α : Type} (key : α → Nat) (x : α) (l : List α)
    (h : l.Pairwise (fun a b => key a ≤ key b)) :
    (sinkLeft (fun a b => decide (key b < key a)) x l).Pairwise (fun a b => key a ≤ key b) := by
  induction l with
  | nil => simp [sinkLeft]
  | cons y rest ih =>
    rw [List.pairwise_cons] at h
    simp only [sinkLeft]
    split
    · rename_i hlt
      simp only [decide_eq_true_eq] at hlt
      rw [List.pairwise_cons]
      refine ⟨?_, ih h.2⟩
      intro z hz
      rcases List.mem_cons.mp ((sinkLeft_perm _ x rest).mem_iff.mp hz) with hzx | hzr
      · rw [hzx]; omega
      · exact h.1 z hzr
    · rename_i hge
      simp only [decide_eq_true_eq, not_lt] at hge
      rw [List.pairwise_cons, List.pairwise_cons]
      refine ⟨?_, h.1, h.2⟩
      intro z hz
      rcases List.mem_cons.mp hz with hzy | hzr
      · rw [hzy]; exact hge
      · have := h.1 z hzr
        omega

theorem sortSlice_sorted {α : Type} (key : α → Nat) (data : List α) :
    (sortSlice (fun a b => decide (key b < key a)) data).Pairwise
      (fun a b => key b ≤ key a) := by
  unfold sortSlice
  rw [List.pairwise_reverse]
  have h : ∀ (l acc : List α), acc.Pairwise (fun a b => key a ≤ key b) →
      (l.foldl (fun sortedRev x => sinkLeft (fun a b => decide (key b < key a)) x sortedRev)
        acc).Pairwise (fun a b => key a ≤ key b) := by
    intro l
    induction l with
    | nil => intro acc hacc; exact hacc
    | cons x l ih =>
      intro acc hacc
      rw [List.foldl_cons]
      exact ih _ (sinkLeft_sorted key x acc hacc)
  exact h data [] List.Pairwise.nil

theorem BucketsSorted_NewCSVDatabase (records : List (List String)) (db : CSVDatabase)
    (h : NewCSVDatabase records = .ok db) : BucketsSorted db := by
  unfold NewCSVDatabase at h
  split at h
  · exact absurd h (by simp)
  · rename_i db2 hload
    simp only [Except.ok.injEq] at h
    subst h
    unfold loadEntries at hload
    simp only at hload
    split_ifs at hload
    simp only [Except.ok.injEq] at hload
    rw [← hload]
    intro kv hkv
    simp only [GoMap.mapValues, List.mem_map] at hkv
    obtain ⟨kv0, _, rfl⟩ := hkv
    exact sortSlice_sorted cidrEntry.prefixLen kv0.2

/-- Where findInCIDR stops: at the first prefix length of its list whose bucket holds an entry
containing the address, with the first such entry of that bucket. -/
theorem findInCIDR_first (db : CSVDatabase) (ip ipBytes : IP) :
    ∀ ls loc, findInCIDR db ip ipBytes ls = .ok loc →
      ∃ pre L post bucket e0, ls = pre ++ L :: post ∧
        db.cidrByNet.get (IP.String (andBytes ipBytes (CIDRMask L (ipBytes.length * 8))))
          = some bucket ∧
        bucket.find? (fun entry => entry.network.Contains ip) = some e0 ∧
        loc = e0.location ∧
        ∀ L2 ∈ pre, ∀ b2, CIDRMask L2 (ipBytes.length * 8) ≠ [] →
          db.cidrByNet.get (IP.String (andBytes ipBytes (CIDRMask L2 (ipBytes.length * 8))))
            = some b2 →
          ∀ e2 ∈ b2, e2.network.Contains ip = false := by
  intro ls
  induction ls with
  | nil => intro loc h; simp [findInCIDR] at h
  | cons x rest ih =>
    intro loc h
    unfold findInCIDR at h
    simp only at h
    by_cases hm : CIDRMask x (ipBytes.length * 8) = []
    · rw [if_pos hm] at h
      obtain ⟨pre, L, post, bucket, e0, hls, hget, hf, hloc, hpre⟩ := ih loc h
      refine ⟨x :: pre, L, post, bucket, e0, by rw [hls]; rfl, hget, hf, hloc, ?_⟩
      intro L2 hL2 b2 hm2 hg2 e2 he2
      rcases List.mem_cons.mp hL2 with h1 | h1
      · rw [h1] at hm2; exact absurd hm hm2
      · exact hpre L2 h1 b2 hm2 hg2 e2 he2
    · rw [if_neg hm] at h
      cases hg : db.cidrByNet.get
          (IP.String (andBytes ipBytes (CIDRMask x (ipBytes.length * 8)))) with
      | none =>
        rw [hg] at h
        simp only at h
        obtain ⟨pre, L, post, bucket, e0, hls, hget, hf, hloc, hpre⟩ := ih loc h
        refine ⟨x :: pre, L, post, bucket, e0, by rw [hls]; rfl, hget, hf, hloc, ?_⟩
        intro L2 hL2 b2 hm2 hg2 e2 he2
        rcases List.mem_cons.mp hL2 with h1 | h1
        · rw [h1, hg] at hg2; exact absurd hg2 (by simp)
        · exact hpre L2 h1 b2 hm2 hg2 e2 he2
      | some entries =>
        rw [hg] at h
        simp only at h
        cases hfind : entries.find? (fun entry => entry.network.Contains ip) with
        | none =>
          rw [hfind] at h
          simp only at h
          obtain ⟨pre, L, post, bucket, e0, hls, hget, hf, hloc, hpre⟩ := ih loc h
          refine ⟨x :: pre, L, post, bucket, e0, by rw [hls]; rfl, hget, hf, hloc, ?_⟩
          intro L2 hL2 b2 hm2 hg2 e2 he2
          rcases List.mem_cons.mp hL2 with h1 | h1
          · rw [h1, hg] at hg2
            simp only [Option.some.injEq] at hg2
            rw [List.find?_eq_none] at hfind
            have := hfind e2 (hg2 ▸ he2)
            simpa using this
          · exact hpre L2 h1 b2 hm2 hg2 e2 he2
        | some e0 =>
          rw [hfind] at h
          simp only [Except.ok.injEq] at h
          exact ⟨[], x, rest, entries, e0, rfl, hg, hfind, h.symm, by simp⟩

/-- An IPv4 network that contains an address: the address has a 4-byte form, and masking that
form with the mask of the network gives its network number. -/
theorem contains_v4 (n : IPNet) (ip : IP) (hwf : n.wellFormed) (h4 : n.IP.length = 4)
    (hc : n.Contains ip = true) :
    ip.To4 ≠ [] ∧ ip.To4.length = 4 ∧
      ∃ p, p ≤ 32 ∧ n.Mask = CIDRMask p 32 ∧ andBytes ip.To4 (CIDRMask p 32) = n.IP := by
  obtain ⟨p, ⟨hp, hmask, hiplen, hfix⟩ | ⟨hp, hmask, hiplen, hfix⟩⟩ := hwf
  · have hml : n.Mask.length = 4 := by rw [hmask]; exact CIDRMask_length32 p hp
    unfold IPNet.Contains at hc
    simp only at hc
    rw [networkNumberAndMask_v4 n hiplen hml] at hc
    rcases To4_cases ip with ⟨hl4, h⟩ | ⟨hl4, h⟩ | ⟨_, _, hl4⟩
    · have hne : ip.To4 ≠ [] := by
        rw [h]; intro h0; rw [h0] at hl4; simp at hl4
      rw [if_pos hne, h] at hc
      simp only [hl4, hiplen, ne_eq, not_true_eq_false, if_false] at hc
      have := sameUnderMask_eq _ _ _ (by rw [hiplen, hl4]) (by rw [hml, hl4]) hc
      rw [h]
      exact ⟨by rw [← h]; exact hne, hl4, p, hp, hmask, by rw [← hmask, ← this, hfix]⟩
    · rw [if_neg (not_not.mpr h)] at hc
      simp [hiplen, hl4] at hc
    · have hne : ip.To4 ≠ [] := by
        intro h0; rw [h0] at hl4; simp at hl4
      rw [if_pos hne] at hc
      simp only [hl4, hiplen, ne_eq, not_true_eq_false, if_false] at hc
      have := sameUnderMask_eq _ _ _ (by rw [hiplen, hl4]) (by rw [hml, hl4]) hc
      exact ⟨hne, hl4, p, hp, hmask, by rw [← hmask, ← this, hfix]⟩
  · omega

theorem prefixLen_v4 (e : cidrEntry) (p : Nat) (hp : p ≤ 32) (hm : e.network.Mask = CIDRMask p 32) :
    e.prefixLen = p := by
  unfold cidrEntry.prefixLen
  rw [hm, CIDRMask_Size32 p hp]

theorem masked_length32 (x : IP) (hx : x.length = 4) (p : Nat) (hp : p ≤ 32) :
    (andBytes x (CIDRMask p 32)).length = 4 ∧ ∀ b ∈ andBytes x (CIDRMask p 32), b < 256 := by
  refine ⟨?_, andBytes_bound x _ (CIDRMask_bytes32 p hp)⟩
  rw [andBytes_length, hx, CIDRMask_length32 p hp]
  rfl

/-- Masking to a shorter prefix after a longer one is masking to the shorter one. -/
theorem masked_twice32 (x : IP) (a b : Nat) (ha : a ≤ 32) (hb : b ≤ 32) :
    andBytes (andBytes x (CIDRMask a 32)) (CIDRMask b 32) = andBytes x (CIDRMask (min a b) 32) := by
  rw [andBytes_assoc, CIDRMask_and32 a ha b hb]

/-- Longest-prefix match on stores of IPv4 ranges. For a store built by NewCSVDatabase whose
registered CIDR entries all have a 4-byte network number (no IPv6 row, IPv4-mapped or not),
and an address that is no exact key and lies in some registered range: FindLocation returns the
location of a registered entry that contains the address and whose prefix length is the
greatest among the registered entries containing it. -/
theorem longest_prefix_match_ipv4 (records : List (List String)) (db : CSVDatabase) (ip : IP)
    (hdb : NewCSVDatabase records = .ok db)
    (hv4 : ∀ e ∈ db.entries, e.network.IP.length = 4)
    (hex : db.exactIPs.get ip.String = none)
    (hsome : ∃ e ∈ db.entries, e.network.Contains ip = true) :
    LongestPrefixMatch db ip := by
  have hinv := StoreInv_NewCSVDatabase records db hdb
  have hsorted := BucketsSorted_NewCSVDatabase records db hdb
  obtain ⟨e1, he1, hc1⟩ := hsome
  obtain ⟨bucket1, hget1, hmem1, hwf1⟩ := get_of_entries db hinv e1 he1
  obtain ⟨hto, hl4, p1, hp1, hm1, hk1⟩ := contains_v4 e1.network ip hwf1 (hv4 e1 he1) hc1
  have hne : ip ≠ [] := by
    intro h0; rw [h0] at hto; exact hto rfl
  have hbits : ip.To4.length * 8 = 32 := by rw [hl4]
  have hfind : FindLocation db ip =
      findInCIDR db ip ip.To4 ((List.range 33).map (fun i => 32 - i)) := by
    unfold FindLocation
    rw [if_neg hne]
    simp only [hex]
    rw [if_pos hto]
  have hmaskne : ∀ L, L ≤ 32 → CIDRMask L (ip.To4.length * 8) ≠ [] := by
    intro L hL h0
    rw [hbits] at h0
    have := CIDRMask_length32 L hL
    rw [h0] at this; simp at this
  have hlevels : ∀ p, p ≤ 32 → p ∈ (List.range 33).map (fun i => 32 - i) :=
    fun p hp => mem_levels 32 p hp
  have hok : ∃ loc, findInCIDR db ip ip.To4 ((List.range 33).map (fun i => 32 - i)) = .ok loc :=
    findInCIDR_found db ip ip.To4 p1 bucket1 e1 (hmaskne p1 hp1)
      (by rw [hbits, hk1]; exact hget1) hmem1 hc1 _ (hlevels p1 hp1)
  obtain ⟨loc, hloc⟩ := hok
  obtain ⟨pre, L, post, bucket, e0, hls, hget, hf, hloc0, hpre⟩ :=
    findInCIDR_first db ip ip.To4 _ loc hloc
  rw [hbits] at hget
  have he0b : e0 ∈ bucket := List.mem_of_find?_eq_some hf
  have hc0 : e0.network.Contains ip = true := by
    have h := List.find?_some hf
    exact h
  have he0 : e0 ∈ db.entries := entries_of_get db _ bucket hget e0 he0b
  refine ⟨e0, he0, by rw [hfind, hloc, hloc0], hc0, ?_⟩
  intro e2 he2 hc2
  obtain ⟨bucket2, hget2, hmem2, hwf2⟩ := get_of_entries db hinv e2 he2
  obtain ⟨_, _, p2, hp2, hm2, hk2⟩ := contains_v4 e2.network ip hwf2 (hv4 e2 he2) hc2
  obtain ⟨_, _, _, hwf0⟩ := get_of_entries db hinv e0 he0
  obtain ⟨_, _, p0, hp0, hm0, hk0⟩ := contains_v4 e0.network ip hwf0 (hv4 e0 he0) hc0
  rw [prefixLen_v4 e2 p2 hp2 hm2, prefixLen_v4 e0 p0 hp0 hm0]
  by_contra hlt
  have hlt : p0 < p2 := by omega
  -- the level at which the search stopped
  have hLmem : L ∈ (List.range 33).map (fun i => 32 - i) := by
    rw [hls]; simp
  have hL : L ≤ 32 := by
    rw [List.mem_map] at hLmem
    obtain ⟨i, _, hi⟩ := hLmem
    omega
  -- the entry found sits in the bucket named by its own network number
  have hkey0 : e0.network.IP.String
      = IP.String (andBytes ip.To4 (CIDRMask L 32)) :=
    (hinv.2 _ (GoMap.lookup_mem _ _ _ hget) e0 he0b).1
  have hsame : andBytes ip.To4 (CIDRMask p0 32) = andBytes ip.To4 (CIDRMask L 32) := by
    obtain ⟨l1, b1⟩ := masked_length32 ip.To4 hl4 p0 hp0
    obtain ⟨l2, b2⟩ := masked_length32 ip.To4 hl4 L hL
    apply String_inj4 _ _ l1 l2 b1 b2
    rw [hk0]; exact hkey0
  -- the other entry is met no later than the level of its own prefix length
  have hp2L : p2 ≤ L := by
    have hmem := hlevels p2 hp2
    rw [hls] at hmem
    rcases List.mem_append.mp hmem with h | h
    · have := hpre p2 h bucket2 (hmaskne p2 hp2) (by rw [hbits, hk2]; exact hget2) e2 hmem2
      rw [hc2] at this
      exact absurd this (by decide)
    · rcases List.mem_cons.mp h with h | h
      · omega
      · have hdesc := levels32_descending
        rw [hls, List.pairwise_append, List.pairwise_cons] at hdesc
        have := hdesc.2.1.1 p2 h
        omega
  -- hence both entries have the same network number and share the bucket
  have hIP : andBytes ip.To4 (CIDRMask p2 32) = andBytes ip.To4 (CIDRMask p0 32) := by
    have h1 := masked_twice32 ip.To4 L p2 hL hp2
    have h2 := masked_twice32 ip.To4 p0 p2 hp0 hp2
    rw [Nat.min_eq_right hp2L] at h1
    rw [Nat.min_eq_left (Nat.le_of_lt hlt)] at h2
    rw [← h1, ← hsame, h2]
  have hb2 : bucket2 = bucket := by
    have : db.cidrByNet.get e2.network.IP.String = some bucket := by
      rw [← hk2, hIP, hsame]; exact hget
    rw [this] at hget2
    exact (Option.some.inj hget2).symm
  rw [hb2] at hmem2
  -- in a bucket sorted longest first the first containing entry has the longest prefix
  obtain ⟨_, front, back, hsplit, hfront⟩ := List.find?_eq_some.mp hf
  have hsb := hsorted _ (GoMap.lookup_mem _ _ _ hget)
  simp only at hsb
  rw [hsplit, List.pairwise_append, List.pairwise_cons] at hsb
  rw [hsplit] at hmem2
  rcases List.mem_append.mp hmem2 with h | h
  · have := hfront e2 h
    rw [hc2] at this
    exact absurd this (by decide)
  · rcases List.mem_cons.mp h with h | h
    · have h2 := prefixLen_v4 e2 p2 hp2 hm2
      have h0 := prefixLen_v4 e0 p0 hp0 hm0
      rw [h] at h2
      omega
    · have := hsb.2.1.1 e2 h
      rw [prefixLen_v4 e2 p2 hp2 hm2, prefixLen_v4 e0 p0 hp0 hm0] at this
      omega

/-- The example of claim C1 as an instance of the theorem: rows 10.0.0.0/8 and 10.1.0.0/16,
address 10.1.2.3. -/
theorem longest_prefix_match_ipv4_witness :
    LongestPrefixMatch (storeOf [["10.0.0.0/8", "A", "L1"], ["10.1.0.0/16", "B", "L2"]])
      (ParseIP "10.1.2.3") :=
  longest_prefix_match_ipv4 [["10.0.0.0/8", "A", "L1"], ["10.1.0.0/16", "B", "L2"]]
    (storeOf [["10.0.0.0/8", "A", "L1"], ["10.1.0.0/16", "B", "L2"]]) (ParseIP "10.1.2.3")
    (by decide) (by decide) (by decide) (by decide)

/-! ### Bounded state, window invariant and the sweep -/

theorem pruned_length_le (rl : RateLimiter) (k : String) (now : Int) :
    (rl.pruned k now).length ≤ (rl.stored k).length :=
  List.length_filter_le _ _

theorem BoundedState_Allow (rl : RateLimiter) (h : BoundedState rl) (k0 : String) (now : Int) :
    BoundedState (rl.Allow k0 now).2 := by
  intro k
  rw [Allow_stored, Allow_rate]
  have hk := h k
  by_cases hkk : k = k0
  · subst hkk
    rw [if_pos rfl]
    have hp := pruned_length_le rl k now
    by_cases hr : rl.ratePerSec ≤ ((rl.pruned k now).length : Int)
    · rw [if_pos hr]; omega
    · rw [if_neg hr]
      simp only [List.length_append, List.length_singleton]
      omega
  · rw [if_neg hkk]; exact hk

theorem BoundedState_cleanup (rl : RateLimiter) (h : BoundedState rl) (hR : 0 ≤ rl.ratePerSec)
    (now : Int) : BoundedState (rl.cleanup now) := by
  intro k
  have hr : (rl.cleanup now).ratePerSec = rl.ratePerSec := rfl
  rw [hr]
  rcases cleanup_stored rl now k with h1 | ⟨h1, _⟩
  · rw [h1]; exact h k
  · rw [h1]; simpa using hR

theorem runEvents_rate (es : List Event) :
    ∀ rl : RateLimiter, (runEvents rl es).ratePerSec = rl.ratePerSec := by
  induction es with
  | nil => intro rl; rfl
  | cons e rest ih =>
    intro rl
    cases e with
    | allow key now => simp only [runEvents]; rw [ih, Allow_rate]
    | sweep now => simp only [runEvents]; rw [ih]; rfl

theorem BoundedState_runEvents (es : List Event) :
    ∀ rl : RateLimiter, 0 ≤ rl.ratePerSec → BoundedState rl → BoundedState (runEvents rl es) := by
  induction es with
  | nil => intro rl _ h; exact h
  | cons e rest ih =>
    intro rl hR h
    cases e with
    | allow key now =>
      simp only [runEvents]
      exact ih _ (by rw [Allow_rate]; exact hR) (BoundedState_Allow rl h key now)
    | sweep now =>
      simp only [runEvents]
      exact ih _ hR (BoundedState_cleanup rl h hR now)

/-- C20 (bounded per-key state). For a rate `R ≥ 0`: in the state NewRateLimiter creates no
key stores more than `R` timestamps; every Allow call (any key, any clock reading, admitted or
rejected) and every sweep keeps it so; hence it holds in every state reached from the
initial one by Allow calls and sweeps. -/
theorem C20_bounded_per_key_state (R : Int) (hR : 0 ≤ R) :
    BoundedState (NewRateLimiter R) ∧
    (∀ rl : RateLimiter, rl.ratePerSec = R → BoundedState rl →
      ∀ k now, BoundedState (rl.Allow k now).2) ∧
    (∀ rl : RateLimiter, rl.ratePerSec = R → BoundedState rl →
      ∀ now, BoundedState (rl.cleanup now)) ∧
    (∀ es, BoundedState (runEvents (NewRateLimiter R) es)) := by
  have h0 : BoundedState (NewRateLimiter R) := by
    intro k
    have : (NewRateLimiter R).stored k = [] := rfl
    rw [this]
    simpa using hR
  refine ⟨h0, ?_, ?_, ?_⟩
  · intro rl _ h k now
    exact BoundedState_Allow rl h k now
  · intro rl hrl h now
    exact BoundedState_cleanup rl h (by rw [hrl]; exact hR) now
  · intro es
    exact BoundedState_runEvents es _ hR h0

/-- Witness for C20: with rate 2, after three calls for "k" at the same instant and a sweep,
"k" stores two timestamps. -/
theorem C20_bounded_per_key_state_witness :
    (runEvents (NewRateLimiter 2)
      [.allow "k" 0, .allow "k" 0, .allow "k" 0, .sweep 1]).stored "k" = [0, 0] ∧
    BoundedState (runEvents (NewRateLimiter 2)
      [.allow "k" 0, .allow "k" 0, .allow "k" 0, .sweep 1]) :=
  ⟨by decide, (C20_bounded_per_key_state 2 (by decide)).2.2.2 _⟩

/-- C18 (window invariant at evaluation). If no stored timestamp of the key is later than
`now` and the window is positive (NewRateLimiter sets one second), then after Allow on the key
at `now`, admitted or rejected, every timestamp stored for the key is strictly after
`now - windowSize` and at most `now`. -/
theorem C18_window_invariant (rl : RateLimiter) (k : String) (now : Int)
    (hw : 0 < rl.windowSize) (h : ∀ x ∈ rl.stored k, x ≤ now) :
    ∀ x ∈ (rl.Allow k now).2.stored k, now - rl.windowSize < x ∧ x ≤ now := by
  intro x hx
  rw [Allow_stored, if_pos rfl] at hx
  have hP : ∀ y ∈ rl.pruned k now, now - rl.windowSize < y ∧ y ≤ now := by
    intro y hy
    unfold RateLimiter.pruned at hy
    rw [List.mem_filter] at hy
    exact ⟨by simpa using hy.2, h y hy.1⟩
  split_ifs at hx
  · exact hP x hx
  · rcases List.mem_append.mp hx with h1 | h1
    · exact hP x h1
    · rw [List.mem_singleton] at h1
      subst h1
      exact ⟨by omega, le_refl _⟩

/-- Witness for C18: rate 5, timestamps 0 s, 0.2 s and 0.9 s stored, a call at 1.1 s leaves
0.2 s, 0.9 s and 1.1 s, all within the last second. -/
theorem C18_window_invariant_witness :
    (((allowMany (NewRateLimiter 5) "k" [0, 200000000, 900000000]).Allow "k" 1100000000).2.stored
      "k" = [200000000, 900000000, 1100000000]) ∧
    ∀ x ∈ ((allowMany (NewRateLimiter 5) "k" [0, 200000000, 900000000]).Allow "k"
        1100000000).2.stored "k",
      1100000000 - (allowMany (NewRateLimiter 5) "k" [0, 200000000, 900000000]).windowSize < x ∧
        x ≤ 1100000000 :=
  ⟨by decide,
   C18_window_invariant (allowMany (NewRateLimiter 5) "k" [0, 200000000, 900000000]) "k"
    1100000000 (by decide) (by decide)⟩

theorem pruned_cleanup (rl : RateLimiter) (k : String) (s t : Int)
    (hw : rl.windowSize ≤ 5 * Minute) (hst : s ≤ t) :
    (rl.cleanup s).pruned k t = rl.pruned k t := by
  have hws : (rl.cleanup s).windowSize = rl.windowSize := rfl
  unfold RateLimiter.pruned
  rw [hws]
  rcases cleanup_stored rl s k with h | ⟨h, hstale⟩
  · rw [h]
  · rw [h, List.filter_nil]
    symm
    rw [List.filter_eq_nil_iff]
    intro x hx
    have := hstale x hx
    simp only [decide_eq_true_eq, not_lt]
    omega

/-- C14 (the sweep does not affect admission). With a window of at most the five minutes of
the sweep (NewRateLimiter sets one second): running the sweep at `s` and then Allow on `k` at
`t ≥ s` gives the same decision and leaves the same timestamps stored for `k` as Allow on `k`
at `t` without the sweep. -/
theorem C14_sweep_keeps_admission (rl : RateLimiter) (k : String) (s t : Int)
    (hw : rl.windowSize ≤ 5 * Minute) (hst : s ≤ t) :
    ((rl.cleanup s).Allow k t).1 = (rl.Allow k t).1 ∧
    ((rl.cleanup s).Allow k t).2.requests k = (rl.Allow k t).2.requests k := by
  have hp := pruned_cleanup rl k s t hw hst
  have hr : (rl.cleanup s).ratePerSec = rl.ratePerSec := rfl
  constructor
  · rw [Allow_decision, Allow_decision, hp, hr]
  · by_cases hc : rl.ratePerSec ≤ ((rl.pruned k t).length : Int)
    · rw [Allow_stored_rejected rl k t hc,
        Allow_stored_rejected (rl.cleanup s) k t (by rw [hp, hr]; exact hc), hp]
    · rw [Allow_stored_admitted rl k t hc,
        Allow_stored_admitted (rl.cleanup s) k t (by rw [hp, hr]; exact hc), hp]

/-- Witness for C14: rate 1, one call at 0 s; a sweep at 400 s deletes the key, and the call
at 400 s is admitted with or without it and leaves the same single timestamp. -/
theorem C14_sweep_keeps_admission_witness :
    (((NewRateLimiter 1).Allow "k" 0).2.cleanup 400000000000).requests "k" = none ∧
    ((((NewRateLimiter 1).Allow "k" 0).2.cleanup 400000000000).Allow "k" 400000000000).1
      = (((NewRateLimiter 1).Allow "k" 0).2.Allow "k" 400000000000).1 ∧
    ((((NewRateLimiter 1).Allow "k" 0).2.cleanup 400000000000).Allow "k"
        400000000000).2.requests "k"
      = (((NewRateLimiter 1).Allow "k" 0).2.Allow "k" 400000000000).2.requests "k" :=
  ⟨by decide,
   C14_sweep_keeps_admission ((NewRateLimiter 1).Allow "k" 0).2 "k" 400000000000 400000000000
    (by decide) (by decide)⟩

/-- Counterexample to C15 as stated: a limiter from NewRateLimiter admits "k" at 0 s; at the
sweep at 10 s the key has no timestamp newer than `10 s - 5 x windowSize = 5 s`, yet its entry
is kept. -/
theorem C15_five_windows_counterexample :
    ((NewRateLimiter 1).Allow "k" 0).2.windowSize = Second ∧
    (((NewRateLimiter 1).Allow "k" 0).2.cleanup 10000000000).requests "k" = some [0] ∧
    ¬ DeletesAtHorizon (5 * ((NewRateLimiter 1).Allow "k" 0).2.windowSize)
        ((NewRateLimiter 1).Allow "k" 0).2 10000000000 "k" := by
  refine ⟨by decide, by decide, ?_⟩
  unfold DeletesAtHorizon
  decide

/-- C15 as amended (retention horizon). For a limiter with the one-second window that
NewRateLimiter sets, the sweep at `now` deletes the entry of a key exactly when the key has no
timestamp newer than `now - 5 minutes`, which is `now - 300 x windowSize`. -/
theorem C15_retention_horizon (rl : RateLimiter) (now : Int) (k : String)
    (hw : rl.windowSize = Second) :
    DeletesAtHorizon (5 * Minute) rl now k ∧ DeletesAtHorizon (300 * rl.windowSize) rl now k := by
  have h5 : DeletesAtHorizon (5 * Minute) rl now k := by
    unfold DeletesAtHorizon
    constructor
    · intro hnone x hx hlt
      rcases cleanup_stored rl now k with h | ⟨_, hstale⟩
      · have hx2 := hx
        unfold RateLimiter.stored at hx2
        rw [cleanup_requests] at hnone
        cases hr : rl.requests k with
        | none => rw [hr] at hx2; simp at hx2
        | some ts =>
          rw [hr] at hnone hx2
          simp only at hnone hx2
          split_ifs at hnone with hany
          simp only [Bool.not_eq_true', List.any_eq_false, After_iff] at hany
          exact hany x hx2 (by omega)
      · have := hstale x hx
        omega
    · intro hall
      rw [cleanup_requests]
      cases hr : rl.requests k with
      | none => rfl
      | some ts =>
        simp only
        rw [if_pos]
        simp only [Bool.not_eq_true', List.any_eq_false, After_iff]
        intro x hx hlt
        have hx2 : x ∈ rl.stored k := by
          unfold RateLimiter.stored; rw [hr]; exact hx
        exact hall x hx2 (by omega)
  refine ⟨h5, ?_⟩
  have : 300 * rl.windowSize = 5 * Minute := by
    rw [hw]; decide
  rw [this]; exact h5

/-- Witness for C15 as amended: the entry admitted at 0 s survives the sweep at 10 s and is
deleted by the sweep at 301 s. -/
theorem C15_retention_horizon_witness :
    (((NewRateLimiter 1).Allow "k" 0).2.cleanup 10000000000).requests "k" = some [0] ∧
    (((NewRateLimiter 1).Allow "k" 0).2.cleanup 301000000000).requests "k" = none ∧
    DeletesAtHorizon (300 * ((NewRateLimiter 1).Allow "k" 0).2.windowSize)
      ((NewRateLimiter 1).Allow "k" 0).2 301000000000 "k" :=
  ⟨by decide, by decide,
   (C15_retention_horizon ((NewRateLimiter 1).Allow "k" 0).2 301000000000 "k" (by decide)).2⟩

/-! ### Skipped rows, duplicate exact rows, bucket contents -/

theorem GoMap.lookup_store_same {V : Type} (l : List (String × V)) (key : String) (val : V) :
    GoMap.lookup (GoMap.store l key val) key = some val := by
  induction l with
  | nil => simp [GoMap.store, GoMap.lookup]
  | cons kv rest ih =>
    obtain ⟨k, v⟩ := kv
    simp only [GoMap.store]
    by_cases hk : k = key
    · rw [if_pos hk]; simp [GoMap.lookup]
    · rw [if_neg hk]; simp only [GoMap.lookup]; rw [if_neg hk]; exact ih

theorem GoMap.lookup_store_ne {V : Type} (l : List (String × V)) (key key2 : String) (val : V)
    (h : key2 ≠ key) : GoMap.lookup (GoMap.store l key val) key2 = GoMap.lookup l key2 := by
  induction l with
  | nil =>
    simp only [GoMap.store, GoMap.lookup]
    rw [if_neg (Ne.symm h)]
  | cons kv rest ih =>
    obtain ⟨k, v⟩ := kv
    simp only [GoMap.store]
    by_cases hk : k = key
    · rw [if_pos hk]
      simp only [GoMap.lookup]
      rw [if_neg (Ne.symm h), if_neg (by rw [hk]; exact Ne.symm h)]
    · rw [if_neg hk]
      simp only [GoMap.lookup]
      split
      · rfl
      · exact ih

theorem GoMap.get_set_same {V : Type} (m : GoMap V) (key : String) (val : V) :
    (m.set key val).get key = some val :=
  GoMap.lookup_store_same _ _ _

theorem GoMap.get_set_ne {V : Type} (m : GoMap V) (key key2 : String) (val : V)
    (h : key2 ≠ key) : (m.set key val).get key2 = m.get key2 :=
  GoMap.lookup_store_ne _ _ _ _ h

theorem GoMap.get_mapValues {V : Type} (f : V → V) (m : GoMap V) (key : String) :
    (m.mapValues f).get key = (m.get key).map f := by
  unfold GoMap.get GoMap.mapValues
  simp only
  induction m.entries with
  | nil => rfl
  | cons kv rest ih =>
    obtain ⟨k, v⟩ := kv
    simp only [List.map_cons, GoMap.lookup]
    split
    · rfl
    · exact ih

theorem loadRecord_skipped (db : CSVDatabase) (r : List String) (h : skippedRow r = true) :
    loadRecord db r = db := by
  rw [loadRecord_eq]
  unfold skippedRow at h
  generalize TrimSpace (r.getD 0 "") = s at h ⊢
  by_cases h3 : r.length < 3
  · rw [if_pos h3]
  · rw [if_neg h3]
    simp only [h3, decide_False, Bool.false_or, Bool.and_eq_true, Option.isNone_iff_eq_none,
      decide_eq_true_eq] at h
    rw [h.1]
    simp only
    rw [if_pos h.2]

theorem foldl_loadRecord_filter (records : List (List String)) :
    ∀ db : CSVDatabase, (records.filter (fun r => !skippedRow r)).foldl loadRecord db
      = records.foldl loadRecord db := by
  induction records with
  | nil => intro db; rfl
  | cons r rest ih =>
    intro db
    by_cases h : skippedRow r = true
    · rw [List.filter_cons_of_neg (by simp [h]), List.foldl_cons, loadRecord_skipped db r h]
      exact ih db
    · rw [List.filter_cons_of_pos (by simpa using h), List.foldl_cons, List.foldl_cons]
      exact ih _

theorem loadEntries_congr (db : CSVDatabase) (l1 l2 : List (List String))
    (h : l1.foldl loadRecord db = l2.foldl loadRecord db) :
    loadEntries db l1 = loadEntries db l2 := by
  unfold loadEntries
  simp only [h]

/-- The loop of loadEntries skips bad rows. On the records ReadAll returned, loadEntries, from
any tables, and NewCSVDatabase give the same outcome (the same error, or the same exact map and
CIDR buckets) on a list of records as on the list without its skipped rows (fewer than three
fields, or a trimmed first field that parses neither as a CIDR prefix nor as an address); and a
skipped row put anywhere into the list leaves the outcome as it is. -/
theorem bad_rows_skipped_after_read (db : CSVDatabase) (records : List (List String)) :
    loadEntries db records = loadEntries db (records.filter (fun r => !skippedRow r)) ∧
    NewCSVDatabase records = NewCSVDatabase (records.filter (fun r => !skippedRow r)) ∧
    (∀ front back r, skippedRow r = true →
      loadEntries db (front ++ r :: back) = loadEntries db (front ++ back) ∧
      NewCSVDatabase (front ++ r :: back) = NewCSVDatabase (front ++ back)) := by
  have hsame : ∀ d : CSVDatabase,
      loadEntries d records = loadEntries d (records.filter (fun r => !skippedRow r)) :=
    fun d => loadEntries_congr d _ _ (foldl_loadRecord_filter records d).symm
  have hins : ∀ (d : CSVDatabase) front back r, skippedRow r = true →
      loadEntries d (front ++ r :: back) = loadEntries d (front ++ back) := by
    intro d front back r hr
    apply loadEntries_congr
    rw [List.foldl_append, List.foldl_append, List.foldl_cons, loadRecord_skipped _ r hr]
  refine ⟨hsame db, ?_, ?_⟩
  · unfold NewCSVDatabase
    rw [hsame]
  · intro front back r hr
    refine ⟨hins db front back r hr, ?_⟩
    unfold NewCSVDatabase
    rw [hins _ front back r hr]

theorem loadRecord_exact_get (db : CSVDatabase) (r : List String) (K : String) :
    (loadRecord db r).exactIPs.get K =
      if registersExact r = true ∧ rowKey r = K then some (rowLocation r)
      else db.exactIPs.get K := by
  rw [loadRecord_eq]
  unfold registersExact rowKey rowIP rowLocation
  generalize TrimSpace (r.getD 0 "") = s
  by_cases h3 : r.length < 3
  · have : ¬ 3 ≤ r.length := by omega
    simp [h3, this]
  · have h3b : 3 ≤ r.length := by omega
    rw [if_neg h3]
    cases hc : ParseCIDR s with
    | some p => simp
    | none =>
      simp only
      by_cases hip : ParseIP s = []
      · rw [if_pos hip]
        simp [hip]
      · rw [if_neg hip]
        simp only [h3b, decide_True, Option.isNone_none, Bool.and_self, ne_eq, hip,
          not_false_eq_true, Bool.true_and, true_and]
        by_cases hk : IP.String (ParseIP s) = K
        · rw [if_pos hk, ← hk]
          exact GoMap.get_set_same _ _ _
        · rw [if_neg hk]
          exact GoMap.get_set_ne _ _ _ _ (Ne.symm hk)

theorem foldl_exact_get_keep (post : List (List String)) (K : String)
    (h : ∀ r2 ∈ post, registersExact r2 = true → rowKey r2 ≠ K) :
    ∀ db : CSVDatabase, (post.foldl loadRecord db).exactIPs.get K = db.exactIPs.get K := by
  induction post with
  | nil => intro db; rfl
  | cons r rest ih =>
    intro db
    rw [List.foldl_cons, ih (fun r2 h2 => h r2 (List.mem_cons_of_mem _ h2)),
      loadRecord_exact_get, if_neg]
    rintro ⟨h1, h2⟩
    exact h r (List.mem_cons_self _ _) h1 h2

theorem loadEntries_ok_exact (db0 db : CSVDatabase) (records : List (List String))
    (h : loadEntries db0 records = .ok db) :
    db.exactIPs = (records.foldl loadRecord db0).exactIPs ∧
    db.cidrByNet = (records.foldl loadRecord db0).cidrByNet.mapValues (sortSlice longerMask) := by
  unfold loadEntries at h
  simp only at h
  split_ifs at h
  simp only [Except.ok.injEq] at h
  rw [← h]
  exact ⟨rfl, rfl⟩

theorem NewCSVDatabase_ok (records : List (List String)) (db : CSVDatabase)
    (h : NewCSVDatabase records = .ok db) :
    loadEntries { exactIPs := GoMap.empty, cidrByNet := GoMap.empty } records = .ok db := by
  unfold NewCSVDatabase at h
  split at h
  · exact absurd h (by simp)
  · rename_i db2 hload
    simp only [Except.ok.injEq] at h
    rw [hload, h]

/-! ### The csv reader in front of the loop

The reader NewCSVDatabase makes keeps FieldsPerRecord at 0, so ReadAll takes the number of
fields of the first record as the number all records must have. Where it accepts the rows it
returns them as they are and the load is the loop over them; where it does not, the load fails
before the loop looks at any row. -/

theorem ReadAll.loop_ok : ∀ (rows : List (List String)) (f line : Nat)
    (records : List (List String)), ReadAll.loop f line rows = .ok records → records = rows := by
  intro rows
  induction rows with
  | nil =>
    intro f line records h
    simp only [ReadAll.loop, Except.ok.injEq] at h
    exact h.symm
  | cons r rest ih =>
    intro f line records h
    unfold ReadAll.loop at h
    split_ifs at h
    · cases hl : ReadAll.loop f (line + 1) rest with
      | error e => rw [hl] at h; simp at h
      | ok rs =>
        rw [hl] at h
        simp only [Except.ok.injEq] at h
        rw [← h, ih _ _ _ hl]
    · cases hl : ReadAll.loop r.length (line + 1) rest with
      | error e => rw [hl] at h; simp at h
      | ok rs =>
        rw [hl] at h
        simp only [Except.ok.injEq] at h
        rw [← h, ih _ _ _ hl]

/-- The records ReadAll returns are the rows of the file. -/
theorem ReadAll_ok (rows records : List (List String)) (h : ReadAll rows = .ok records) :
    records = rows :=
  ReadAll.loop_ok rows 0 1 records h

theorem ReadAll.loop_equal_counts (n : Nat) : ∀ (rows : List (List String)),
    (∀ r ∈ rows, r.length = n) → ∀ f line, (f = 0 ∨ f = n) →
      ReadAll.loop f line rows = .ok rows := by
  intro rows
  induction rows with
  | nil => intro _ f line _; rfl
  | cons r rest ih =>
    intro h f line hf
    have hr : r.length = n := h r (List.mem_cons_self _ _)
    have hrest : ∀ x ∈ rest, x.length = n := fun x hx => h x (List.mem_cons_of_mem _ hx)
    unfold ReadAll.loop
    split_ifs with h0 hne
    · rcases hf with hf | hf
      · omega
      · exact absurd (hr.trans hf.symm) hne
    · rw [ih hrest f (line + 1) hf]
    · rw [ih hrest r.length (line + 1) (Or.inr hr)]

/-- ReadAll accepts rows that all have the same number of fields. -/
theorem ReadAll_equal_counts (n : Nat) (rows : List (List String))
    (h : ∀ r ∈ rows, r.length = n) : ReadAll rows = .ok rows :=
  ReadAll.loop_equal_counts n rows h 0 1 (Or.inl rfl)

theorem ReadAll.loop_error_of_count : ∀ (rows : List (List String)) (f line : Nat), 0 < f →
    (∃ r ∈ rows, r.length ≠ f) → ∃ err, ReadAll.loop f line rows = .error err := by
  intro rows
  induction rows with
  | nil => intro f line _ h; simp at h
  | cons r rest ih =>
    intro f line hf h
    unfold ReadAll.loop
    rw [if_pos hf]
    split_ifs with hne
    · exact ⟨_, rfl⟩
    · have hrest : ∃ x ∈ rest, x.length ≠ f := by
        obtain ⟨x, hx, hxl⟩ := h
        rcases List.mem_cons.mp hx with rfl | hx
        · exact absurd hxl hne
        · exact ⟨x, hx, hxl⟩
      obtain ⟨err, herr⟩ := ih f (line + 1) hf hrest
      rw [herr]
      exact ⟨err, rfl⟩

/-- ReadAll fails on a file with a row whose number of fields differs from that of the first
row. -/
theorem ReadAll_error_of_count (first : List String) (rest : List (List String))
    (r : List String) (h0 : 0 < first.length) (hr : r ∈ rest)
    (hne : r.length ≠ first.length) : ∃ err, ReadAll (first :: rest) = .error err := by
  unfold ReadAll ReadAll.loop
  rw [if_neg (by decide)]
  obtain ⟨err, herr⟩ := ReadAll.loop_error_of_count rest first.length 2 h0 ⟨r, hr, hne⟩
  rw [herr]
  exact ⟨err, rfl⟩

/-- A store that the whole load builds from a file is the store that the loop builds from the
rows of the file. -/
theorem fromFile_ok (rows : List (List String)) (db : CSVDatabase)
    (h : NewCSVDatabase.fromFile rows = .ok db) :
    ReadAll rows = .ok rows ∧ NewCSVDatabase rows = .ok db := by
  unfold NewCSVDatabase.fromFile CSVDatabase.loadEntries at h
  cases hr : ReadAll rows with
  | error e => rw [hr] at h; simp at h
  | ok records =>
    have := ReadAll_ok rows records hr
    subst this
    rw [hr] at h
    exact ⟨rfl, h⟩

/-- Where ReadAll accepts the rows, the whole load is the loop over them. -/
theorem fromFile_of_read (rows : List (List String)) (h : ReadAll rows = .ok rows) :
    NewCSVDatabase.fromFile rows = NewCSVDatabase rows := by
  unfold NewCSVDatabase.fromFile CSVDatabase.loadEntries NewCSVDatabase
  rw [h]

/-- The whole load fails on a file with a row whose number of fields differs from that of the
first row, whatever the rows hold. -/
theorem fromFile_error_of_count (first : List String) (rest : List (List String))
    (r : List String) (h0 : 0 < first.length) (hr : r ∈ rest)
    (hne : r.length ≠ first.length) :
    ∃ err, NewCSVDatabase.fromFile (first :: rest) = .error err := by
  obtain ⟨err, herr⟩ := ReadAll_error_of_count first rest r h0 hr hne
  unfold NewCSVDatabase.fromFile CSVDatabase.loadEntries
  rw [herr]
  exact ⟨_, rfl⟩

/-- Bad rows are skipped in files whose rows all have the same number of fields: the whole load
gives the same outcome on the rows as on the rows without the skipped ones. -/
theorem bad_rows_skipped_equal_counts (n : Nat) (rows : List (List String))
    (h : ∀ r ∈ rows, r.length = n) :
    NewCSVDatabase.fromFile rows =
      NewCSVDatabase.fromFile (rows.filter (fun r => !skippedRow r)) := by
  rw [fromFile_of_read rows (ReadAll_equal_counts n rows h),
    fromFile_of_read _ (ReadAll_equal_counts n _ (fun r hr => h r (List.mem_of_mem_filter hr)))]
  exact (bad_rows_skipped_after_read ⟨GoMap.empty, GoMap.empty⟩ rows).2.1

/-- The whole load of a file whose rows all have the same number of fields fails exactly when no
row registers. -/
theorem load_fails_iff_empty_equal_counts (n : Nat) (rows : List (List String))
    (h : ∀ r ∈ rows, r.length = n) :
    (∃ err, NewCSVDatabase.fromFile rows = .error err) ↔
      ∀ r ∈ rows, registersExact r = false ∧ registersCIDR r = false := by
  rw [fromFile_of_read rows (ReadAll_equal_counts n rows h)]
  exact (load_fails_iff_empty_after_read rows).2.1

/-- C8 (store construction fails iff empty), evaluated where it fails. In the file with the rows
10.0.0.1,Paris,FR and 10.0.0.2,Lyon the first row registers as an exact entry, yet
CSVDatabase.loadEntries returns the error of ReadAll, and NewCSVDatabase fails: the reader took
three fields from the first row and rejects the second. The loop over the same rows would build
the store with the entry of the first row. Where all rows have the same number of fields the
load fails as claimed, with the error for empty tables. -/
theorem C8_registering_row_yet_load_fails :
    registersExact ["10.0.0.1", "Paris", "FR"] = true ∧
    CSVDatabase.loadEntries (CSVDatabase.mk GoMap.empty GoMap.empty)
        [["10.0.0.1", "Paris", "FR"], ["10.0.0.2", "Lyon"]] =
      .error "record on line 2: wrong number of fields" ∧
    NewCSVDatabase.fromFile [["10.0.0.1", "Paris", "FR"], ["10.0.0.2", "Lyon"]] =
      .error "failed to load database entries: record on line 2: wrong number of fields" ∧
    (∃ db, loadEntries (CSVDatabase.mk GoMap.empty GoMap.empty)
        [["10.0.0.1", "Paris", "FR"], ["10.0.0.2", "Lyon"]] = .ok db ∧
      db.exactIPs.get "10.0.0.1" = some (Location.mk "FR" "Paris")) ∧
    NewCSVDatabase.fromFile [["10.0.0.1", "Paris"], ["10.0.0.2", "Lyon"]] =
      .error "failed to load database entries: no valid entries found in database file" := by
  refine ⟨by decide, by decide, by decide, ⟨_, rfl, by decide⟩, by decide⟩

/-- C12 (bad rows are skipped silently), evaluated where it fails. The row 10.0.0.2,Lyon has
fewer than three fields. The file with the single row 10.0.0.1,Paris,FR loads; with the short
row put after it the load fails in ReadAll, and with the short row put before it the load fails
as well, the reader now rejecting the good row. A row of three fields that parses as nothing is
skipped as claimed. -/
theorem C12_short_row_fails_the_load :
    skippedRow ["10.0.0.2", "Lyon"] = true ∧
    [["10.0.0.1", "Paris", "FR"], ["10.0.0.2", "Lyon"]].filter (fun r => !skippedRow r) =
      [["10.0.0.1", "Paris", "FR"]] ∧
    NewCSVDatabase.fromFile [["10.0.0.1", "Paris", "FR"]] =
      .ok (storeOf [["10.0.0.1", "Paris", "FR"]]) ∧
    NewCSVDatabase.fromFile [["10.0.0.1", "Paris", "FR"], ["10.0.0.2", "Lyon"]] =
      .error "failed to load database entries: record on line 2: wrong number of fields" ∧
    NewCSVDatabase.fromFile [["10.0.0.2", "Lyon"], ["10.0.0.1", "Paris", "FR"]] =
      .error "failed to load database entries: record on line 2: wrong number of fields" ∧
    skippedRow ["not an address", "Lyon", "FR"] = true ∧
    NewCSVDatabase.fromFile [["10.0.0.1", "Paris", "FR"], ["not an address", "Lyon", "FR"]] =
      NewCSVDatabase.fromFile [["10.0.0.1", "Paris", "FR"]] := by
  refine ⟨by decide, by decide, by decide, by decide, by decide, by decide, by decide⟩

/-- C13 (last write wins for exact entries). Let `r` be a bare-IP row of the list and let no
later bare-IP row have the same canonical key (earlier ones may). Then the store is built, its
exact map holds under that key the location of `r` (trimmed country and city), and
FindLocation of the address of `r` returns it; and where ReadAll accepts the rows as the rows
of a file, this store is the one the whole load of the file returns. -/
theorem C13_last_write_wins (front back : List (List String)) (r : List String)
    (hr : registersExact r = true)
    (hback : ∀ r2 ∈ back, registersExact r2 = true → rowKey r2 ≠ rowKey r) :
    ∃ db, NewCSVDatabase (front ++ r :: back) = .ok db ∧
      db.exactIPs.get (rowKey r) = some (rowLocation r) ∧
      FindLocation db (rowIP r) = .ok (rowLocation r) ∧
      (ReadAll (front ++ r :: back) = .ok (front ++ r :: back) →
        NewCSVDatabase.fromFile (front ++ r :: back) = .ok db) := by
  have hok : ∃ db, NewCSVDatabase (front ++ r :: back) = .ok db := by
    cases hn : NewCSVDatabase (front ++ r :: back) with
    | ok db => exact ⟨db, rfl⟩
    | error e =>
      exfalso
      unfold NewCSVDatabase at hn
      split at hn
      · rename_i err hload
        have herr := (loadEntries_error_iff _ _).mp ⟨err, hload⟩
        have := ((foldl_loadRecord_len (front ++ r :: back) _).1.mp herr.1).2 r (by simp)
        rw [hr] at this
        exact absurd this (by decide)
      · exact absurd hn (by simp)
  obtain ⟨db, hdb⟩ := hok
  have hex := (loadEntries_ok_exact _ db _ (NewCSVDatabase_ok _ db hdb)).1
  have hget : db.exactIPs.get (rowKey r) = some (rowLocation r) := by
    rw [hex, List.foldl_append, List.foldl_cons, foldl_exact_get_keep back (rowKey r) hback,
      loadRecord_exact_get, if_pos ⟨hr, rfl⟩]
  refine ⟨db, hdb, hget, ?_, fun hread => by rw [fromFile_of_read _ hread]; exact hdb⟩
  have hne : rowIP r ≠ [] := by
    unfold registersExact at hr
    simp only [Bool.and_eq_true, decide_eq_true_eq] at hr
    exact hr.2
  unfold FindLocation
  rw [if_neg hne]
  have hget2 : db.exactIPs.get (IP.String (rowIP r)) = some (rowLocation r) := hget
  simp only [hget2]

/-- Witness for C13: two rows for 10.0.0.1, the second written in IPv4-mapped form, around a
row for another address; the second one wins, also in the store the whole load of the file
returns. -/
theorem C13_last_write_wins_witness :
    ∃ db, NewCSVDatabase ([["10.0.0.1", "Paris", "FR"]] ++
        ["::ffff:10.0.0.1", " Austin ", "US"] :: [["10.0.0.2", "Lyon", "FR"]]) = .ok db ∧
      db.exactIPs.get "10.0.0.1" = some { Country := "US", City := "Austin" } ∧
      FindLocation db (ParseIP "10.0.0.1") = .ok { Country := "US", City := "Austin" } ∧
      NewCSVDatabase.fromFile ([["10.0.0.1", "Paris", "FR"]] ++
        ["::ffff:10.0.0.1", " Austin ", "US"] :: [["10.0.0.2", "Lyon", "FR"]]) = .ok db :=
  match C13_last_write_wins [["10.0.0.1", "Paris", "FR"]] [["10.0.0.2", "Lyon", "FR"]]
    ["::ffff:10.0.0.1", " Austin ", "US"] (by decide) (by decide) with
  | ⟨db, h1, h2, h3, h4⟩ => ⟨db, h1, h2, h3, h4 (by decide)⟩

theorem loadRecord_bucket (db : CSVDatabase) (r : List String) (K : String) :
    ((loadRecord db r).cidrByNet.get K).getD [] =
      (db.cidrByNet.get K).getD [] ++
        (rowEntry r).toList.filter (fun e => decide (e.network.IP.String = K)) := by
  rw [loadRecord_eq]
  unfold rowEntry rowLocation
  generalize TrimSpace (r.getD 0 "") = s
  by_cases h3 : r.length < 3
  · rw [if_pos h3, if_pos h3]; simp
  · rw [if_neg h3, if_neg h3]
    cases hc : ParseCIDR s with
    | some p =>
      obtain ⟨a, network⟩ := p
      simp only [Option.toList_some]
      by_cases hk : network.IP.String = K
      · rw [List.filter_cons_of_pos (by simpa using hk), List.filter_nil]
        rw [← hk, GoMap.get_set_same]
        rfl
      · rw [List.filter_cons_of_neg (by simpa using hk), List.filter_nil, List.append_nil,
          GoMap.get_set_ne _ _ _ _ (Ne.symm hk)]
    | none =>
      simp only [Option.toList_none, List.filter_nil, List.append_nil]
      split_ifs <;> rfl

theorem foldl_bucket (records : List (List String)) (K : String) :
    ∀ db : CSVDatabase, ((records.foldl loadRecord db).cidrByNet.get K).getD [] =
      (db.cidrByNet.get K).getD [] ++
        (cidrRows records).filter (fun e => decide (e.network.IP.String = K)) := by
  induction records with
  | nil => intro db; simp [cidrRows]
  | cons r rest ih =>
    intro db
    rw [List.foldl_cons, ih, loadRecord_bucket, List.append_assoc]
    congr 1
    unfold cidrRows
    cases hr : rowEntry r with
    | none => simp [List.filterMap_cons, hr]
    | some e =>
      simp only [List.filterMap_cons, hr, List.filter_cons, Option.toList_some, List.filter_nil]
      split_ifs <;> simp

theorem loadRecord_buckets_nonempty (db : CSVDatabase) (r : List String)
    (h : ∀ kv ∈ db.cidrByNet.entries, kv.2 ≠ []) :
    ∀ kv ∈ (loadRecord db r).cidrByNet.entries, kv.2 ≠ [] := by
  rw [loadRecord_eq]
  generalize TrimSpace (r.getD 0 "") = s
  by_cases h3 : r.length < 3
  · rw [if_pos h3]; exact h
  · rw [if_neg h3]
    cases hp : ParseCIDR s with
    | some p =>
      intro kv hkv
      rcases GoMap.store_mem _ _ _ _ hkv with heq | hmem
      · rw [heq]; simp
      · exact h kv hmem
    | none =>
      simp only
      split_ifs
      · exact h
      · exact h

theorem foldl_buckets_nonempty (records : List (List String)) :
    ∀ db : CSVDatabase, (∀ kv ∈ db.cidrByNet.entries, kv.2 ≠ []) →
      ∀ kv ∈ (records.foldl loadRecord db).cidrByNet.entries, kv.2 ≠ [] := by
  induction records with
  | nil => intro db h; exact h
  | cons r rest ih => intro db h; exact ih _ (loadRecord_buckets_nonempty db r h)

/-- C16 (bucket contents and order after a successful load). In a store built by
NewCSVDatabase, the bucket under a key `K` is a permutation of the entries of exactly those
CIDR rows, duplicates included, whose network number reads `K`; it is not empty, and the
prefix lengths do not increase along it. A key that is absent has no such row. -/
theorem C16_bucket_contents_and_order (records : List (List String)) (db : CSVDatabase)
    (hdb : NewCSVDatabase records = .ok db) (K : String) :
    (∀ bucket, db.cidrByNet.get K = some bucket →
      bucket.Perm ((cidrRows records).filter (fun e => decide (e.network.IP.String = K))) ∧
      bucket ≠ [] ∧
      bucket.Pairwise (fun a b => b.prefixLen ≤ a.prefixLen)) ∧
    (db.cidrByNet.get K = none →
      (cidrRows records).filter (fun e => decide (e.network.IP.String = K)) = []) := by
  have hc := (loadEntries_ok_exact _ db _ (NewCSVDatabase_ok _ db hdb)).2
  have hb := foldl_bucket records K { exactIPs := GoMap.empty, cidrByNet := GoMap.empty }
  have hempty : ((GoMap.empty : GoMap (List cidrEntry)).get K).getD [] = [] := rfl
  simp only [hempty, List.nil_append] at hb
  rw [hc, GoMap.get_mapValues]
  constructor
  · intro bucket hget
    cases hg : (List.foldl loadRecord { exactIPs := GoMap.empty, cidrByNet := GoMap.empty }
        records).cidrByNet.get K with
    | none => rw [hg] at hget; simp at hget
    | some raw =>
      rw [hg] at hget hb
      simp only [Option.map_some', Option.some.injEq, Option.getD_some] at hget hb
      rw [← hget, ← hb]
      refine ⟨sortSlice_perm longerMask raw, ?_, sortSlice_sorted cidrEntry.prefixLen raw⟩
      -- a bucket is created by an append, so it is not empty
      intro hnil
      have hraw : raw = [] := by
        have := (sortSlice_perm longerMask raw).length_eq
        rw [hnil] at this
        exact List.length_eq_zero.mp this.symm
      have hinvb := GoMap.lookup_mem _ _ _ hg
      have hne : ∀ kv ∈ (List.foldl loadRecord
          { exactIPs := GoMap.empty, cidrByNet := GoMap.empty } records).cidrByNet.entries,
          kv.2 ≠ [] := by
        apply foldl_buckets_nonempty
        intro kv hkv
        simp [GoMap.empty] at hkv
      exact hne _ hinvb hraw
  · intro hnone
    cases hg : (List.foldl loadRecord { exactIPs := GoMap.empty, cidrByNet := GoMap.empty }
        records).cidrByNet.get K with
    | none =>
      rw [hg] at hb
      simpa using hb.symm
    | some raw => rw [hg] at hnone; simp at hnone

/-- Witness for C16: four CIDR rows with network number 10.0.0.0, one of them twice and one
IPv4-mapped, and one row elsewhere; the bucket "10.0.0.0" holds the four, prefix lengths 104,
16, 8, 8. -/
theorem C16_bucket_contents_and_order_witness :
    ((storeOf [["10.0.0.0/8", "A", "X"], ["10.0.0.0/16", "B", "X"], ["10.0.0.0/8", "A", "X"],
        ["192.168.0.0/16", "C", "X"], ["::ffff:10.0.0.0/104", "D", "X"]]).cidrByNet.get
        "10.0.0.0").map (fun bucket => bucket.map cidrEntry.prefixLen) = some [104, 16, 8, 8] ∧
    ∀ bucket,
      (storeOf [["10.0.0.0/8", "A", "X"], ["10.0.0.0/16", "B", "X"], ["10.0.0.0/8", "A", "X"],
        ["192.168.0.0/16", "C", "X"], ["::ffff:10.0.0.0/104", "D", "X"]]).cidrByNet.get
        "10.0.0.0" = some bucket →
      bucket.Perm ((cidrRows [["10.0.0.0/8", "A", "X"], ["10.0.0.0/16", "B", "X"],
        ["10.0.0.0/8", "A", "X"], ["192.168.0.0/16", "C", "X"],
        ["::ffff:10.0.0.0/104", "D", "X"]]).filter
          (fun e => decide (e.network.IP.String = "10.0.0.0"))) ∧
      bucket ≠ [] ∧
      bucket.Pairwise (fun a b => b.prefixLen ≤ a.prefixLen) :=
  ⟨by decide,
   (C16_bucket_contents_and_order [["10.0.0.0/8", "A", "X"], ["10.0.0.0/16", "B", "X"],
      ["10.0.0.0/8", "A", "X"], ["192.168.0.0/16", "C", "X"], ["::ffff:10.0.0.0/104", "D", "X"]]
      (storeOf [["10.0.0.0/8", "A", "X"], ["10.0.0.0/16", "B", "X"], ["10.0.0.0/8", "A", "X"],
        ["192.168.0.0/16", "C", "X"], ["::ffff:10.0.0.0/104", "D", "X"]])
      (by decide) "10.0.0.0").1⟩

/-! ### Format-independent lookup and the text of IPv4 addresses -/

set_option maxRecDepth 100000 in
theorem octet_text : ∀ x, x < 256 →
    (∀ c ∈ appendDecimal [] x, isDigit c = true ∧ isSpace c = false) ∧
    appendDecimal [] x ≠ [] ∧
    (digitsStep (appendDecimal [] x) 0 0).map Prod.fst = some x ∧
    (scanHex (appendDecimal [] x) 0 0).map Prod.snd = some (appendDecimal [] x).length := by
  decide

theorem digit_char (c : Char) (h : isDigit c = true) :
    c ≠ '.' ∧ c ≠ ':' ∧ c ≠ '%' ∧ c ≠ '/' ∧ hexVal c ≠ none := by
  unfold isDigit at h
  simp only [decide_eq_true_eq] at h
  refine ⟨?_, ?_, ?_, ?_, ?_⟩
  · rintro rfl; exact absurd h (by decide)
  · rintro rfl; exact absurd h (by decide)
  · rintro rfl; exact absurd h (by decide)
  · rintro rfl; exact absurd h (by decide)
  · unfold hexVal
    rw [if_pos h]
    simp

/-- A run of digits in front of the rest of the text: parseIPv4Fields reads it as digitsStep
does and goes on with the rest. -/
theorem parseIPv4Fields_digits (ds rest : List Char) (h : ∀ c ∈ ds, isDigit c = true) :
    ∀ (val pos digLen : Nat) (fields : List Nat),
      parseIPv4Fields (ds ++ rest) false false val pos digLen fields =
        match digitsStep ds val digLen with
        | none => none
        | some (v, l) => parseIPv4Fields rest false false v pos l fields := by
  induction ds with
  | nil => intro val pos digLen fields; rfl
  | cons c cs ih =>
    intro val pos digLen fields
    have hc := h c (List.mem_cons_self _ _)
    have ih2 := ih (fun x hx => h x (List.mem_cons_of_mem _ hx))
    simp only [List.cons_append, parseIPv4Fields, hc, if_true, digitsStep]
    split_ifs <;> first | rfl | exact ih2 _ _ _ _

theorem parseIPv4Fields_digits_first (c : Char) (cs rest : List Char)
    (h : ∀ x ∈ c :: cs, isDigit x = true) (first prevDot : Bool) (pos : Nat)
    (fields : List Nat) :
    parseIPv4Fields (c :: cs ++ rest) first prevDot 0 pos 0 fields =
      match digitsStep (c :: cs) 0 0 with
      | none => none
      | some (v, l) => parseIPv4Fields rest false false v pos l fields := by
  have hc := h c (List.mem_cons_self _ _)
  have ih := parseIPv4Fields_digits cs rest (fun x hx => h x (List.mem_cons_of_mem _ hx))
  simp only [List.cons_append, parseIPv4Fields, hc, if_true, digitsStep]
  split_ifs <;> first | rfl | exact ih _ _ _ _

/-- One octet followed by a dot and more text. -/
theorem parseIPv4Fields_octet_dot (x : Nat) (hx : x < 256) (rest : List Char)
    (hrest : rest ≠ []) (first prevDot : Bool) (pos : Nat) (hpos : pos ≠ 3)
    (fields : List Nat) :
    parseIPv4Fields (appendDecimal [] x ++ '.' :: rest) first prevDot 0 pos 0 fields =
      parseIPv4Fields rest false true 0 (pos + 1) 0 (fields.set pos x) := by
  obtain ⟨hdig, hne, hstep, _⟩ := octet_text x hx
  obtain ⟨c, cs, hcs⟩ := List.exists_cons_of_ne_nil hne
  rw [hcs] at hdig hstep ⊢
  rw [parseIPv4Fields_digits_first c cs _ (fun y hy => (hdig y hy).1)]
  cases hd : digitsStep (c :: cs) 0 0 with
  | none => rw [hd] at hstep; simp at hstep
  | some r =>
    obtain ⟨v, l⟩ := r
    rw [hd] at hstep
    simp only [Option.map_some', Option.some.injEq] at hstep
    subst hstep
    simp only [parseIPv4Fields]
    have h1 : isDigit '.' = false := by decide
    simp [h1, hrest, hpos]

/-- The last octet of the text. -/
theorem parseIPv4Fields_octet_end (x : Nat) (hx : x < 256) (first prevDot : Bool)
    (fields : List Nat) :
    parseIPv4Fields (appendDecimal [] x) first prevDot 0 3 0 fields = some (fields.set 3 x) := by
  obtain ⟨hdig, hne, hstep, _⟩ := octet_text x hx
  obtain ⟨c, cs, hcs⟩ := List.exists_cons_of_ne_nil hne
  rw [hcs] at hdig hstep ⊢
  have := parseIPv4Fields_digits_first c cs [] (fun y hy => (hdig y hy).1) first prevDot 3 fields
  rw [List.append_nil] at this
  rw [this]
  cases hd : digitsStep (c :: cs) 0 0 with
  | none => rw [hd] at hstep; simp at hstep
  | some r =>
    obtain ⟨v, l⟩ := r
    rw [hd] at hstep
    simp only [Option.map_some', Option.some.injEq] at hstep
    subst hstep
    simp [parseIPv4Fields]

/-- Parsing the dotted-quad text of four bytes gives the four bytes. -/
theorem parseIPv4Fields_string4 (a b c d : Nat) (ha : a < 256) (hb : b < 256) (hc : c < 256)
    (hd : d < 256) (first prevDot : Bool) :
    parseIPv4Fields (string4 [a, b, c, d]) first prevDot 0 0 0 [0, 0, 0, 0]
      = some [a, b, c, d] := by
  have hne : ∀ x, x < 256 → ∀ rest : List Char, appendDecimal [] x ++ rest ≠ [] := by
    intro x hx rest h
    exact (octet_text x hx).2.1 (List.append_eq_nil.mp h).1
  rw [string4_eq,
    parseIPv4Fields_octet_dot a ha _ (hne b hb _) first prevDot 0 (by decide),
    parseIPv4Fields_octet_dot b hb _ (hne c hc _) false true 1 (by decide),
    parseIPv4Fields_octet_dot c hc _ (by simpa using (octet_text d hd).2.1) false true 2
      (by decide),
    parseIPv4Fields_octet_end d hd false true]
  rfl

/-- The characters of a dotted quad are digits and dots. -/
theorem string4_chars (a b c d : Nat) (ha : a < 256) (hb : b < 256) (hc : c < 256)
    (hd : d < 256) : ∀ x ∈ string4 [a, b, c, d], isDigit x = true ∨ x = '.' := by
  intro x hx
  rw [string4_eq] at hx
  simp only [List.mem_append, List.mem_cons] at hx
  rcases hx with h | rfl | h | rfl | h | rfl | h
  · exact Or.inl ((octet_text a ha).1 x h).1
  · exact Or.inr rfl
  · exact Or.inl ((octet_text b hb).1 x h).1
  · exact Or.inr rfl
  · exact Or.inl ((octet_text c hc).1 x h).1
  · exact Or.inr rfl
  · exact Or.inl ((octet_text d hd).1 x h).1

theorem isDigit_not_space (c : Char) (h : isDigit c = true) : isSpace c = false := by
  unfold isDigit at h
  simp only [decide_eq_true_eq] at h
  have h1 : 48 ≤ c.toNat := h.1
  have h2 : c.toNat ≤ 57 := h.2
  unfold isSpace
  simp only [Bool.decide_or, Bool.decide_and, Bool.or_eq_false_iff, Bool.and_eq_false_iff,
    decide_eq_false_iff_not]
  omega

/-- A text that starts with digits and then has a dot is read as an IPv4 address. -/
theorem ParseAddr_scan_dot (whole ds rest : List Char) (h : ∀ c ∈ ds, isDigit c = true) :
    ParseAddr.scan whole (ds ++ '.' :: rest) = parseIPv4 whole := by
  induction ds with
  | nil => simp [ParseAddr.scan]
  | cons c cs ih =>
    obtain ⟨h1, h2, h3, _, _⟩ := digit_char c (h c (List.mem_cons_self _ _))
    simp only [List.cons_append, ParseAddr.scan, h1, h2, h3, if_false]
    exact ih (fun x hx => h x (List.mem_cons_of_mem _ hx))

theorem ParseAddr_string4 (a b c d : Nat) (ha : a < 256) (hb : b < 256) (hc : c < 256)
    (hd : d < 256) :
    ParseAddr (string4 [a, b, c, d]) = some { z4 := true, bytes := [a, b, c, d], zone := [] } := by
  unfold ParseAddr
  have hs := string4_eq a b c d
  rw [hs, ParseAddr_scan_dot _ _ _ (fun x hx => ((octet_text a ha).1 x hx).1), ← hs]
  unfold parseIPv4
  rw [parseIPv4Fields_string4 a b c d ha hb hc hd]

/-- The dotted-quad text of an address parses to the 16-byte form of the address. -/
theorem ParseIP_string4 (a b c d : Nat) (ha : a < 256) (hb : b < 256) (hc : c < 256)
    (hd : d < 256) :
    ParseIP (String.mk (string4 [a, b, c, d])) = v4InV6Prefix ++ [a, b, c, d] := by
  unfold ParseIP
  rw [ParseAddr_string4 a b c d ha hb hc hd]
  rfl

/-- A text without a slash is no CIDR. -/
theorem ParseCIDR_no_slash (l : List Char) (h : '/' ∉ l) : ParseCIDR (String.mk l) = none := by
  unfold ParseCIDR
  have : List.indexOf '/' l = l.length := List.indexOf_eq_length.mpr h
  simp [this]

/-- A text without white space is left as it is by TrimSpace. -/
theorem TrimSpace_id (l : List Char) (h : ∀ c ∈ l, isSpace c = false) :
    TrimSpace (String.mk l) = String.mk l := by
  unfold TrimSpace
  have key : ∀ m : List Char, (∀ c ∈ m, isSpace c = false) → m.dropWhile isSpace = m := by
    intro m hm
    cases m with
    | nil => rfl
    | cons x xs => simp [List.dropWhile_cons, hm x (List.mem_cons_self _ _)]
  rw [key l h, key l.reverse (fun c hc => h c (List.mem_reverse.mp hc)), List.reverse_reverse]

/-- The hex-group scan stops at the first character that is no hex digit. -/
theorem scanHex_stop (ds : List Char) (c : Char) (rest : List Char)
    (h : ∀ x ∈ ds, hexVal x ≠ none) (hc : hexVal c = none) :
    ∀ off acc, scanHex (ds ++ c :: rest) off acc = scanHex ds off acc := by
  induction ds with
  | nil => intro off acc; simp [scanHex, hc]
  | cons x xs ih =>
    intro off acc
    have hx := h x (List.mem_cons_self _ _)
    cases hv : hexVal x with
    | none => exact absurd hv hx
    | some v =>
      simp only [List.cons_append, scanHex, hv]
      split_ifs <;> first | rfl | exact ih (fun y hy => h y (List.mem_cons_of_mem _ hy)) _ _

theorem getD_at_length (l : List Char) (c d : Char) (r : List Char) :
    (l ++ c :: r).getD l.length d = c := by
  induction l with
  | nil => rfl
  | cons x xs ih => simpa using ih

/-- The step of the main loop of parseIPv6 at an embedded IPv4 address. -/
theorem parseIPv6_loop_embedded (fuel : Nat) (st : V6State) (acc k : Nat) (f : List Nat)
    (hi : st.i + 4 ≤ 16) (hscan : scanHex st.s 0 0 = some (acc, k)) (hk : k ≠ 0)
    (hlt : k < st.s.length) (hdot : st.s.getD k ' ' = '.') (hell : st.ellipsis ≠ none)
    (hf : parseIPv4Fields st.s true false 0 0 0 [0, 0, 0, 0] = some f) :
    parseIPv6.loop (fuel + 1) st =
      some { s := [], i := st.i + 4, ellipsis := st.ellipsis,
             ip := (((st.ip.set st.i (f.getD 0 0)).set (st.i + 1) (f.getD 1 0)).set
                      (st.i + 2) (f.getD 2 0)).set (st.i + 3) (f.getD 3 0) } := by
  have h1 : st.i < 16 := by omega
  have h2 : ¬ 16 < st.i + 4 := by omega
  rw [parseIPv6.loop]
  simp only [h1, not_true_eq_false, if_false, hscan, hk, hlt, hdot, and_self, if_true, hell,
    false_and, h2, hf]

/-- The step of the main loop of parseIPv6 at the group ffff followed by a single colon. -/
theorem parseIPv6_loop_ffff (fuel : Nat) (x : Char) (t : List Char) (hx : x ≠ ':') :
    parseIPv6.loop (fuel + 1)
        (V6State.mk ('f' :: 'f' :: 'f' :: 'f' :: ':' :: x :: t) (List.replicate 16 0) 0 (some 0)) =
      parseIPv6.loop fuel (V6State.mk (x :: t)
        [0xff, 0xff, 0, 0, 0, 0, 0, 0, 0, 0, 0, 0, 0, 0, 0, 0] 2 (some 0)) := by
  have h0 : scanHex ('f' :: 'f' :: 'f' :: 'f' :: ':' :: x :: t) 0 0 = some (0xffff, 4) := rfl
  rw [parseIPv6.loop]
  simp only [h0]
  simp [hx]

/-- The text after the two leading colons of an IPv4-mapped address: the group ffff, a colon,
then the embedded dotted quad. -/
theorem parseIPv6_loop_mapped (a b c d : Nat) (ha : a < 256) (hb : b < 256) (hc : c < 256)
    (hd : d < 256) :
    parseIPv6.loop 9 (V6State.mk ("ffff:".data ++ string4 [a, b, c, d]) (List.replicate 16 0)
        0 (some 0)) =
      some (V6State.mk [] [0xff, 0xff, a, b, c, d, 0, 0, 0, 0, 0, 0, 0, 0, 0, 0] 6 (some 0)) := by
  obtain ⟨hdig, hne, _, hscan⟩ := octet_text a ha
  obtain ⟨x, xs, hx⟩ := List.exists_cons_of_ne_nil hne
  have hs4 := string4_eq a b c d
  have hxd : isDigit x = true := (hdig x (by rw [hx]; exact List.mem_cons_self _ _)).1
  have hxc : x ≠ ':' := (digit_char x hxd).2.1
  have hcons : string4 [a, b, c, d] = x :: (xs ++ '.' :: (appendDecimal [] b ++
      '.' :: (appendDecimal [] c ++ '.' :: appendDecimal [] d))) := by
    rw [hs4, hx]; rfl
  have hfirst : parseIPv6.loop 9
        (V6State.mk ("ffff:".data ++ string4 [a, b, c, d]) (List.replicate 16 0) 0 (some 0)) =
      parseIPv6.loop 8 (V6State.mk (string4 [a, b, c, d])
        [0xff, 0xff, 0, 0, 0, 0, 0, 0, 0, 0, 0, 0, 0, 0, 0, 0] 2 (some 0)) := by
    rw [hcons]
    exact parseIPv6_loop_ffff 8 x _ hxc
  rw [hfirst]
  have hstop : scanHex (string4 [a, b, c, d]) 0 0 = scanHex (appendDecimal [] a) 0 0 := by
    rw [hs4]
    exact scanHex_stop _ _ _ (fun y hy => (digit_char y (hdig y hy).1).2.2.2.2) (by decide) 0 0
  cases hsc : scanHex (appendDecimal [] a) 0 0 with
  | none => rw [hsc] at hscan; simp at hscan
  | some r =>
    obtain ⟨acc, k⟩ := r
    rw [hsc] at hscan
    simp only [Option.map_some', Option.some.injEq] at hscan
    subst hscan
    rw [parseIPv6_loop_embedded 7 (V6State.mk (string4 [a, b, c, d])
        [0xff, 0xff, 0, 0, 0, 0, 0, 0, 0, 0, 0, 0, 0, 0, 0, 0] 2 (some 0)) acc _ [a, b, c, d]
      (by show 2 + 4 ≤ 16; decide) (by rw [hstop, hsc]) (by simpa using hne) (by rw [hs4]; simp)
      (by rw [hs4]; exact getD_at_length _ _ _ _) (by simp)
      (parseIPv4Fields_string4 a b c d ha hb hc hd true false)]
    rfl

/-- A text with two leading colons and no zone: parseIPv6 runs its main loop on the rest, with
the ellipsis at position 0. -/
theorem parseIPv6_lead (t : List Char) (ht : t ≠ []) (hp : '%' ∉ t) :
    parseIPv6 (':' :: ':' :: t) =
      (parseIPv6.loop 9 (V6State.mk t (List.replicate 16 0) 0 (some 0))).bind
        (parseIPv6.finish []) := by
  have hp2 : '%' ∉ ':' :: ':' :: t := by
    simp only [List.mem_cons, not_or]
    exact ⟨by decide, by decide, hp⟩
  have hcut : List.indexOf '%' (':' :: ':' :: t) = (':' :: ':' :: t).length :=
    List.indexOf_eq_length.mpr hp2
  unfold parseIPv6
  have hz : List.drop (t.length + 1) t = [] := List.drop_eq_nil_of_le (Nat.le_succ _)
  simp only [hcut, List.take_length]
  simp only [ht, hz, List.length_cons, List.getD_cons_zero, List.getD_cons_succ, List.drop_succ_cons,
    List.drop_zero, lt_irrefl, false_and, if_false, List.length_eq_zero, and_false, and_self,
    if_true, Nat.le_add_left, true_and]
  cases parseIPv6.loop 9 (V6State.mk t (List.replicate 16 0) 0 (some 0)) <;> rfl

/-- The end of parseIPv6 on the state reached for an IPv4-mapped text: the ellipsis at
position 0 is expanded. -/
theorem parseIPv6_finish_mapped (a b c d : Nat) :
    parseIPv6.finish [] (V6State.mk [] [0xff, 0xff, a, b, c, d, 0, 0, 0, 0, 0, 0, 0, 0, 0, 0] 6
      (some 0)) = some (Addr.mk false (v4InV6Prefix ++ [a, b, c, d]) []) := by
  simp [parseIPv6.finish, expandEllipsis, List.range, List.range.loop, v4InV6Prefix]

/-- The text ::ffff:a.b.c.d parses to the 16-byte IPv4-mapped form of a.b.c.d. -/
theorem ParseIP_mapped (a b c d : Nat) (ha : a < 256) (hb : b < 256) (hc : c < 256)
    (hd : d < 256) :
    ParseIP (String.mk ("::ffff:".data ++ string4 [a, b, c, d])) =
      v4InV6Prefix ++ [a, b, c, d] := by
  have hchars := string4_chars a b c d ha hb hc hd
  have hp : '%' ∉ "ffff:".data ++ string4 [a, b, c, d] := by
    intro h
    rcases List.mem_append.mp h with h | h
    · revert h; decide
    · rcases hchars _ h with h1 | h1
      · exact (digit_char _ h1).2.2.1 rfl
      · revert h1; decide
  have h6 : parseIPv6 ("::ffff:".data ++ string4 [a, b, c, d]) =
      some (Addr.mk false (v4InV6Prefix ++ [a, b, c, d]) []) := by
    have h := parseIPv6_lead ("ffff:".data ++ string4 [a, b, c, d]) (by simp) hp
    rw [parseIPv6_loop_mapped a b c d ha hb hc hd] at h
    exact h.trans (parseIPv6_finish_mapped a b c d)
  have hA : ParseAddr ("::ffff:".data ++ string4 [a, b, c, d]) =
      parseIPv6 ("::ffff:".data ++ string4 [a, b, c, d]) := by
    show ParseAddr.scan _ (':' :: _) = _
    simp [ParseAddr.scan]
  unfold ParseIP
  rw [hA, h6]
  rfl

theorem To4_mapped (a b c d : Nat) : IP.To4 (v4InV6Prefix ++ [a, b, c, d]) = [a, b, c, d] := by
  simp [IP.To4, v4InV6Prefix, isZeros, IPv4len, IPv6len]

theorem String_mapped (a b c d : Nat) :
    IP.String (v4InV6Prefix ++ [a, b, c, d]) = IP.String [a, b, c, d] := by
  have h := String_To4 (v4InV6Prefix ++ [a, b, c, d]) (by rw [To4_mapped]; simp)
  rw [To4_mapped] at h
  exact h.symm

theorem String_four (a b c d : Nat) : IP.String [a, b, c, d] = String.mk (string4 [a, b, c, d]) := by
  simp [IP.String, IP.To4, IPv4len, IPv6len]

theorem Contains_mapped (n : IPNet) (a b c d : Nat) :
    n.Contains (v4InV6Prefix ++ [a, b, c, d]) = n.Contains [a, b, c, d] := by
  have h4 : IP.To4 [a, b, c, d] = [a, b, c, d] := by simp [IP.To4, IPv4len]
  unfold IPNet.Contains
  rw [To4_mapped, h4]
  simp

/-- The bucket search depends on the address only through its text and through the tests
Contains. -/
theorem findInCIDR_congr (db : CSVDatabase) (ip ip2 ipBytes : IP)
    (hs : IP.String ip = IP.String ip2) (hc : ∀ n : IPNet, n.Contains ip = n.Contains ip2) :
    ∀ levels, findInCIDR db ip ipBytes levels = findInCIDR db ip2 ipBytes levels := by
  intro levels
  induction levels with
  | nil => simp [findInCIDR, hs]
  | cons l rest ih =>
    simp only [findInCIDR, hc, ih]

theorem FindLocation_mapped (db : CSVDatabase) (a b c d : Nat) :
    FindLocation db (v4InV6Prefix ++ [a, b, c, d]) = FindLocation db [a, b, c, d] := by
  have h4 : IP.To4 [a, b, c, d] = [a, b, c, d] := by simp [IP.To4, IPv4len]
  have h1 : v4InV6Prefix ++ [a, b, c, d] ≠ [] := by simp [v4InV6Prefix]
  unfold FindLocation
  rw [if_neg h1, if_neg (List.cons_ne_nil _ _)]
  simp only [String_mapped, To4_mapped, h4, ne_eq, List.cons_ne_nil, not_false_eq_true, if_true]
  rw [findInCIDR_congr db _ _ _ (String_mapped a b c d) (fun n => Contains_mapped n a b c d)]

/-- A row whose first field is the text of a.b.c.d, plain or IPv4-mapped, is stored under the
key IP.String of the 4-byte address. -/
theorem loadRecord_exact_text (db : CSVDatabase) (a b c d : Nat) (ha : a < 256) (hb : b < 256)
    (hc : c < 256) (hd : d < 256) (city country : String) (pre : List Char)
    (hpre : pre = [] ∨ pre = "::ffff:".data) :
    loadRecord db [String.mk (pre ++ string4 [a, b, c, d]), city, country] =
      CSVDatabase.mk (db.exactIPs.set (IP.String [a, b, c, d])
        (Location.mk (TrimSpace country) (TrimSpace city))) db.cidrByNet := by
  have hchars := string4_chars a b c d ha hb hc hd
  have hsp : ∀ x ∈ pre ++ string4 [a, b, c, d], isSpace x = false := by
    intro x hx
    rcases List.mem_append.mp hx with h | h
    · rcases hpre with rfl | rfl
      · simp at h
      · clear hx
        revert x
        decide
    · rcases hchars x h with h1 | rfl
      · exact isDigit_not_space x h1
      · decide
  have hsl : '/' ∉ pre ++ string4 [a, b, c, d] := by
    intro hx
    rcases List.mem_append.mp hx with h | h
    · rcases hpre with rfl | rfl
      · simp at h
      · revert h; decide
    · rcases hchars _ h with h1 | h1
      · exact (digit_char _ h1).2.2.2.1 rfl
      · revert h1; decide
  have hip : ParseIP (String.mk (pre ++ string4 [a, b, c, d])) = v4InV6Prefix ++ [a, b, c, d] := by
    rcases hpre with rfl | rfl
    · exact ParseIP_string4 a b c d ha hb hc hd
    · exact ParseIP_mapped a b c d ha hb hc hd
  unfold loadRecord
  simp only [List.length_cons, List.length_nil, List.getD_cons_zero, List.getD_cons_succ]
  rw [TrimSpace_id _ hsp, ParseCIDR_no_slash _ hsl, hip, String_mapped]
  simp [v4InV6Prefix]

/-- C11: format-independent lookup. For every store and every IPv4 address a.b.c.d,
FindLocation gives the same result (the same location, or the same error with the same address
text) for the 16-byte IPv4-mapped form of the address and for its 4-byte form; the texts
::ffff:a.b.c.d and a.b.c.d parse to the same address; and a row written ::ffff:a.b.c.d changes
the store exactly as the row written a.b.c.d does: the location is put into the exact table
under the one key IP.String of the address, the key that FindLocation reads. -/
theorem C11_format_independent_lookup (db : CSVDatabase) (a b c d : Nat) (city country : String)
    (ha : a < 256) (hb : b < 256) (hc : c < 256) (hd : d < 256) :
    FindLocation db (v4InV6Prefix ++ [a, b, c, d]) = FindLocation db [a, b, c, d] ∧
    ParseIP (String.mk ("::ffff:".data ++ string4 [a, b, c, d])) =
      ParseIP (String.mk (string4 [a, b, c, d])) ∧
    loadRecord db [String.mk ("::ffff:".data ++ string4 [a, b, c, d]), city, country] =
      loadRecord db [String.mk (string4 [a, b, c, d]), city, country] ∧
    loadRecord db [String.mk (string4 [a, b, c, d]), city, country] =
      CSVDatabase.mk (db.exactIPs.set (IP.String [a, b, c, d])
        (Location.mk (TrimSpace country) (TrimSpace city))) db.cidrByNet := by
  have h1 := loadRecord_exact_text db a b c d ha hb hc hd city country [] (Or.inl rfl)
  have h2 := loadRecord_exact_text db a b c d ha hb hc hd city country "::ffff:".data
    (Or.inr rfl)
  rw [List.nil_append] at h1
  refine ⟨FindLocation_mapped db a b c d, ?_, ?_, h1⟩
  · rw [ParseIP_mapped a b c d ha hb hc hd, ParseIP_string4 a b c d ha hb hc hd]
  · rw [h1, h2]

/-- Witness for C11: the address 198.51.100.7 and a store with a range around it. -/
theorem C11_format_independent_lookup_witness :
    FindLocation (storeOf [["198.51.100.0/24", "Oslo", "NO"]])
        (v4InV6Prefix ++ [198, 51, 100, 7]) =
      FindLocation (storeOf [["198.51.100.0/24", "Oslo", "NO"]]) [198, 51, 100, 7] ∧
    ParseIP (String.mk ("::ffff:".data ++ string4 [198, 51, 100, 7])) =
      ParseIP (String.mk (string4 [198, 51, 100, 7])) ∧
    loadRecord (storeOf [["198.51.100.0/24", "Oslo", "NO"]])
        [String.mk ("::ffff:".data ++ string4 [198, 51, 100, 7]), "Bergen", "NO"] =
      loadRecord (storeOf [["198.51.100.0/24", "Oslo", "NO"]])
        [String.mk (string4 [198, 51, 100, 7]), "Bergen", "NO"] ∧
    loadRecord (storeOf [["198.51.100.0/24", "Oslo", "NO"]])
        [String.mk (string4 [198, 51, 100, 7]), "Bergen", "NO"] =
      CSVDatabase.mk ((storeOf [["198.51.100.0/24", "Oslo", "NO"]]).exactIPs.set
        (IP.String [198, 51, 100, 7]) (Location.mk (TrimSpace "NO") (TrimSpace "Bergen")))
        (storeOf [["198.51.100.0/24", "Oslo", "NO"]]).cidrByNet :=
  C11_format_independent_lookup (storeOf [["198.51.100.0/24", "Oslo", "NO"]]) 198 51 100 7
    "Bergen" "NO" (by decide) (by decide) (by decide) (by decide)

/-! ### The containment test of the bucket scan -/

theorem sameUnderMask_of_eq : ∀ nn m ip : List Nat,
    andBytes nn m = andBytes ip m → sameUnderMask nn m ip = true := by
  intro nn
  induction nn with
  | nil => intro m ip _; simp [sameUnderMask]
  | cons n nn ih =>
    intro m ip h
    cases m with
    | nil => simp [sameUnderMask]
    | cons y m =>
      cases ip with
      | nil => simp [sameUnderMask]
      | cons x ip =>
        simp only [andBytes, List.zipWith_cons_cons, List.cons.injEq] at h
        simp only [sameUnderMask, h.1, ne_eq, not_true_eq_false, if_false]
        exact ih m ip h.2

/-- An IPv4 network contains the addresses that its mask takes to its network number. -/
theorem contains_of_masked_v4 (n : IPNet) (ip : IP) (hiplen : n.IP.length = 4)
    (hml : n.Mask.length = 4) (hl4 : ip.To4.length = 4)
    (h : andBytes n.IP n.Mask = andBytes ip.To4 n.Mask) : n.Contains ip = true := by
  have hne : ip.To4 ≠ [] := by
    intro h0; rw [h0] at hl4; simp at hl4
  unfold IPNet.Contains
  simp only
  rw [networkNumberAndMask_v4 n hiplen hml, if_pos hne]
  simp only [hl4, hiplen, ne_eq, not_true_eq_false, if_false]
  exact sameUnderMask_of_eq _ _ _ h

/-- The bucket scan without the test returns the first entry of the first bucket hit. -/
theorem findInCIDRNoCheck_eq (db : CSVDatabase) (ip ipBytes : IP) :
    ∀ levels, findInCIDRNoCheck db ip ipBytes levels =
      match firstHit db ipBytes levels with
      | some e => .ok e.location
      | none => .error (.NotFoundError ip.String) := by
  intro levels
  induction levels with
  | nil => rfl
  | cons L rest ih =>
    unfold findInCIDRNoCheck firstHit
    simp only
    split_ifs
    · exact ih
    · cases hg : db.cidrByNet.get (IP.String (andBytes ipBytes (CIDRMask L (ipBytes.length * 8))))
        with
      | none => exact ih
      | some bucket =>
        cases bucket with
        | nil => exact ih
        | cons e es => rfl

/-- Where the first entry of the first bucket hit contains the address, the scan with the test
and the scan without it return the same. -/
theorem findInCIDR_eq_NoCheck (db : CSVDatabase) (ip ipBytes : IP) :
    ∀ levels, (∀ e, firstHit db ipBytes levels = some e → e.network.Contains ip = true) →
      findInCIDRNoCheck db ip ipBytes levels = findInCIDR db ip ipBytes levels := by
  intro levels
  induction levels with
  | nil => intro _; rfl
  | cons L rest ih =>
    intro h
    unfold findInCIDRNoCheck findInCIDR
    unfold firstHit at h
    simp only at h ⊢
    split_ifs at h ⊢
    · exact ih h
    · cases hg : db.cidrByNet.get (IP.String (andBytes ipBytes (CIDRMask L (ipBytes.length * 8))))
        with
      | none =>
        rw [hg] at h
        exact ih h
      | some bucket =>
        rw [hg] at h
        cases bucket with
        | nil => exact ih h
        | cons e es =>
          have hc := h e rfl
          simp [List.find?, hc]

set_option maxRecDepth 100000 in
theorem CIDRMask_Size128 : ∀ p, p ≤ 128 → (CIDRMask p 128).Size = (p, 128) := by decide

set_option maxRecDepth 100000 in
/-- A 128-bit mask that keeps byte 11 whole has at least 96 one bits. -/
theorem CIDRMask_byte11 : ∀ p, p ≤ 128 → 0xff &&& (CIDRMask p 128).getD 11 0 = 0xff → 96 ≤ p := by
  decide

theorem andBytes_getD : ∀ (a m : List Nat) (i : Nat), i < a.length → i < m.length →
    (andBytes a m).getD i 0 = a.getD i 0 &&& m.getD i 0 := by
  intro a
  induction a with
  | nil => intro m i h; simp at h
  | cons x a ih =>
    intro m i h1 h2
    cases m with
    | nil => simp at h2
    | cons y m =>
      cases i with
      | zero => simp [andBytes]
      | succ i =>
        have := ih m i (by simpa using h1) (by simpa using h2)
        simpa [andBytes] using this

theorem appendHex_mem (b : List Char) (x : Nat) (c : Char) (h : c ∈ b) : c ∈ appendHex b x := by
  unfold appendHex
  simp only
  split_ifs <;> simp [h]

theorem appendTo6_mem (ip : List Nat) (zs ze : Nat) (c : Char) :
    ∀ fuel i ret, c ∈ ret → c ∈ appendTo6 ip zs ze fuel i ret := by
  intro fuel
  induction fuel with
  | zero => intro i ret h; exact h
  | succ fuel ih =>
    intro i ret h
    unfold appendTo6
    split_ifs
    · exact h
    · simp [h]
    · exact ih _ _ (appendHex_mem _ _ _ (by simp [h]))
    · exact ih _ _ (appendHex_mem _ _ _ (by simp [h]))
    · exact ih _ _ (appendHex_mem _ _ _ h)

/-- The text of a 16-byte address in IPv6 form has a colon. -/
theorem string6_colon (ip : List Nat) : ':' ∈ string6 ip := by
  unfold string6
  generalize longestZeroRun ip = z
  simp only
  unfold appendTo6
  split_ifs
  · omega
  · exact List.mem_cons_self _ _
  · exact appendTo6_mem _ _ _ _ _ _ _ (appendHex_mem _ _ _ (List.mem_cons_self _ _))
  · omega
  · unfold appendTo6
    split_ifs
    · omega
    · simp
    · exact appendTo6_mem _ _ _ _ _ _ _ (appendHex_mem _ _ _ (by simp))
    · exact appendTo6_mem _ _ _ _ _ _ _ (appendHex_mem _ _ _ (by simp))
    · omega

/-- The text of a 4-byte address has no colon, so it is the text of no 16-byte address in
IPv6 form. -/
theorem String_v4_ne_v6 (y x : IP) (hy : y.length = 4) (hby : ∀ b ∈ y, b < 256)
    (hx : x.length = 16) (hx4 : x.To4 = []) : IP.String x ≠ IP.String y := by
  obtain ⟨a, b, c, d, rfl⟩ := length_four y hy
  intro h
  have h6 : IP.String x = String.mk (string6 x) := by
    unfold IP.String
    simp [hx, hx4, IPv4len, IPv6len]
  rw [h6, String_four] at h
  have hs : string6 x = string4 [a, b, c, d] := congrArg String.data h
  have hcol := string6_colon x
  rw [hs] at hcol
  rcases string4_chars a b c d (hby a (by simp)) (hby b (by simp)) (hby c (by simp))
    (hby d (by simp)) _ hcol with h1 | h1
  · exact (digit_char _ h1).2.1 rfl
  · revert h1; decide

/-- An entry that sits in a bucket keyed by the text of a 4-byte address is either an IPv4
range with that network number, or an IPv4-mapped IPv6 range with at least 96 prefix bits. -/
theorem entry_of_v4_key (n : IPNet) (hwf : n.wellFormed) (y : IP) (hy : y.length = 4)
    (hby : ∀ b ∈ y, b < 256) (hk : n.IP.String = IP.String y) :
    (∃ p, p ≤ 32 ∧ n.Mask = CIDRMask p 32 ∧ n.IP = y ∧ andBytes n.IP n.Mask = n.IP) ∨
    (∃ p, 96 ≤ p ∧ p ≤ 128 ∧ n.Mask = CIDRMask p 128) := by
  obtain ⟨p, ⟨hp, hmask, hiplen, hfix⟩ | ⟨hp, hmask, hiplen, hfix⟩⟩ := hwf
  · left
    refine ⟨p, hp, hmask, ?_, hfix⟩
    apply String_inj4 _ _ hiplen hy _ hby hk
    rw [← hfix, hmask]
    exact andBytes_bound _ _ (CIDRMask_bytes32 p hp)
  · right
    refine ⟨p, ?_, hp, hmask⟩
    rcases To4_cases n.IP with ⟨h4, _⟩ | ⟨_, h4⟩ | ⟨_, _, h4⟩
    · omega
    · exact absurd hk (String_v4_ne_v6 y n.IP hy hby hiplen h4)
    · have h11 : n.IP.getD 11 0 = 0xff := by
        unfold IP.To4 at h4
        rw [if_neg (by rw [hiplen]; decide)] at h4
        split_ifs at h4 with hc
        · exact hc.2.2.2
        · simp at h4
      have hml : n.Mask.length = 16 := by rw [hmask]; exact CIDRMask_length128 p hp
      have := andBytes_getD n.IP n.Mask 11 (by omega) (by omega)
      rw [hfix, h11, hmask] at this
      exact CIDRMask_byte11 p hp this.symm

/-- What a bucket hit says. For an IPv4 address whose masking to L bits hits a bucket, every
entry of the bucket with prefix length at most L contains the address. -/
theorem bucket_hit_contains (db : CSVDatabase) (hinv : StoreInv db) (ip : IP)
    (hl4 : ip.To4.length = 4) (L : Nat) (hL : L ≤ 32) (bucket : List cidrEntry)
    (hget : db.cidrByNet.get (IP.String (andBytes ip.To4 (CIDRMask L 32))) = some bucket)
    (e : cidrEntry) (he : e ∈ bucket) (hp : e.prefixLen ≤ L) :
    e.network.Contains ip = true := by
  obtain ⟨hkey, hwf⟩ := hinv.2 _ (GoMap.lookup_mem _ _ _ hget) e he
  obtain ⟨hlen, hbound⟩ := masked_length32 ip.To4 hl4 L hL
  rcases entry_of_v4_key e.network hwf _ hlen hbound hkey with
    ⟨p, hp32, hmask, hip, hfix⟩ | ⟨p, hp96, hp128, hmask⟩
  · rw [prefixLen_v4 e p hp32 hmask] at hp
    have hml : e.network.Mask.length = 4 := by rw [hmask]; exact CIDRMask_length32 p hp32
    apply contains_of_masked_v4 e.network ip (by rw [hip]; exact hlen) hml hl4
    have h2 := masked_twice32 ip.To4 L p hL hp32
    rw [Nat.min_eq_right hp, ← hip, ← hmask] at h2
    exact h2
  · unfold cidrEntry.prefixLen at hp
    rw [hmask, CIDRMask_Size128 p hp128] at hp
    simp only at hp
    omega

theorem FindLocation_eq_NoCheck (db : CSVDatabase) (ip : IP)
    (h : ∀ e, firstBucketHit db ip = some e → e.network.Contains ip = true) :
    FindLocationNoCheck db ip = FindLocation db ip := by
  unfold FindLocationNoCheck FindLocation
  unfold firstBucketHit at h
  by_cases h0 : ip = []
  · rw [if_pos h0, if_pos h0]
  · rw [if_neg h0, if_neg h0]
    simp only
    cases db.exactIPs.get ip.String with
    | some loc => rfl
    | none =>
      simp only
      by_cases h4 : ip.To4 ≠ []
      · rw [if_pos h4] at h
        rw [if_pos h4, if_pos h4]
        exact findInCIDR_eq_NoCheck db ip ip.To4 _ h
      · rw [if_neg h4] at h
        rw [if_neg h4, if_neg h4]
        exact findInCIDR_eq_NoCheck db ip ip _ h

/-- Most-specific-first among the IPv4 ranges of a bucket: of two entries with 4-byte network
numbers, the one placed first is contained in the one placed later. -/
theorem most_specific_first_ipv4 (records : List (List String)) (db : CSVDatabase)
    (hdb : NewCSVDatabase records = .ok db) (K : String) (front mid back : List cidrEntry)
    (ei ej : cidrEntry)
    (hget : db.cidrByNet.get K = some (front ++ ei :: (mid ++ ej :: back)))
    (hi4 : ei.network.IP.length = 4) (hj4 : ej.network.IP.length = 4) (ip : IP)
    (hc : ei.network.Contains ip = true) : ej.network.Contains ip = true := by
  have hinv := StoreInv_NewCSVDatabase records db hdb
  have hsorted := BucketsSorted_NewCSVDatabase records db hdb
  have hmem := GoMap.lookup_mem _ _ _ hget
  obtain ⟨hki, hwfi⟩ := hinv.2 _ hmem ei (by simp)
  obtain ⟨hkj, hwfj⟩ := hinv.2 _ hmem ej (by simp)
  have hsb := hsorted _ hmem
  simp only at hsb
  rw [List.pairwise_append, List.pairwise_cons] at hsb
  have hle : ej.prefixLen ≤ ei.prefixLen := hsb.2.1.1 ej (by simp)
  obtain ⟨_, hl4, pi, hpi, hmi, hmaski⟩ := contains_v4 ei.network ip hwfi hi4 hc
  obtain ⟨pj, ⟨hpj, hmj, _, hfixj⟩ | ⟨_, _, h16, _⟩⟩ := hwfj
  · rw [prefixLen_v4 ei pi hpi hmi, prefixLen_v4 ej pj hpj hmj] at hle
    have hbi : ∀ b ∈ ei.network.IP, b < 256 := by
      rw [← hmaski]; exact andBytes_bound _ _ (CIDRMask_bytes32 pi hpi)
    have hbj : ∀ b ∈ ej.network.IP, b < 256 := by
      rw [← hfixj, hmj]; exact andBytes_bound _ _ (CIDRMask_bytes32 pj hpj)
    have hIP : ei.network.IP = ej.network.IP :=
      String_inj4 _ _ hi4 hj4 hbi hbj (by rw [hki, hkj])
    have hml : ej.network.Mask.length = 4 := by rw [hmj]; exact CIDRMask_length32 pj hpj
    apply contains_of_masked_v4 ej.network ip hj4 hml hl4
    have h2 := masked_twice32 ip.To4 pi pj hpi hpj
    rw [Nat.min_eq_right hle, hmaski, hIP, ← hmj] at h2
    exact h2
  · omega

/-- The rows 10.0.0.0/8, 10.0.0.0/16 and 10.0.0.0/24 share a bucket with the /24 entry first;
what it contains the /8 entry contains. -/
theorem most_specific_first_ipv4_witness :
    (IPNet.mk [10, 0, 0, 0] (CIDRMask 8 32)).Contains (ParseIP "10.0.0.77") = true :=
  most_specific_first_ipv4
    [["10.0.0.0/8", "A", "L1"], ["10.0.0.0/24", "B", "L2"], ["10.0.0.0/16", "C", "L3"]]
    (storeOf [["10.0.0.0/8", "A", "L1"], ["10.0.0.0/24", "B", "L2"], ["10.0.0.0/16", "C", "L3"]])
    (by decide) "10.0.0.0" []
    [cidrEntry.mk (IPNet.mk [10, 0, 0, 0] (CIDRMask 16 32)) (Location.mk "L3" "C")] []
    (cidrEntry.mk (IPNet.mk [10, 0, 0, 0] (CIDRMask 24 32)) (Location.mk "L2" "B"))
    (cidrEntry.mk (IPNet.mk [10, 0, 0, 0] (CIDRMask 8 32)) (Location.mk "L1" "A"))
    (by decide) (by decide) (by decide) (ParseIP "10.0.0.77") (by decide)

/-- C17 (most-specific-first within a bucket), evaluated where it fails. The rows 10.0.0.0/16
and ::ffff:10.0.0.0/104 load into one bucket, keyed 10.0.0.0; the sort by prefix length puts
the /104 entry (the range 10.0.0.0/8) before the /16 entry; the address 10.1.2.3 is contained
in the network of the first entry and not in the network of the second, and for 10.0.5.5 the
first entry of the bucket that contains it is the /104 entry although the /16 entry contains
it too and covers a smaller range. -/
theorem C17_mapped_entry_sorted_before_narrower_range :
    NewCSVDatabase [["10.0.0.0/16", "B", "L2"], ["::ffff:10.0.0.0/104", "A", "L1"]] =
      .ok (storeOf [["10.0.0.0/16", "B", "L2"], ["::ffff:10.0.0.0/104", "A", "L1"]]) ∧
    (storeOf [["10.0.0.0/16", "B", "L2"], ["::ffff:10.0.0.0/104", "A", "L1"]]).cidrByNet.get
        "10.0.0.0" =
      some [cidrEntry.mk (IPNet.mk (v4InV6Prefix ++ [10, 0, 0, 0]) (CIDRMask 104 128))
              (Location.mk "L1" "A"),
            cidrEntry.mk (IPNet.mk [10, 0, 0, 0] (CIDRMask 16 32)) (Location.mk "L2" "B")] ∧
    (IPNet.mk (v4InV6Prefix ++ [10, 0, 0, 0]) (CIDRMask 104 128)).Contains (ParseIP "10.1.2.3")
      = true ∧
    (IPNet.mk [10, 0, 0, 0] (CIDRMask 16 32)).Contains (ParseIP "10.1.2.3") = false ∧
    (IPNet.mk (v4InV6Prefix ++ [10, 0, 0, 0]) (CIDRMask 104 128)).Contains (ParseIP "10.0.5.5")
      = true ∧
    (IPNet.mk [10, 0, 0, 0] (CIDRMask 16 32)).Contains (ParseIP "10.0.5.5") = true ∧
    cidrEntry.hostBits (cidrEntry.mk (IPNet.mk [10, 0, 0, 0] (CIDRMask 16 32))
        (Location.mk "L2" "B")) <
      cidrEntry.hostBits (cidrEntry.mk (IPNet.mk (v4InV6Prefix ++ [10, 0, 0, 0])
        (CIDRMask 104 128)) (Location.mk "L1" "A")) := by
  refine ⟨by decide, by decide, by decide, by decide, by decide, by decide, by decide⟩

/-- C19, the claim as worded, evaluated where it fails. With the single row 10.0.0.0/24 the
address 10.1.2.3 masked to 8 bits gives the key 10.0.0.0 of the bucket of that row; the first
entry of the bucket does not contain the address; FindLocation answers not found, and the scan
without the test answers with the location of the row. With a row 10.0.0.0/8 added both
answer, with different locations. -/
theorem C19_first_entry_need_not_contain :
    NewCSVDatabase [["10.0.0.0/24", "B", "L2"]] = .ok (storeOf [["10.0.0.0/24", "B", "L2"]]) ∧
    (storeOf [["10.0.0.0/24", "B", "L2"]]).cidrByNet.get
        (IP.String (andBytes (ParseIP "10.1.2.3").To4 (CIDRMask 8 32))) =
      some [cidrEntry.mk (IPNet.mk [10, 0, 0, 0] (CIDRMask 24 32)) (Location.mk "L2" "B")] ∧
    (IPNet.mk [10, 0, 0, 0] (CIDRMask 24 32)).Contains (ParseIP "10.1.2.3") = false ∧
    FindLocation (storeOf [["10.0.0.0/24", "B", "L2"]]) (ParseIP "10.1.2.3") =
      .error (.NotFoundError "10.1.2.3") ∧
    FindLocationNoCheck (storeOf [["10.0.0.0/24", "B", "L2"]]) (ParseIP "10.1.2.3") =
      .ok (Location.mk "L2" "B") ∧
    FindLocation (storeOf [["10.0.0.0/8", "A", "L1"], ["10.0.0.0/24", "B", "L2"]])
      (ParseIP "10.1.2.3") = .ok (Location.mk "L1" "A") ∧
    FindLocationNoCheck (storeOf [["10.0.0.0/8", "A", "L1"], ["10.0.0.0/24", "B", "L2"]])
      (ParseIP "10.1.2.3") = .ok (Location.mk "L2" "B") := by
  refine ⟨by decide, by decide, by decide, by decide, by decide, by decide, by decide⟩

/-! ### The text of IPv6 addresses determines the address -/

theorem digit_hex : ∀ n, n < 16 → (hexVal (digit n)).getD 0 = n := by decide

theorem digit_not_colon (n : Nat) : digit n ≠ ':' := by
  by_cases h : n < 16
  · revert n; decide
  · have : digit n = '0' := by
      unfold digit
      rw [List.getD_eq_default]
      simp only [digits] 
      show 16 ≤ n
      omega
    rw [this]; decide

theorem appendHex_eq (b : List Char) (x : Nat) : appendHex b x = b ++ appendHex [] x := by
  unfold appendHex
  simp only
  split_ifs <;> simp

theorem appendHex_ne_nil (x : Nat) : appendHex [] x ≠ [] := by
  unfold appendHex
  simp

theorem appendHex_no_colon (x : Nat) : ':' ∉ appendHex [] x := by
  unfold appendHex
  simp only
  intro h
  have key : ∀ n, ':' ≠ digit n := fun n => (digit_not_colon n).symm
  split_ifs at h <;> simp [key] at h

theorem appendHex_decode (x : Nat) (h : x < 65536) : hexDecode (appendHex [] x) = x := by
  unfold appendHex hexDecode
  have e1 : x >>> 12 = x / 4096 := Nat.shiftRight_eq_div_pow x 12
  have e2 : x >>> 8 &&& 0xf = x / 256 % 16 := by
    rw [Nat.shiftRight_eq_div_pow]; exact Nat.and_pow_two_sub_one_eq_mod _ 4
  have e3 : x >>> 4 &&& 0xf = x / 16 % 16 := by
    rw [Nat.shiftRight_eq_div_pow]; exact Nat.and_pow_two_sub_one_eq_mod _ 4
  have e4 : x &&& 0xf = x % 16 := Nat.and_pow_two_sub_one_eq_mod x 4
  rw [e1, e2, e3, e4]
  have d1 := digit_hex (x / 4096) (by omega)
  have d2 := digit_hex (x / 256 % 16) (by omega)
  have d3 := digit_hex (x / 16 % 16) (by omega)
  have d4 := digit_hex (x % 16) (by omega)
  simp only
  split_ifs <;> simp [d1, d2, d3, d4] <;> omega


theorem splitColon_colon (cs : List Char) : splitColon (':' :: cs) = [] :: splitColon cs := by
  simp [splitColon]

theorem splitColon_last (h : List Char) (hh : ':' ∉ h) : splitColon h = [h] := by
  induction h with
  | nil => rfl
  | cons c cs ih =>
    have hc : c ≠ ':' := fun h0 => hh (by rw [h0]; exact List.mem_cons_self _ _)
    have := ih (fun h0 => hh (List.mem_cons_of_mem _ h0))
    simp [splitColon, hc, this]

theorem splitColon_field (h : List Char) (hh : ':' ∉ h) (rest : List Char) :
    splitColon (h ++ ':' :: rest) = h :: splitColon rest := by
  induction h with
  | nil => simp [splitColon]
  | cons c cs ih =>
    have hc : c ≠ ':' := fun h0 => hh (by rw [h0]; exact List.mem_cons_self _ _)
    have := ih (fun h0 => hh (List.mem_cons_of_mem _ h0))
    simp [splitColon, hc, this]

theorem splitColon_hex (x : Nat) (rest : List Char) :
    splitColon (appendHex [] x ++ ':' :: rest) = appendHex [] x :: splitColon rest :=
  splitColon_field _ (appendHex_no_colon x) rest

theorem splitColon_hex_last (x : Nat) : splitColon (appendHex [] x) = [appendHex [] x] :=
  splitColon_last _ (appendHex_no_colon x)

theorem appendHex_append (a b : List Char) (x : Nat) :
    appendHex (a ++ b) x = a ++ appendHex b x := by
  rw [appendHex_eq, appendHex_eq b, List.append_assoc]

theorem appendHex_cons (c : Char) (b : List Char) (x : Nat) :
    appendHex (c :: b) x = c :: appendHex b x := by
  rw [appendHex_eq, appendHex_eq b]; rfl

theorem appendHex_isEmpty (x : Nat) : (appendHex [] x).isEmpty = false := by
  cases h : appendHex [] x with
  | nil => exact absurd h (appendHex_ne_nil x)
  | cons c cs => rfl


theorem zeroRunEnd_spec (ip : List Nat) : ∀ fuel j,
    j ≤ zeroRunEnd ip fuel j ∧ (j ≤ 8 → zeroRunEnd ip fuel j ≤ 8) ∧
    ∀ k, j ≤ k → k < zeroRunEnd ip fuel j → v6u16 ip k = 0 := by
  intro fuel
  induction fuel with
  | zero =>
    intro j
    refine ⟨le_refl _, fun h => h, ?_⟩
    intro k h1 h2
    simp only [zeroRunEnd] at h2
    omega
  | succ fuel ih =>
    intro j
    unfold zeroRunEnd
    split_ifs with h
    · obtain ⟨h1, h2, h3⟩ := ih (j + 1)
      refine ⟨by omega, fun _ => h2 (by omega), ?_⟩
      intro k hk1 hk2
      by_cases hkj : k = j
      · rw [hkj]; exact h.2
      · exact h3 k (by omega) hk2
    · refine ⟨le_refl _, fun h => h, ?_⟩
      intro k h1 h2
      omega

/-- What longestZeroRun returns: no run, marked by (255, 255), or a run of at least two zero
groups within the eight groups. -/
theorem longestZeroRun_spec (ip : List Nat) :
    longestZeroRun ip = (255, 255) ∨
    ((longestZeroRun ip).1 + 2 ≤ (longestZeroRun ip).2 ∧ (longestZeroRun ip).2 ≤ 8 ∧
      ∀ k, (longestZeroRun ip).1 ≤ k → k < (longestZeroRun ip).2 → v6u16 ip k = 0) := by
  unfold longestZeroRun
  have key : ∀ (l : List Nat), (∀ i ∈ l, i < 8) → ∀ z : Nat × Nat,
      (z = (255, 255) ∨ (z.1 + 2 ≤ z.2 ∧ z.2 ≤ 8 ∧ ∀ k, z.1 ≤ k → k < z.2 → v6u16 ip k = 0)) →
      (l.foldl (fun (z : Nat × Nat) i =>
          let j := zeroRunEnd ip 8 i
          let l := j - i
          if 2 ≤ l ∧ z.2 - z.1 < l then (i, j) else z) z = (255, 255) ∨
        ((l.foldl (fun (z : Nat × Nat) i =>
          let j := zeroRunEnd ip 8 i
          let l := j - i
          if 2 ≤ l ∧ z.2 - z.1 < l then (i, j) else z) z).1 + 2 ≤
          (l.foldl (fun (z : Nat × Nat) i =>
          let j := zeroRunEnd ip 8 i
          let l := j - i
          if 2 ≤ l ∧ z.2 - z.1 < l then (i, j) else z) z).2 ∧
         (l.foldl (fun (z : Nat × Nat) i =>
          let j := zeroRunEnd ip 8 i
          let l := j - i
          if 2 ≤ l ∧ z.2 - z.1 < l then (i, j) else z) z).2 ≤ 8 ∧
         ∀ k, (l.foldl (fun (z : Nat × Nat) i =>
          let j := zeroRunEnd ip 8 i
          let l := j - i
          if 2 ≤ l ∧ z.2 - z.1 < l then (i, j) else z) z).1 ≤ k →
           k < (l.foldl (fun (z : Nat × Nat) i =>
          let j := zeroRunEnd ip 8 i
          let l := j - i
          if 2 ≤ l ∧ z.2 - z.1 < l then (i, j) else z) z).2 → v6u16 ip k = 0)) := by
    intro l
    induction l with
    | nil => intro _ z hz; exact hz
    | cons i rest ih =>
      intro hl z hz
      rw [List.foldl_cons]
      apply ih (fun x hx => hl x (List.mem_cons_of_mem _ hx))
      obtain ⟨h1, h2, h3⟩ := zeroRunEnd_spec ip 8 i
      have hi : i < 8 := hl i (List.mem_cons_self _ _)
      simp only
      split_ifs with hc
      · right
        exact ⟨by simp only; omega, h2 (by omega), h3⟩
      · exact hz
  exact key (List.range 8) (fun i hi => List.mem_range.mp hi) (255, 255) (Or.inl rfl)

/-- The text of a 16-byte address in IPv6 form decodes to its eight groups. -/
theorem string6_decode (ip : List Nat) (hb : ∀ k, v6u16 ip k < 65536) :
    decode6 (string6 ip) =
      [v6u16 ip 0, v6u16 ip 1, v6u16 ip 2, v6u16 ip 3, v6u16 ip 4, v6u16 ip 5, v6u16 ip 6,
       v6u16 ip 7] := by
  have hd : ∀ k, hexDecode (appendHex [] (v6u16 ip k)) = v6u16 ip k :=
    fun k => appendHex_decode _ (hb k)
  unfold string6
  have hspec := longestZeroRun_spec ip
  generalize longestZeroRun ip = z at hspec
  obtain ⟨zs, ze⟩ := z
  simp only
  rcases hspec with h | ⟨h1, h2, hz⟩
  · simp only [Prod.mk.injEq] at h
    obtain ⟨rfl, rfl⟩ := h
    simp [appendTo6, appendHex_append, appendHex_cons, decode6, splitColon_hex,
      splitColon_hex_last, splitColon_colon, appendHex_isEmpty, hd, List.takeWhile_cons,
      splitColon]
  · simp only at h1 h2 hz
    have hzs : zs ≤ 6 := by omega
    interval_cases zs <;> interval_cases ze <;> first
      | omega
      | simp [appendTo6, appendHex_append, appendHex_cons, decode6, splitColon_hex,
          splitColon_hex_last, splitColon_colon, appendHex_isEmpty, hd, List.takeWhile_cons,
          splitColon, hz]

theorem cons_of_length (l : List Nat) (n : Nat) (h : l.length = n + 1) :
    ∃ a t, l = a :: t ∧ t.length = n := by
  cases l with
  | nil => simp at h
  | cons a t => exact ⟨a, t, rfl, by simpa using h⟩

theorem length_sixteen (l : List Nat) (h : l.length = 16) :
    ∃ a0 a1 a2 a3 a4 a5 a6 a7 a8 a9 a10 a11 a12 a13 a14 a15, l = [a0, a1, a2, a3, a4, a5, a6, a7, a8, a9, a10, a11, a12, a13, a14, a15] := by
  obtain ⟨a0, l1, e1, h1⟩ := cons_of_length l 15 h
  obtain ⟨a1, l2, e2, h2⟩ := cons_of_length l1 14 h1
  obtain ⟨a2, l3, e3, h3⟩ := cons_of_length l2 13 h2
  obtain ⟨a3, l4, e4, h4⟩ := cons_of_length l3 12 h3
  obtain ⟨a4, l5, e5, h5⟩ := cons_of_length l4 11 h4
  obtain ⟨a5, l6, e6, h6⟩ := cons_of_length l5 10 h5
  obtain ⟨a6, l7, e7, h7⟩ := cons_of_length l6 9 h6
  obtain ⟨a7, l8, e8, h8⟩ := cons_of_length l7 8 h7
  obtain ⟨a8, l9, e9, h9⟩ := cons_of_length l8 7 h8
  obtain ⟨a9, l10, e10, h10⟩ := cons_of_length l9 6 h9
  obtain ⟨a10, l11, e11, h11⟩ := cons_of_length l10 5 h10
  obtain ⟨a11, l12, e12, h12⟩ := cons_of_length l11 4 h11
  obtain ⟨a12, l13, e13, h13⟩ := cons_of_length l12 3 h12
  obtain ⟨a13, l14, e14, h14⟩ := cons_of_length l13 2 h13
  obtain ⟨a14, l15, e15, h15⟩ := cons_of_length l14 1 h14
  obtain ⟨a15, l16, e16, h16⟩ := cons_of_length l15 0 h15
  have e17 : l16 = [] := List.length_eq_zero.mp h16
  refine ⟨a0, a1, a2, a3, a4, a5, a6, a7, a8, a9, a10, a11, a12, a13, a14, a15, ?_⟩
  rw [e1, e2, e3, e4, e5, e6, e7, e8, e9, e10, e11, e12, e13, e14, e15, e16, e17]

theorem pair_value (hi lo : Nat) (hlo : lo < 256) : (hi <<< 8) ||| lo = 256 * hi + lo := by
  rw [Nat.shiftLeft_eq]
  have := Nat.mul_add_lt_is_or (show lo < 2 ^ 8 from hlo) hi
  rw [Nat.mul_comm hi, ← this]

theorem getD_bound (ip : List Nat) (hb : ∀ b ∈ ip, b < 256) (i : Nat) : ip.getD i 0 < 256 := by
  by_cases h : i < ip.length
  · rw [List.getD_eq_getElem _ _ h]
    exact hb _ (List.getElem_mem _)
  · rw [List.getD_eq_default _ _ (by omega)]
    decide

theorem v6u16_bound (ip : List Nat) (hb : ∀ b ∈ ip, b < 256) (k : Nat) : v6u16 ip k < 65536 := by
  unfold v6u16
  have h1 := getD_bound ip hb (2 * k)
  have h2 := getD_bound ip hb (2 * k + 1)
  rw [pair_value _ _ h2]
  omega

/-- The IPv6 text of a 16-byte address determines the address. -/
theorem string6_inj (x y : List Nat) (hx : x.length = 16) (hy : y.length = 16)
    (hbx : ∀ b ∈ x, b < 256) (hby : ∀ b ∈ y, b < 256) (h : string6 x = string6 y) : x = y := by
  have dx := string6_decode x (v6u16_bound x hbx)
  have dy := string6_decode y (v6u16_bound y hby)
  rw [h] at dx
  have hg := dx.symm.trans dy
  obtain ⟨a0, a1, a2, a3, a4, a5, a6, a7, a8, a9, a10, a11, a12, a13, a14, a15, rfl⟩ :=
    length_sixteen x hx
  obtain ⟨b0, b1, b2, b3, b4, b5, b6, b7, b8, b9, b10, b11, b12, b13, b14, b15, rfl⟩ :=
    length_sixteen y hy
  simp only [List.mem_cons, List.mem_singleton, forall_eq_or_imp, forall_eq, List.not_mem_nil,
    false_implies, implies_true, and_true] at hbx hby
  obtain ⟨p0, p1, p2, p3, p4, p5, p6, p7, p8, p9, p10, p11, p12, p13, p14, p15⟩ := hbx
  obtain ⟨q0, q1, q2, q3, q4, q5, q6, q7, q8, q9, q10, q11, q12, q13, q14, q15⟩ := hby
  simp only [v6u16, List.getD_cons_zero, List.getD_cons_succ, List.cons.injEq, and_true,
    Nat.mul_zero, Nat.mul_one, Nat.zero_add, Nat.reduceMul, Nat.reduceAdd] at hg
  rw [pair_value _ _ p1, pair_value _ _ p3, pair_value _ _ p5, pair_value _ _ p7,
    pair_value _ _ p9, pair_value _ _ p11, pair_value _ _ p13, pair_value _ _ p15,
    pair_value _ _ q1, pair_value _ _ q3, pair_value _ _ q5, pair_value _ _ q7,
    pair_value _ _ q9, pair_value _ _ q11, pair_value _ _ q13, pair_value _ _ q15] at hg
  obtain ⟨g0, g1, g2, g3, g4, g5, g6, g7⟩ := hg
  have e0 : a0 = b0 := by omega
  have e1 : a1 = b1 := by omega
  have e2 : a2 = b2 := by omega
  have e3 : a3 = b3 := by omega
  have e4 : a4 = b4 := by omega
  have e5 : a5 = b5 := by omega
  have e6 : a6 = b6 := by omega
  have e7 : a7 = b7 := by omega
  have e8 : a8 = b8 := by omega
  have e9 : a9 = b9 := by omega
  have e10 : a10 = b10 := by omega
  have e11 : a11 = b11 := by omega
  have e12 : a12 = b12 := by omega
  have e13 : a13 = b13 := by omega
  have e14 : a14 = b14 := by omega
  have e15 : a15 = b15 := by omega
  rw [e0, e1, e2, e3, e4, e5, e6, e7, e8, e9, e10, e11, e12, e13, e14, e15]

/-! ### Bucket hits of IPv6 addresses -/

theorem maskByte_and : ∀ a, a < 8 → ∀ b, b < 8 →
    (0xff ^^^ (0xff >>> a)) &&& (0xff ^^^ (0xff >>> b)) = 0xff ^^^ (0xff >>> min a b) := by
  decide

theorem maskByte_ff : ∀ a, a < 8 →
    0xff &&& (0xff ^^^ (0xff >>> a)) = 0xff ^^^ (0xff >>> a) ∧
    (0xff ^^^ (0xff >>> a)) &&& 0xff = 0xff ^^^ (0xff >>> a) := by
  decide

theorem fill_and : ∀ l a b,
    andBytes (CIDRMask.fill l a) (CIDRMask.fill l b) = CIDRMask.fill l (min a b) := by
  intro l
  induction l with
  | zero => intro a b; rfl
  | succ l ih =>
    intro a b
    by_cases ha : 8 ≤ a <;> by_cases hb : 8 ≤ b
    · have hm : 8 ≤ min a b := by omega
      have hs : min (a - 8) (b - 8) = min a b - 8 := by omega
      simp only [CIDRMask.fill, ha, hb, hm, if_true, andBytes, List.zipWith_cons_cons]
      have := ih (a - 8) (b - 8)
      rw [hs] at this
      simp only [andBytes] at this
      rw [this]
      rfl
    · have hm : ¬ 8 ≤ min a b := by omega
      have hmin : min a b = b := by omega
      simp only [CIDRMask.fill, ha, hb, hm, if_true, if_false, andBytes, List.zipWith_cons_cons]
      have := ih (a - 8) 0
      rw [Nat.min_zero] at this
      simp only [andBytes] at this
      rw [this, hmin, (maskByte_ff b (by omega)).1]
    · have hm : ¬ 8 ≤ min a b := by omega
      have hmin : min a b = a := by omega
      simp only [CIDRMask.fill, ha, hb, hm, if_true, if_false, andBytes, List.zipWith_cons_cons]
      have := ih 0 (b - 8)
      rw [Nat.zero_min] at this
      simp only [andBytes] at this
      rw [this, hmin, (maskByte_ff a (by omega)).2]
    · have hm : ¬ 8 ≤ min a b := by omega
      simp only [CIDRMask.fill, ha, hb, hm, if_false, andBytes, List.zipWith_cons_cons]
      have := ih 0 0
      rw [Nat.min_self] at this
      simp only [andBytes] at this
      rw [this, maskByte_and a (by omega) b (by omega)]

theorem CIDRMask_and128 (a : Nat) (ha : a ≤ 128) (b : Nat) (hb : b ≤ 128) :
    andBytes (CIDRMask a 128) (CIDRMask b 128) = CIDRMask (min a b) 128 := by
  have h1 : ¬ 128 < a := by omega
  have h2 : ¬ 128 < b := by omega
  have h3 : ¬ 128 < min a b := by omega
  unfold CIDRMask
  simp only [IPv4len, IPv6len, h1, h2, h3, if_false]
  simp only [ne_eq, Nat.reduceMul, Nat.reduceEqDiff, not_false_eq_true, not_true_eq_false,
    and_false, if_false]
  exact fill_and _ a b

set_option maxRecDepth 100000 in
theorem CIDRMask_bytes128 : ∀ p, p ≤ 128 → ∀ b ∈ CIDRMask p 128, b < 256 := by decide

set_option maxRecDepth 100000 in
theorem CIDRMask_take12 : ∀ p, p ≤ 128 → 96 ≤ p →
    (CIDRMask p 128).take 12 = List.replicate 12 0xff := by decide

theorem String_six (x : IP) (hx : x.length = 16) (hx4 : x.To4 = []) :
    IP.String x = String.mk (string6 x) := by
  unfold IP.String
  simp [hx, hx4, IPv4len, IPv6len]

/-- The text of a 16-byte address that is not IPv4-mapped determines the address. -/
theorem String_inj16 (x y : IP) (hx : x.length = 16) (hy : y.length = 16)
    (hx4 : x.To4 = []) (hy4 : y.To4 = [])
    (hbx : ∀ b ∈ x, b < 256) (hby : ∀ b ∈ y, b < 256) (h : IP.String x = IP.String y) :
    x = y := by
  rw [String_six x hx hx4, String_six y hy hy4] at h
  exact string6_inj x y hx hy hbx hby (congrArg String.data h)

theorem masked_length128 (x : IP) (hx : x.length = 16) (p : Nat) (hp : p ≤ 128) :
    (andBytes x (CIDRMask p 128)).length = 16 ∧ ∀ b ∈ andBytes x (CIDRMask p 128), b < 256 := by
  refine ⟨?_, andBytes_bound x _ (CIDRMask_bytes128 p hp)⟩
  rw [andBytes_length, hx, CIDRMask_length128 p hp]
  rfl

theorem masked_twice128 (x : IP) (a b : Nat) (ha : a ≤ 128) (hb : b ≤ 128) :
    andBytes (andBytes x (CIDRMask a 128)) (CIDRMask b 128) =
      andBytes x (CIDRMask (min a b) 128) := by
  rw [andBytes_assoc, CIDRMask_and128 a ha b hb]

theorem and_ff (x : Nat) (h : x < 256) : x &&& 255 = x := by
  have := Nat.and_pow_two_sub_one_eq_mod x 8
  norm_num at this
  rw [this]
  omega

/-- Masking an IPv6 address that is not IPv4-mapped does not give an IPv4-mapped one. -/
theorem masked_not_mapped (ip : IP) (hl : ip.length = 16) (h4 : ip.To4 = [])
    (hb : ∀ b ∈ ip, b < 256) (L : Nat) (hL : L ≤ 128) :
    IP.To4 (andBytes ip (CIDRMask L 128)) = [] := by
  by_contra hne
  obtain ⟨x0, x1, x2, x3, x4, x5, x6, x7, x8, x9, x10, x11, x12, x13, x14, x15, rfl⟩ :=
    length_sixteen ip hl
  obtain ⟨m0, m1, m2, m3, m4, m5, m6, m7, m8, m9, m10, m11, m12, m13, m14, m15, hm⟩ :=
    length_sixteen _ (CIDRMask_length128 L hL)
  have h11 := CIDRMask_byte11 L hL
  have h12 := CIDRMask_take12 L hL
  rw [hm] at hne h11 h12
  simp only [List.mem_cons, List.mem_singleton, forall_eq_or_imp, forall_eq, List.not_mem_nil,
    false_implies, implies_true, and_true] at hb
  obtain ⟨p0, p1, p2, p3, p4, p5, p6, p7, p8, p9, p10, p11, _⟩ := hb
  simp only [IP.To4, IPv4len, IPv6len, andBytes, List.zipWith_cons_cons, List.zipWith_nil_right,
    List.length_cons, List.length_nil, isZeros, List.take_succ_cons, List.take_zero,
    List.all_cons, List.all_nil, List.getD_cons_zero, List.getD_cons_succ, Nat.reduceAdd,
    Nat.reduceEqDiff, if_false, Bool.and_true, Bool.and_eq_true, beq_iff_eq, true_and] at hne h4
  simp only [List.getD_cons_succ, List.getD_cons_zero] at h11
  split_ifs at hne with hc
  · obtain ⟨⟨z0, z1, z2, z3, z4, z5, z6, z7, z8, z9⟩, e10, e11⟩ := hc
    have hx11 : x11 = 255 := by
      have := @Nat.and_le_left x11 m11
      omega
    have hL96 : 96 ≤ L := h11 (by rw [← hx11]; rw [hx11] at e11 ⊢; exact e11)
    have ht := h12 hL96
    simp only [List.take_succ_cons, List.take_zero, List.replicate, List.cons.injEq,
      and_true] at ht
    obtain ⟨t0, t1, t2, t3, t4, t5, t6, t7, t8, t9, t10, t11⟩ := ht
    subst t0 t1 t2 t3 t4 t5 t6 t7 t8 t9 t10 t11
    rw [and_ff _ p0] at z0
    rw [and_ff _ p1] at z1
    rw [and_ff _ p2] at z2
    rw [and_ff _ p3] at z3
    rw [and_ff _ p4] at z4
    rw [and_ff _ p5] at z5
    rw [and_ff _ p6] at z6
    rw [and_ff _ p7] at z7
    rw [and_ff _ p8] at z8
    rw [and_ff _ p9] at z9
    rw [and_ff _ p10] at e10
    subst z0 z1 z2 z3 z4 z5 z6 z7 z8 z9 e10 hx11
    simp at h4
  · exact hne rfl

theorem contains_of_masked_v6 (n : IPNet) (ip : IP) (hiplen : n.IP.length = 16)
    (hml : n.Mask.length = 16) (hn4 : n.IP.To4 = []) (hl : ip.length = 16) (h4 : ip.To4 = [])
    (h : andBytes n.IP n.Mask = andBytes ip n.Mask) : n.Contains ip = true := by
  rcases networkNumberAndMask_v6 n hiplen hml with ⟨_, hnm⟩ | ⟨hne, _⟩
  · unfold IPNet.Contains
    simp only
    rw [hnm, h4]
    simp only [ne_eq, not_true_eq_false, if_false, hl, hiplen]
    exact sameUnderMask_of_eq _ _ _ h
  · exact absurd hn4 hne

/-- An entry that sits in a bucket keyed by the text of a 16-byte address in IPv6 form is an
IPv6 range with that network number. -/
theorem entry_of_v6_key (n : IPNet) (hwf : n.wellFormed) (y : IP) (hy : y.length = 16)
    (hy4 : y.To4 = []) (hby : ∀ b ∈ y, b < 256) (hk : n.IP.String = IP.String y) :
    ∃ p, p ≤ 128 ∧ n.Mask = CIDRMask p 128 ∧ n.IP = y ∧ andBytes n.IP n.Mask = n.IP := by
  obtain ⟨p, ⟨hp, hmask, hiplen, hfix⟩ | ⟨hp, hmask, hiplen, hfix⟩⟩ := hwf
  · have hb : ∀ b ∈ n.IP, b < 256 := by
      rw [← hfix, hmask]; exact andBytes_bound _ _ (CIDRMask_bytes32 p hp)
    exact absurd hk.symm (String_v4_ne_v6 n.IP y hiplen hb hy hy4)
  · have hb : ∀ b ∈ n.IP, b < 256 := by
      rw [← hfix, hmask]; exact andBytes_bound _ _ (CIDRMask_bytes128 p hp)
    rcases To4_cases n.IP with ⟨h4, _⟩ | ⟨_, h4⟩ | ⟨_, hdrop, h4⟩
    · omega
    · exact ⟨p, hp, hmask, String_inj16 _ _ hiplen hy h4 hy4 hb hby hk, hfix⟩
    · have hne : n.IP.To4 ≠ [] := by
        intro h0; rw [h0] at h4; simp at h4
      have hb4 : ∀ b ∈ n.IP.To4, b < 256 := by
        intro b hbm
        rw [hdrop] at hbm
        exact hb b (List.mem_of_mem_drop hbm)
      have hs := String_To4 n.IP hne
      exact absurd (hk.symm.trans hs.symm) (String_v4_ne_v6 n.IP.To4 y h4 hb4 hy hy4)

/-- What a bucket hit says for an IPv6 address: every entry of the bucket with prefix length at
most the level of the hit contains the address. -/
theorem bucket_hit_contains_v6 (db : CSVDatabase) (hinv : StoreInv db) (ip : IP)
    (hl : ip.length = 16) (h4 : ip.To4 = []) (hb : ∀ b ∈ ip, b < 256)
    (L : Nat) (hL : L ≤ 128) (bucket : List cidrEntry)
    (hget : db.cidrByNet.get (IP.String (andBytes ip (CIDRMask L 128))) = some bucket)
    (e : cidrEntry) (he : e ∈ bucket) (hp : e.prefixLen ≤ L) :
    e.network.Contains ip = true := by
  obtain ⟨hkey, hwf⟩ := hinv.2 _ (GoMap.lookup_mem _ _ _ hget) e he
  obtain ⟨hlen, hbound⟩ := masked_length128 ip hl L hL
  have hy4 := masked_not_mapped ip hl h4 hb L hL
  obtain ⟨p, hp128, hmask, hip, hfix⟩ := entry_of_v6_key e.network hwf _ hlen hy4 hbound hkey
  have hpl : e.prefixLen = p := by
    unfold cidrEntry.prefixLen
    rw [hmask, CIDRMask_Size128 p hp128]
  rw [hpl] at hp
  have hml : e.network.Mask.length = 16 := by rw [hmask]; exact CIDRMask_length128 p hp128
  apply contains_of_masked_v6 e.network ip (by rw [hip]; exact hlen) hml (by rw [hip]; exact hy4)
    hl h4
  have h2 := masked_twice128 ip L p hL hp128
  rw [Nat.min_eq_right hp, ← hip, ← hmask] at h2
  exact h2

/-- What a bucket hit says. For a valid address (4 or 16 bytes) and a prefix length L that
FindLocation tries for it: if the address masked to L bits gives the key of a bucket, every
entry of that bucket with prefix length at most L contains the address. -/
theorem bucket_hit_contains_any (db : CSVDatabase) (hinv : StoreInv db) (ip : IP)
    (hlen : ip.length = 4 ∨ ip.length = 16) (hb : ∀ b ∈ ip, b < 256)
    (L : Nat) (hL : L ≤ (lookupBytes ip).length * 8) (bucket : List cidrEntry)
    (hget : db.cidrByNet.get (IP.String (andBytes (lookupBytes ip)
      (CIDRMask L ((lookupBytes ip).length * 8)))) = some bucket)
    (e : cidrEntry) (he : e ∈ bucket) (hp : e.prefixLen ≤ L) :
    e.network.Contains ip = true := by
  unfold lookupBytes at hL hget
  rcases To4_cases ip with ⟨h4, hto⟩ | ⟨hn4, hto⟩ | ⟨_, _, h4⟩
  · have hne : ip.To4 ≠ [] := by
      rw [hto]; intro h0; rw [h0] at h4; simp at h4
    have hl4 : ip.To4.length = 4 := by rw [hto]; exact h4
    rw [if_pos hne, hl4] at hL hget
    exact bucket_hit_contains db hinv ip hl4 L hL bucket hget e he hp
  · have h16 : ip.length = 16 := by omega
    rw [if_neg (not_not.mpr hto), h16] at hL hget
    exact bucket_hit_contains_v6 db hinv ip h16 hto hb L hL bucket hget e he hp
  · have hne : ip.To4 ≠ [] := by
      intro h0; rw [h0] at h4; simp at h4
    rw [if_pos hne, h4] at hL hget
    exact bucket_hit_contains db hinv ip h4 L hL bucket hget e he hp

/-- C19, amended: the containment test of the bucket scan is required. For a store built by
NewCSVDatabase and a valid address ip (4 or 16 bytes): whenever ip masked to L bits, L one of
the prefix lengths FindLocation tries, gives the key of a bucket, every entry of that bucket
whose prefix length is at most L contains ip (an entry with a longer prefix need not); and
FindLocation with the test removed returns the same result as FindLocation whenever the first
entry of the first bucket hit contains ip. -/
theorem C19_containment_test_required (records : List (List String)) (db : CSVDatabase)
    (ip : IP) (hdb : NewCSVDatabase records = .ok db)
    (hlen : ip.length = 4 ∨ ip.length = 16) (hb : ∀ b ∈ ip, b < 256) :
    (∀ L, L ≤ (lookupBytes ip).length * 8 → ∀ bucket,
      db.cidrByNet.get (IP.String (andBytes (lookupBytes ip)
        (CIDRMask L ((lookupBytes ip).length * 8)))) = some bucket →
      ∀ e ∈ bucket, e.prefixLen ≤ L → e.network.Contains ip = true) ∧
    ((∀ e, firstBucketHit db ip = some e → e.network.Contains ip = true) →
      FindLocationNoCheck db ip = FindLocation db ip) := by
  refine ⟨?_, FindLocation_eq_NoCheck db ip⟩
  intro L hL bucket hget e he hp
  exact bucket_hit_contains_any db (StoreInv_NewCSVDatabase records db hdb) ip hlen hb L hL
    bucket hget e he hp

/-- Witness for C19: rows 10.0.0.0/8 and 10.0.0.0/24 and the address 10.0.0.77. Masked to 8
bits the address gives the key of their bucket, and the /8 entry contains it; the first bucket
hit is met at 24 bits, its first entry contains the address, and both scans agree. -/
theorem C19_containment_test_required_witness :
    (IPNet.mk [10, 0, 0, 0] (CIDRMask 8 32)).Contains (ParseIP "10.0.0.77") = true ∧
    FindLocationNoCheck (storeOf [["10.0.0.0/8", "A", "L1"], ["10.0.0.0/24", "B", "L2"]])
        (ParseIP "10.0.0.77") =
      FindLocation (storeOf [["10.0.0.0/8", "A", "L1"], ["10.0.0.0/24", "B", "L2"]])
        (ParseIP "10.0.0.77") :=
  have h := C19_containment_test_required [["10.0.0.0/8", "A", "L1"], ["10.0.0.0/24", "B", "L2"]]
    (storeOf [["10.0.0.0/8", "A", "L1"], ["10.0.0.0/24", "B", "L2"]]) (ParseIP "10.0.0.77")
    (by decide) (by decide) (by decide)
  ⟨h.1 8 (by decide)
      [cidrEntry.mk (IPNet.mk [10, 0, 0, 0] (CIDRMask 24 32)) (Location.mk "L2" "B"),
       cidrEntry.mk (IPNet.mk [10, 0, 0, 0] (CIDRMask 8 32)) (Location.mk "L1" "A")]
      (by decide) (cidrEntry.mk (IPNet.mk [10, 0, 0, 0] (CIDRMask 8 32)) (Location.mk "L1" "A"))
      (by simp) (by decide),
    h.2 (by
      intro e he
      have hf : firstBucketHit (storeOf [["10.0.0.0/8", "A", "L1"], ["10.0.0.0/24", "B", "L2"]])
          (ParseIP "10.0.0.77") =
        some (cidrEntry.mk (IPNet.mk [10, 0, 0, 0] (CIDRMask 24 32)) (Location.mk "L2" "B")) := by
        decide
      rw [hf] at he
      cases he
      decide)⟩

end Ip2Country
